import Mathlib

set_option autoImplicit false

/-!
Verification embedding of the Metaswitch/calico Felix policy agent
(`calico/felix/ipsets.py`, `frules.py`, `endpoint.py`, `fetcd.py`).

Python dicts are embedded as association lists with a first-match lookup,
Python sets as duplicate-free-on-insert lists; both are observed only
through membership / lookup, matching the extensional behaviour of the
source's dict / set operations.
-/

namespace Calico

/-! ### Python `set` and `dict` primitives -/

/-- Python `set.add`: no-op when the element is present. -/
def sAdd {α : Type} [DecidableEq α] (x : α) (s : List α) : List α :=
  if x ∈ s then s else x :: s

/-- Python `set.discard`: removes the element when present. -/
def sRemove {α : Type} [DecidableEq α] (x : α) (s : List α) : List α :=
  s.filter (fun y => decide (y ≠ x))

@[simp] theorem mem_sAdd {α : Type} [DecidableEq α] (x y : α) (s : List α) :
    y ∈ sAdd x s ↔ y = x ∨ y ∈ s := by
  unfold sAdd
  split
  · rename_i hx
    constructor
    · exact fun h => Or.inr h
    · rintro (rfl | h)
      · exact hx
      · exact h
  · simp [List.mem_cons]

@[simp] theorem mem_sRemove {α : Type} [DecidableEq α] (x y : α) (s : List α) :
    y ∈ sRemove x s ↔ y ∈ s ∧ y ≠ x := by
  simp [sRemove, List.mem_filter]

/-- Python `d[k] = v` on a dict, as an association-list update. -/
def dictUpsert {α β : Type} [DecidableEq α] (k : α) (v : β) (d : List (α × β)) :
    List (α × β) :=
  (k, v) :: d.filter (fun kv => decide (kv.1 ≠ k))

/-- Python `d.pop(k, ...)` / `del d[k]` on a dict. -/
def dictRemove {α β : Type} [DecidableEq α] (k : α) (d : List (α × β)) :
    List (α × β) :=
  d.filter (fun kv => decide (kv.1 ≠ k))

/-- Python `d.get(k)`: first-match association-list lookup. -/
def dlookup {α β : Type} [DecidableEq α] (k : α) : List (α × β) → Option β
  | [] => none
  | kv :: rest => if kv.1 = k then some kv.2 else dlookup k rest

@[simp] theorem dlookup_nil {α β : Type} [DecidableEq α] (k : α) :
    dlookup (β := β) k [] = none := rfl

theorem dlookup_cons {α β : Type} [DecidableEq α] (k : α) (kv : α × β)
    (d : List (α × β)) :
    dlookup k (kv :: d) = if kv.1 = k then some kv.2 else dlookup k d := rfl

theorem dlookup_dictRemove {α β : Type} [DecidableEq α] (k k' : α)
    (d : List (α × β)) :
    dlookup k' (dictRemove k d) = if k' = k then none else dlookup k' d := by
  induction d with
  | nil => simp [dictRemove]
  | cons kv rest ih =>
    by_cases hk : kv.1 = k
    · have h1 : dictRemove k (kv :: rest) = dictRemove k rest := by
        simp [dictRemove, hk]
      rw [h1, ih]
      by_cases h' : k' = k
      · simp [h']
      · have hne : ¬ kv.1 = k' := fun h => h' (h.symm.trans hk)
        simp [h', dlookup_cons, hne]
    · have h1 : dictRemove k (kv :: rest) = kv :: dictRemove k rest := by
        simp [dictRemove, hk]
      rw [h1, dlookup_cons, dlookup_cons, ih]
      by_cases h2 : kv.1 = k'
      · by_cases h3 : k' = k
        · exact absurd (h2.trans h3) hk
        · simp [h2, h3]
      · simp [h2]

theorem dlookup_dictUpsert {α β : Type} [DecidableEq α] (k k' : α) (v : β)
    (d : List (α × β)) :
    dlookup k' (dictUpsert k v d) = if k' = k then some v else dlookup k' d := by
  show dlookup k' ((k, v) :: dictRemove k d) = _
  rw [dlookup_cons, dlookup_dictRemove]
  by_cases h : k' = k
  · simp [h]
  · have h2 : ¬ (k, v).1 = k' := fun hh => h hh.symm
    simp [h, h2]

theorem bind_cons_eq {α β : Type} (a : α) (l : List α) (f : α → List β) :
    (a :: l).bind f = f a ++ l.bind f := rfl

theorem bind_append_eq {α β : Type} (l1 l2 : List α) (f : α → List β) :
    (l1 ++ l2).bind f = l1.bind f ++ l2.bind f := by
  induction l1 with
  | nil => rfl
  | cons a t ih =>
    show f a ++ (t ++ l2).bind f = (f a ++ t.bind f) ++ l2.bind f
    rw [ih, List.append_assoc]

/-! ### `felix/frules.py`: port-list chunking -/

/-- Maximum number of port entries in a multiport match rule
(`MAX_MULTIPORT_ENTRIES` in `frules.py`); ranges count for 2. -/
def MAX_MULTIPORT_ENTRIES : Nat := 15

/-- An element of a Felix port list: either a single port (an int or a
decimal string in the source) or a colon-separated range string `a:b`. -/
inductive PortSpec where
  | single (n : Nat)
  | range (a b : Nat)
deriving DecidableEq

/-- Rendering of a port spec back to the string the source manipulates. -/
def PortSpec.render : PortSpec → String
  | .single n => toString n
  | .range a b => toString a ++ ":" ++ toString b

/-- Number of multiport entries a port spec consumes: a range counts 2. -/
def PortSpec.entries : PortSpec → Nat
  | .single _ => 1
  | .range _ _ => 2

/-- Set of ports covered by a port spec; a range covers its endpoints in
either order (the source comments that iptables supports either order). -/
def PortSpec.covers : PortSpec → Nat → Prop
  | .single m, n => n = m
  | .range a b, n => min a b ≤ n ∧ n ≤ max a b

instance (p : PortSpec) (n : Nat) : Decidable (p.covers n) :=
  match p with
  | .single m => inferInstanceAs (Decidable (n = m))
  | .range a b => inferInstanceAs (Decidable (min a b ≤ n ∧ n ≤ max a b))

/-- Per-element action of `_filter_zero_ports`: whether the element
mentions port 0, and the (possibly rewritten) entries it contributes. -/
def fzpEntry : PortSpec → Bool × List PortSpec
  | .single 0 => (true, [])
  | .range 0 0 => (true, [])
  | .range 0 1 => (true, [.single 1])
  | .range 1 0 => (true, [.single 1])
  | .range 0 b => (true, [.range 1 b])
  | .range a 0 => (true, [.range a 1])
  | p => (false, [p])

/-- Embedding of `frules._filter_zero_ports`. -/
def filter_zero_ports : List PortSpec → Bool × List PortSpec
  | [] => (false, [])
  | p :: ps =>
    let e := fzpEntry p
    let rest := filter_zero_ports ps
    (e.1 || rest.1, e.2 ++ rest.2)

/-- The chunking loop of `frules._split_port_lists`: carries the finished
chunks, the chunk being filled, and its current entry count. -/
def splitLoop : List PortSpec → List (List PortSpec) → List PortSpec → Nat →
    List (List PortSpec) × List PortSpec × Nat
  | [], chunks, chunk, n => (chunks, chunk, n)
  | p :: ps, chunks, chunk, n =>
    if n + p.entries > MAX_MULTIPORT_ENTRIES then
      splitLoop ps (chunks ++ [chunk]) [p] p.entries
    else
      splitLoop ps chunks (chunk ++ [p]) (n + p.entries)

/-- Final `if chunk or not chunks: chunks.append(chunk)` step of
`_split_port_lists`. -/
def splitFinish (r : List (List PortSpec) × List PortSpec × Nat) :
    List (List PortSpec) :=
  if r.2.1 ≠ [] ∨ r.1 = [] then r.1 ++ [r.2.1] else r.1

/-- Embedding of `frules._split_port_lists`. -/
def split_port_lists (ports : List PortSpec) : List (List PortSpec) :=
  splitFinish (splitLoop (filter_zero_ports ports).2
    (if (filter_zero_ports ports).1 then [[.single 0]] else []) [] 0)

/-- Total multiport entry count of a chunk. -/
def entrySum (c : List PortSpec) : Nat := (c.map PortSpec.entries).sum

theorem PortSpec.entries_le_two (p : PortSpec) : p.entries ≤ 2 := by
  cases p <;> simp [PortSpec.entries]

theorem fzpEntry_covers : ∀ (p : PortSpec) (n : Nat),
    p.covers n ↔ (((fzpEntry p).1 = true ∧ n = 0) ∨
      ∃ p' ∈ (fzpEntry p).2, p'.covers n)
  | .single 0, n => by simp [fzpEntry, PortSpec.covers] <;> omega
  | .single (m+1), n => by simp [fzpEntry, PortSpec.covers] <;> omega
  | .range 0 0, n => by simp [fzpEntry, PortSpec.covers] <;> omega
  | .range 0 1, n => by simp [fzpEntry, PortSpec.covers] <;> omega
  | .range 0 (b+2), n => by simp [fzpEntry, PortSpec.covers] <;> omega
  | .range 1 0, n => by simp [fzpEntry, PortSpec.covers] <;> omega
  | .range (a+2) 0, n => by simp [fzpEntry, PortSpec.covers] <;> omega
  | .range 1 (b+1), n => by simp [fzpEntry, PortSpec.covers] <;> omega
  | .range (a+2) (b+1), n => by simp [fzpEntry, PortSpec.covers] <;> omega

theorem fzpEntry_no_zero : ∀ (p p' : PortSpec),
    p' ∈ (fzpEntry p).2 → ¬ p'.covers 0
  | .single 0, p' => by simp [fzpEntry]
  | .single (m+1), p' => by simp [fzpEntry]; rintro rfl; simp [PortSpec.covers]
  | .range 0 0, p' => by simp [fzpEntry]
  | .range 0 1, p' => by simp [fzpEntry]; rintro rfl; simp [PortSpec.covers]
  | .range 1 0, p' => by simp [fzpEntry]; rintro rfl; simp [PortSpec.covers]
  | .range 0 (b+2), p' => by
    simp [fzpEntry]; rintro rfl; simp [PortSpec.covers] <;> omega
  | .range (a+2) 0, p' => by
    simp [fzpEntry]; rintro rfl; simp [PortSpec.covers] <;> omega
  | .range 1 (b+1), p' => by
    simp [fzpEntry]; rintro rfl; simp [PortSpec.covers] <;> omega
  | .range (a+2) (b+1), p' => by
    simp [fzpEntry]; rintro rfl; simp [PortSpec.covers] <;> omega

theorem filter_zero_ports_covers (ports : List PortSpec) (n : Nat) :
    (∃ p ∈ ports, p.covers n) ↔
      (((filter_zero_ports ports).1 = true ∧ n = 0) ∨
        ∃ p' ∈ (filter_zero_ports ports).2, p'.covers n) := by
  induction ports with
  | nil => simp [filter_zero_ports]
  | cons p ps ih =>
    simp only [filter_zero_ports, List.mem_cons, List.mem_append,
      Bool.or_eq_true]
    constructor
    · rintro ⟨q, hq | hq, hcov⟩
      · rcases (fzpEntry_covers p n).mp (hq ▸ hcov) with ⟨hz, hn⟩ | ⟨p', hp', hc⟩
        · exact Or.inl ⟨Or.inl hz, hn⟩
        · exact Or.inr ⟨p', Or.inl hp', hc⟩
      · rcases ih.mp ⟨q, hq, hcov⟩ with ⟨hz, hn⟩ | ⟨p', hp', hc⟩
        · exact Or.inl ⟨Or.inr hz, hn⟩
        · exact Or.inr ⟨p', Or.inr hp', hc⟩
    · rintro (⟨hz | hz, hn⟩ | ⟨p', hp' | hp', hc⟩)
      · exact ⟨p, Or.inl rfl, (fzpEntry_covers p n).mpr (Or.inl ⟨hz, hn⟩)⟩
      · rcases ih.mpr (Or.inl ⟨hz, hn⟩) with ⟨q, hq, hcov⟩
        exact ⟨q, Or.inr hq, hcov⟩
      · exact ⟨p, Or.inl rfl, (fzpEntry_covers p n).mpr (Or.inr ⟨p', hp', hc⟩)⟩
      · rcases ih.mpr (Or.inr ⟨p', hp', hc⟩) with ⟨q, hq, hcov⟩
        exact ⟨q, Or.inr hq, hcov⟩

theorem filter_zero_ports_no_zero (ports : List PortSpec) :
    ∀ p' ∈ (filter_zero_ports ports).2, ¬ p'.covers 0 := by
  induction ports with
  | nil => simp [filter_zero_ports]
  | cons p ps ih =>
    intro p' hp'
    simp only [filter_zero_ports, List.mem_append] at hp'
    rcases hp' with h | h
    · exact fzpEntry_no_zero p p' h
    · exact ih p' h

theorem filter_zero_ports_zero_iff (ports : List PortSpec) :
    (filter_zero_ports ports).1 = true ↔ ∃ p ∈ ports, p.covers 0 := by
  rw [filter_zero_ports_covers ports 0]
  constructor
  · intro h
    exact Or.inl ⟨h, rfl⟩
  · rintro (⟨h, _⟩ | ⟨p', hp', hc⟩)
    · exact h
    · exact absurd hc (filter_zero_ports_no_zero ports p' hp')

theorem splitLoop_spec : ∀ (ps : List PortSpec) (chunks : List (List PortSpec))
    (chunk : List PortSpec) (n : Nat),
    ∃ suf, (splitLoop ps chunks chunk n).1 = chunks ++ suf ∧
      ∀ q : PortSpec,
        ((∃ c ∈ suf, q ∈ c) ∨ q ∈ (splitLoop ps chunks chunk n).2.1) ↔
          (q ∈ chunk ∨ q ∈ ps)
  | [], chunks, chunk, n => ⟨[], by simp [splitLoop]⟩
  | p :: ps, chunks, chunk, n => by
    rw [splitLoop]
    split
    · obtain ⟨suf, h1, h2⟩ := splitLoop_spec ps (chunks ++ [chunk]) [p] p.entries
      refine ⟨chunk :: suf, by simpa using h1, fun q => ?_⟩
      rw [show (∃ c ∈ chunk :: suf, q ∈ c) ↔ q ∈ chunk ∨ ∃ c ∈ suf, q ∈ c by
        simp]
      rw [or_assoc, h2 q]
      simp [or_comm, or_left_comm]
    · obtain ⟨suf, h1, h2⟩ := splitLoop_spec ps chunks (chunk ++ [p]) (n + p.entries)
      refine ⟨suf, h1, fun q => ?_⟩
      rw [h2 q]
      simp [or_assoc]

theorem splitLoop_bounds : ∀ (ps : List PortSpec) (chunks : List (List PortSpec))
    (chunk : List PortSpec) (n : Nat),
    (∀ c ∈ chunks, entrySum c ≤ MAX_MULTIPORT_ENTRIES) →
    entrySum chunk = n → n ≤ MAX_MULTIPORT_ENTRIES →
    (∀ c ∈ (splitLoop ps chunks chunk n).1, entrySum c ≤ MAX_MULTIPORT_ENTRIES) ∧
      entrySum (splitLoop ps chunks chunk n).2.1 ≤ MAX_MULTIPORT_ENTRIES
  | [], chunks, chunk, n => fun hc hchunk hn => by
    simp only [splitLoop]
    exact ⟨hc, hchunk ▸ hn⟩
  | p :: ps, chunks, chunk, n => fun hc hchunk hn => by
    rw [splitLoop]
    split
    · refine splitLoop_bounds ps (chunks ++ [chunk]) [p] p.entries ?_ ?_ ?_
      · intro c hcmem
        rcases List.mem_append.mp hcmem with h | h
        · exact hc c h
        · simp at h
          exact h ▸ hchunk ▸ hn
      · simp [entrySum]
      · exact le_trans (PortSpec.entries_le_two p) (by norm_num [MAX_MULTIPORT_ENTRIES])
    · rename_i hle
      refine splitLoop_bounds ps chunks (chunk ++ [p]) (n + p.entries) hc ?_ ?_
      · unfold entrySum at hchunk ⊢
        simp
        omega
      · omega

theorem split_port_lists_mem (ports : List PortSpec) (q : PortSpec) :
    (∃ c ∈ split_port_lists ports, q ∈ c) ↔
      ((filter_zero_ports ports).1 = true ∧ q = .single 0) ∨
        q ∈ (filter_zero_ports ports).2 := by
  obtain ⟨suf, h1, h2⟩ :=
    splitLoop_spec (filter_zero_ports ports).2
      (if (filter_zero_ports ports).1 then [[.single 0]] else []) [] 0
  have h2' : ∀ q : PortSpec,
      ((∃ c ∈ suf, q ∈ c) ∨
        q ∈ (splitLoop (filter_zero_ports ports).2
          (if (filter_zero_ports ports).1 then [[.single 0]] else []) [] 0).2.1) ↔
      q ∈ (filter_zero_ports ports).2 := by
    intro q'
    rw [h2 q']
    simp
  have hc0 : (∃ c ∈ (if (filter_zero_ports ports).1 then
        [[PortSpec.single 0]] else []), q ∈ c) ↔
      ((filter_zero_ports ports).1 = true ∧ q = .single 0) := by
    by_cases hz : (filter_zero_ports ports).1 = true
    · simp [hz]
    · simp [hz]
  have hres :
      (∃ c ∈ split_port_lists ports, q ∈ c) ↔
        ((∃ c ∈ (if (filter_zero_ports ports).1 then
          [[PortSpec.single 0]] else []), q ∈ c) ∨
          q ∈ (filter_zero_ports ports).2) := by
    unfold split_port_lists splitFinish
    set c0 : List (List PortSpec) :=
      if (filter_zero_ports ports).1 then [[PortSpec.single 0]] else []
      with hc0def
    split
    · rw [h1]
      simp only [List.mem_append, List.mem_singleton]
      constructor
      · rintro ⟨c, (hc | hc) | hc, hq⟩
        · exact Or.inl ⟨c, hc, hq⟩
        · exact Or.inr ((h2' q).mp (Or.inl ⟨c, hc, hq⟩))
        · exact Or.inr ((h2' q).mp (Or.inr (hc ▸ hq)))
      · rintro (⟨c, hc, hq⟩ | hq)
        · exact ⟨c, Or.inl (Or.inl hc), hq⟩
        · rcases (h2' q).mpr hq with ⟨c, hc, hq'⟩ | hq'
          · exact ⟨c, Or.inl (Or.inr hc), hq'⟩
          · exact ⟨_, Or.inr rfl, hq'⟩
    · rename_i hcond
      push_neg at hcond
      rw [h1]
      simp only [List.mem_append]
      constructor
      · rintro ⟨c, hc | hc, hq⟩
        · exact Or.inl ⟨c, hc, hq⟩
        · exact Or.inr ((h2' q).mp (Or.inl ⟨c, hc, hq⟩))
      · rintro (⟨c, hc, hq⟩ | hq)
        · exact ⟨c, Or.inl hc, hq⟩
        · rcases (h2' q).mpr hq with ⟨c, hc, hq'⟩ | hq'
          · exact ⟨c, Or.inr hc, hq'⟩
          · rw [hcond.1] at hq'
            simp at hq'
  rw [hres, hc0]

theorem splitFinish_ne_nil (r : List (List PortSpec) × List PortSpec × Nat) :
    splitFinish r ≠ [] := by
  unfold splitFinish
  split
  · simp
  · rename_i hcond
    push_neg at hcond
    exact hcond.2

theorem splitFinish_subset (r : List (List PortSpec) × List PortSpec × Nat)
    (c : List PortSpec) (hc : c ∈ splitFinish r) : c ∈ r.1 ∨ c = r.2.1 := by
  unfold splitFinish at hc
  split at hc
  · rcases List.mem_append.mp hc with h | h
    · exact Or.inl h
    · simp at h
      exact Or.inr h
  · exact Or.inl hc

theorem split_port_lists_ne_nil (ports : List PortSpec) :
    split_port_lists ports ≠ [] := by
  unfold split_port_lists
  exact splitFinish_ne_nil _

theorem split_port_lists_head_zero (ports : List PortSpec)
    (hz : (filter_zero_ports ports).1 = true) :
    ∃ rest, split_port_lists ports = [PortSpec.single 0] :: rest ∧
      ∀ c ∈ rest, ∀ q ∈ c, ¬ q.covers 0 := by
  obtain ⟨suf, h1, h2⟩ :=
    splitLoop_spec (filter_zero_ports ports).2 [[.single 0]] [] 0
  have hkey : split_port_lists ports =
      splitFinish (splitLoop (filter_zero_ports ports).2 [[.single 0]] [] 0) := by
    unfold split_port_lists
    rw [if_pos hz]
  have hrest : ∀ q : PortSpec,
      ((∃ c ∈ suf, q ∈ c) ∨
        q ∈ (splitLoop (filter_zero_ports ports).2 [[.single 0]] [] 0).2.1) →
      ¬ q.covers 0 := by
    intro q hq
    have hq2 : q ∈ (filter_zero_ports ports).2 := by
      rcases (h2 q).mp hq with h | h
      · simp at h
      · exact h
    exact filter_zero_ports_no_zero ports q hq2
  rw [hkey]
  unfold splitFinish
  split
  · refine ⟨suf ++
      [(splitLoop (filter_zero_ports ports).2 [[.single 0]] [] 0).2.1],
      by rw [h1]; simp, ?_⟩
    intro c hc q hq
    rcases List.mem_append.mp hc with h | h
    · exact hrest q (Or.inl ⟨c, h, hq⟩)
    · simp at h
      exact hrest q (Or.inr (h ▸ hq))
  · refine ⟨suf, by rw [h1]; simp, ?_⟩
    intro c hc q hq
    exact hrest q (Or.inl ⟨c, hc, hq⟩)

theorem split_port_lists_bounds (ports : List PortSpec) :
    ∀ c ∈ split_port_lists ports, entrySum c ≤ MAX_MULTIPORT_ENTRIES := by
  have hc0b : ∀ c ∈ (if (filter_zero_ports ports).1 then
      [[PortSpec.single 0]] else []), entrySum c ≤ MAX_MULTIPORT_ENTRIES := by
    by_cases hz : (filter_zero_ports ports).1 = true
    · simp [hz, entrySum, PortSpec.entries, MAX_MULTIPORT_ENTRIES]
    · simp [hz]
  have hb := splitLoop_bounds (filter_zero_ports ports).2
    (if (filter_zero_ports ports).1 then [[.single 0]] else []) [] 0
    hc0b (by simp [entrySum]) (by simp [MAX_MULTIPORT_ENTRIES])
  intro c hc
  unfold split_port_lists at hc
  rcases splitFinish_subset _ c hc with h | h
  · exact hb.1 c h
  · exact h ▸ hb.2

/-- C3: every chunk of `_split_port_lists` fits the 15-entry multiport
limit (a range counting 2); an input mentions port 0 (as a value or a
range endpoint) exactly when the zero flag is raised, in which case a
dedicated single-entry `["0"]` chunk leads the result and no other chunk
entry covers port 0; and the chunks together cover exactly the ports the
input covers. -/
theorem C3_port_chunking (ports : List PortSpec) :
    (∀ c ∈ split_port_lists ports, entrySum c ≤ MAX_MULTIPORT_ENTRIES) ∧
    ((filter_zero_ports ports).1 = true ↔ ∃ p ∈ ports, p.covers 0) ∧
    ((filter_zero_ports ports).1 = true →
      ∃ rest, split_port_lists ports = [PortSpec.single 0] :: rest ∧
        ∀ c ∈ rest, ∀ q ∈ c, ¬ q.covers 0) ∧
    (∀ n, (∃ p ∈ ports, p.covers n) ↔
      ∃ c ∈ split_port_lists ports, ∃ q ∈ c, q.covers n) := by
  refine ⟨split_port_lists_bounds ports, filter_zero_ports_zero_iff ports,
    split_port_lists_head_zero ports, ?_⟩
  · intro n
    rw [filter_zero_ports_covers ports n]
    constructor
    · rintro (⟨hz, rfl⟩ | ⟨p', hp', hc⟩)
      · obtain ⟨rest, hsplit, _⟩ := split_port_lists_head_zero ports hz
        exact ⟨[PortSpec.single 0], hsplit ▸ List.mem_cons_self _ _,
          PortSpec.single 0, List.mem_singleton.mpr rfl, rfl⟩
      · obtain ⟨c, hcmem, hq⟩ := (split_port_lists_mem ports p').mpr (Or.inr hp')
        exact ⟨c, hcmem, p', hq, hc⟩
    · rintro ⟨c, hcmem, q, hq, hcov⟩
      rcases (split_port_lists_mem ports q).mp ⟨c, hcmem, hq⟩ with ⟨hz, rfl⟩ | h
      · exact Or.inl ⟨hz, hcov⟩
      · exact Or.inr ⟨q, h, hcov⟩

/-! ### `felix/frules.py`: rule compilation -/

/-- Embedding of a Felix rule dict (`KNOWN_RULE_KEYS`); absent dict keys
are `none`. -/
structure Rule where
  protocol : Option String := none
  src_net : Option String := none
  dst_net : Option String := none
  src_tag : Option String := none
  dst_tag : Option String := none
  src_ports : Option (List PortSpec) := none
  dst_ports : Option (List PortSpec) := none
  icmp_type : Option Nat := none
  icmp_code : Option Nat := none
  action : Option String := none
  ip_version : Option Nat := none
deriving DecidableEq

/-- Exceptions `_rule_to_iptables_fragment` can raise: the explicit
`UnsupportedICMPType`, a failed `assert`, or a `KeyError` on the
tag-to-ipset map. -/
inductive RuleErr where
  | unsupportedICMPType
  | assertionError
  | keyError
deriving DecidableEq

/-- Protocols accepted by the `assert proto in [...]` check. -/
def PROTOS : List String := ["tcp", "udp", "icmp", "icmpv6"]

/-- The `--protocol` fragment plus its `assert`. -/
def protoFragment (proto : Option String) : Except RuleErr (List String) :=
  match proto with
  | none => .ok []
  | some p => if p ∈ PROTOS then .ok ["--protocol", p] else .error .assertionError

/-- The `src_net` / `dst_net` match: emitted only when the address family
of the CIDR (presence of a colon) agrees with the rule's family. -/
def netFragment (direction : String) (net : Option String) (ip_version : Nat) :
    List String :=
  match net with
  | none => []
  | some ip_or_cidr =>
    if (ip_or_cidr.contains ':') = (ip_version == 6) then
      ["--" ++ direction, ip_or_cidr]
    else []

/-- The `src_tag` / `dst_tag` match; a missing tag raises `KeyError` in
the source (`tag_to_ipset[rule[tag_key]]`). -/
def tagFragment (dirn : String) (tag : Option String)
    (tag_to_ipset : List (String × String)) : Except RuleErr (List String) :=
  match tag with
  | none => .ok []
  | some t =>
    match dlookup t tag_to_ipset with
    | none => .error .keyError
    | some ipset_name => .ok ["--match set", "--match-set", ipset_name, dirn]

/-- Port specs that the multiport `assert` rejects: the string `"0"` or a
string starting with `"0:"` (decimal rendering has no leading zeros). -/
def portIsZeroish : PortSpec → Bool
  | .single 0 => true
  | .range 0 _ => true
  | _ => false

/-- The ports match of `_rule_to_iptables_fragment`: empty lists are
skipped, a single entry uses the plain `--xxx-port` match, more entries
use multiport with the 0-port and 15-entry `assert`s. -/
def portsFragment (direction : String) (proto : Option String)
    (ports : Option (List PortSpec)) : Except RuleErr (List String) :=
  match ports with
  | none => .ok []
  | some [] => .ok []
  | some [p0] =>
    if proto = some "tcp" ∨ proto = some "udp" then
      .ok ["--match", proto.getD "", "--" ++ direction ++ "-port", p0.render]
    else .error .assertionError
  | some ports_list =>
    if proto = some "tcp" ∨ proto = some "udp" then
      if ports_list.any portIsZeroish then .error .assertionError
      else if MAX_MULTIPORT_ENTRIES < entrySum ports_list then
        .error .assertionError
      else
        .ok ["--match multiport", "--" ++ direction ++ "-ports",
          String.intercalate "," (ports_list.map PortSpec.render)]
    else .error .assertionError

/-- Rendering of the icmp type / optional code filter value. -/
def icmpFilter (t : Nat) (icmp_code : Option Nat) : String :=
  match icmp_code with
  | some c => toString t ++ "/" ++ toString c
  | none => toString t

/-- The ICMP-type match: type 255 raises `UnsupportedICMPType`; on an
IPv6 rule the protocol must be `icmpv6`; an `icmp` proto with family 6,
or a non-`icmp` proto with family 4, emits nothing. -/
def icmpFragment (proto : Option String) (ip_version : Nat)
    (icmp_type icmp_code : Option Nat) : Except RuleErr (List String) :=
  match icmp_type with
  | none => .ok []
  | some t =>
    if t = 255 then .error .unsupportedICMPType
    else
      if proto = some "icmp" ∧ ip_version = 4 then
        .ok ["--match icmp", "--icmp-type", icmpFilter t icmp_code]
      else if ip_version = 6 then
        if proto = some "icmpv6" then
          .ok ["--match icmp6", "--icmpv6-type", icmpFilter t icmp_code]
        else .error .assertionError
      else .ok []

/-- The terminal `--jump`: the allow target when `action` is `allow`
(the default), the deny target otherwise. -/
def actionFragment (action : Option String) (on_allow on_deny : String) :
    List String :=
  ["--jump", if action.getD "allow" = "allow" then on_allow else on_deny]

/-- Embedding of `frules._rule_to_iptables_fragment`: builds the fragment
pieces in source order (protocol; then per direction net, tag, ports;
then icmp; then the jump), propagating the first raised exception. -/
def _rule_to_iptables_fragment (chain_name : String) (r : Rule)
    (ip_version : Nat) (tag_to_ipset : List (String × String))
    (on_allow : String := "ACCEPT") (on_deny : String := "DROP") :
    Except RuleErr String :=
  match protoFragment r.protocol with
  | .error e => .error e
  | .ok pf =>
    match tagFragment "src" r.src_tag tag_to_ipset with
    | .error e => .error e
    | .ok stf =>
      match portsFragment "source" r.protocol r.src_ports with
      | .error e => .error e
      | .ok spf =>
        match tagFragment "dst" r.dst_tag tag_to_ipset with
        | .error e => .error e
        | .ok dtf =>
          match portsFragment "destination" r.protocol r.dst_ports with
          | .error e => .error e
          | .ok dpf =>
            match icmpFragment r.protocol ip_version r.icmp_type r.icmp_code with
            | .error e => .error e
            | .ok icf =>
              .ok (String.intercalate " " (["--append", chain_name] ++ pf ++
                netFragment "source" r.src_net ip_version ++ stf ++ spf ++
                netFragment "destination" r.dst_net ip_version ++ dtf ++ dpf ++
                icf ++ actionFragment r.action on_allow on_deny))

/-- Embedding of `frules.commented_drop_fragment` (iptables caps the
comment at 255 characters). -/
def commented_drop_fragment (chain_name comment : String) : String :=
  "--append " ++ chain_name ++ " --jump DROP -m comment --comment \"" ++
    comment.take 255 ++ "\""

/-- The `itertools.product(src_port_chunks, dst_port_chunks)` loop of
`rule_to_iptables_fragments`: one fragment attempt per chunk pair. -/
def productFragments (chain_name : String) (r : Rule) (ip_version : Nat)
    (tag_to_ipset : List (String × String)) (on_allow on_deny : String) :
    List (Except RuleErr String) :=
  (split_port_lists (r.src_ports.getD [])).bind (fun sc =>
    (split_port_lists (r.dst_ports.getD [])).map (fun dc =>
      _rule_to_iptables_fragment chain_name
        { r with src_ports := some sc, dst_ports := some dc }
        ip_version tag_to_ipset on_allow on_deny))

/-- Success of the whole `try` block: all fragments or the first error. -/
def collectFragments : List (Except RuleErr String) → Option (List String)
  | [] => some []
  | .ok s :: rest => (collectFragments rest).map (s :: ·)
  | .error _ :: _ => none

/-- Embedding of `frules.rule_to_iptables_fragments`: on any exception the
whole rule collapses to a single commented DROP fragment. -/
def rule_to_iptables_fragments (chain_name : String) (r : Rule)
    (ip_version : Nat) (tag_to_ipset : List (String × String))
    (on_allow : String := "ACCEPT") (on_deny : String := "DROP") :
    List String :=
  match collectFragments
      (productFragments chain_name r ip_version tag_to_ipset on_allow on_deny) with
  | some frags => frags
  | none => [commented_drop_fragment chain_name "ERROR failed to parse rules DROP:"]

/-- Version filter of `rules_to_chain_rewrite_lines`: a rule applies when
`ip_version` is absent or agrees. -/
def ruleMatchesVersion (r : Rule) (ip_version : Nat) : Bool :=
  match r.ip_version with
  | none => true
  | some v => v == ip_version

/-- Per-rule fragments accumulated by `rules_to_chain_rewrite_lines`
before the sentinel mark rule. -/
def chainFragments (chain_name : String) (rules : List Rule)
    (ip_version : Nat) (tag_to_ipset : List (String × String))
    (on_allow on_deny : String) : List String :=
  (rules.filter (fun r => ruleMatchesVersion r ip_version)).bind
    (fun r => rule_to_iptables_fragments chain_name r ip_version tag_to_ipset
      on_allow on_deny)

/-- Embedding of `frules.rules_to_chain_rewrite_lines`. -/
def rules_to_chain_rewrite_lines (chain_name : String) (rules : List Rule)
    (ip_version : Nat) (tag_to_ipset : List (String × String))
    (on_allow : String := "ACCEPT") (on_deny : String := "DROP") :
    List String :=
  chainFragments chain_name rules ip_version tag_to_ipset on_allow on_deny ++
    ["--append " ++ chain_name ++ " --match comment " ++
      "--comment \"Mark as not matched\" --jump MARK --set-mark 1"]

/-! Well-formedness side conditions of a rule that has passed validation
(the source notes the rule "has already passed validation by this point"). -/

/-- The protocol value, when present, is one the compiler accepts. -/
def protoOk (proto : Option String) : Bool :=
  match proto with
  | none => true
  | some p => decide (p ∈ PROTOS)

/-- A present tag resolves in the tag-to-ipset map. -/
def tagResolvable (tag : Option String)
    (tag_to_ipset : List (String × String)) : Bool :=
  match tag with
  | none => true
  | some t => (dlookup t tag_to_ipset).isSome

/-- A non-empty port list comes with a tcp or udp protocol. -/
def portsProtoOk (proto : Option String) (ports : Option (List PortSpec)) :
    Bool :=
  if ports.getD [] = [] then true
  else decide (proto = some "tcp" ∨ proto = some "udp")

theorem portIsZeroish_covers (q : PortSpec) (h : portIsZeroish q = true) :
    q.covers 0 := by
  cases q with
  | single n =>
    cases n with
    | zero => rfl
    | succ m => simp [portIsZeroish] at h
  | range a b =>
    cases a with
    | zero => simp [PortSpec.covers]
    | succ m => simp [portIsZeroish] at h

theorem split_chunk_no_zeroish (ps : List PortSpec) (sc : List PortSpec)
    (hsc : sc ∈ split_port_lists ps) (hlen : 1 < sc.length) :
    ∀ q ∈ sc, portIsZeroish q = false := by
  intro q hq
  by_contra hzq
  rw [Bool.not_eq_false] at hzq
  have hcov := portIsZeroish_covers q hzq
  rcases (split_port_lists_mem ps q).mp ⟨sc, hsc, hq⟩ with ⟨hz, rfl⟩ | hfil
  · obtain ⟨rest, hsplit, hrest⟩ := split_port_lists_head_zero ps hz
    rw [hsplit] at hsc
    rcases List.mem_cons.mp hsc with rfl | hscr
    · simp at hlen
    · exact hrest sc hscr _ hq hcov
  · exact filter_zero_ports_no_zero ps q hfil hcov

theorem split_chunk_nil_of_nil (ps : List PortSpec) (sc : List PortSpec)
    (hps : ps = []) (hsc : sc ∈ split_port_lists ps) : sc = [] := by
  subst hps
  have h : split_port_lists [] = [[]] := rfl
  rw [h] at hsc
  simpa using hsc

theorem portsFragment_ok (direction : String) (proto : Option String)
    (ps : List PortSpec) (sc : List PortSpec)
    (hsc : sc ∈ split_port_lists ps)
    (hp : ps ≠ [] → proto = some "tcp" ∨ proto = some "udp") :
    ∃ out, portsFragment direction proto (some sc) = .ok out := by
  have hne : sc ≠ [] → ps ≠ [] := by
    intro hscne hps
    exact hscne (split_chunk_nil_of_nil ps sc hps hsc)
  match sc, hsc with
  | [], _ => exact ⟨[], rfl⟩
  | [p0], hsc =>
    have hproto := hp (hne (by simp))
    exact ⟨["--match", proto.getD "", "--" ++ direction ++ "-port", p0.render],
      by simp only [portsFragment, if_pos hproto]⟩
  | p0 :: p1 :: rest, hsc =>
    have hproto := hp (hne (by simp))
    have hz : (p0 :: p1 :: rest).any portIsZeroish = false := by
      rw [List.any_eq_false]
      intro q hq
      simp [split_chunk_no_zeroish ps _ hsc (by simp <;> omega) q hq]
    have hsum : ¬ MAX_MULTIPORT_ENTRIES < entrySum (p0 :: p1 :: rest) :=
      not_lt.mpr (split_port_lists_bounds ps _ hsc)
    exact ⟨["--match multiport", "--" ++ direction ++ "-ports",
        String.intercalate "," ((p0 :: p1 :: rest).map PortSpec.render)],
      by simp only [portsFragment, if_pos hproto, hz, Bool.false_eq_true,
        if_false, if_neg hsum]⟩

theorem protoFragment_ok (proto : Option String) (h : protoOk proto = true) :
    ∃ out, protoFragment proto = .ok out := by
  match proto with
  | none => exact ⟨[], rfl⟩
  | some p =>
    have h2 : p ∈ PROTOS := of_decide_eq_true h
    exact ⟨["--protocol", p], by simp only [protoFragment, if_pos h2]⟩

theorem tagFragment_ok (dirn : String) (tag : Option String)
    (tm : List (String × String)) (h : tagResolvable tag tm = true) :
    ∃ out, tagFragment dirn tag tm = .ok out := by
  match tag with
  | none => exact ⟨[], rfl⟩
  | some t =>
    simp only [tagResolvable, Option.isSome_iff_exists] at h
    obtain ⟨name, hname⟩ := h
    exact ⟨["--match set", "--match-set", name, dirn],
      by simp only [tagFragment, hname]⟩

theorem icmpFragment_255 (proto : Option String) (v : Nat)
    (code : Option Nat) :
    icmpFragment proto v (some 255) code = .error .unsupportedICMPType := by
  simp [icmpFragment]

theorem collectFragments_none (l : List (Except RuleErr String)) (e : RuleErr)
    (h : Except.error e ∈ l) : collectFragments l = none := by
  induction l with
  | nil => simp at h
  | cons a rest ih =>
    match a with
    | .error e2 => rfl
    | .ok s =>
      have h2 : Except.error e ∈ rest := by
        rcases List.mem_cons.mp h with h3 | h3
        · exact absurd h3 (by simp)
        · exact h3
      show (collectFragments rest).map (s :: ·) = none
      rw [ih h2]
      rfl

/-- C6: on a validated rule whose `icmp_type` is 255, every per-chunk
fragment attempt raises `UnsupportedICMPType`; the caller replaces the
whole rule with exactly one commented DROP fragment; and in a chain the
surrounding rules compile exactly as they would on their own. -/
theorem C6_icmp255_isolation (chain_name : String) (r : Rule) (v : Nat)
    (tm : List (String × String)) (oa od : String) (rules1 rules2 : List Rule)
    (h255 : r.icmp_type = some 255)
    (hproto : protoOk r.protocol = true)
    (hst : tagResolvable r.src_tag tm = true)
    (hdt : tagResolvable r.dst_tag tm = true)
    (hsp : r.src_ports.getD [] ≠ [] →
      r.protocol = some "tcp" ∨ r.protocol = some "udp")
    (hdp : r.dst_ports.getD [] ≠ [] →
      r.protocol = some "tcp" ∨ r.protocol = some "udp")
    (hv : ruleMatchesVersion r v = true) :
    (∀ sc ∈ split_port_lists (r.src_ports.getD []),
      ∀ dc ∈ split_port_lists (r.dst_ports.getD []),
      _rule_to_iptables_fragment chain_name
        { r with src_ports := some sc, dst_ports := some dc } v tm oa od =
        .error .unsupportedICMPType) ∧
    (rule_to_iptables_fragments chain_name r v tm oa od =
      [commented_drop_fragment chain_name "ERROR failed to parse rules DROP:"]) ∧
    (chainFragments chain_name (rules1 ++ r :: rules2) v tm oa od =
      chainFragments chain_name rules1 v tm oa od ++
      [commented_drop_fragment chain_name "ERROR failed to parse rules DROP:"] ++
      chainFragments chain_name rules2 v tm oa od) := by
  have hfrag : ∀ sc ∈ split_port_lists (r.src_ports.getD []),
      ∀ dc ∈ split_port_lists (r.dst_ports.getD []),
      _rule_to_iptables_fragment chain_name
        { r with src_ports := some sc, dst_ports := some dc } v tm oa od =
        .error .unsupportedICMPType := by
    intro sc hsc dc hdc
    obtain ⟨pf, hpf⟩ := protoFragment_ok r.protocol hproto
    obtain ⟨stf, hstf⟩ := tagFragment_ok "src" r.src_tag tm hst
    obtain ⟨dtf, hdtf⟩ := tagFragment_ok "dst" r.dst_tag tm hdt
    obtain ⟨spf, hspf⟩ :=
      portsFragment_ok "source" r.protocol (r.src_ports.getD []) sc hsc hsp
    obtain ⟨dpf, hdpf⟩ :=
      portsFragment_ok "destination" r.protocol (r.dst_ports.getD []) dc hdc hdp
    unfold _rule_to_iptables_fragment
    simp only [hpf, hstf, hspf, hdtf, hdpf, h255, icmpFragment_255]
  have hdrop : rule_to_iptables_fragments chain_name r v tm oa od =
      [commented_drop_fragment chain_name "ERROR failed to parse rules DROP:"] := by
    obtain ⟨sc, hsc⟩ := List.exists_mem_of_ne_nil _
      (split_port_lists_ne_nil (r.src_ports.getD []))
    obtain ⟨dc, hdc⟩ := List.exists_mem_of_ne_nil _
      (split_port_lists_ne_nil (r.dst_ports.getD []))
    have hmem : (Except.error RuleErr.unsupportedICMPType :
        Except RuleErr String) ∈
        productFragments chain_name r v tm oa od := by
      unfold productFragments
      refine List.mem_bind.mpr ⟨sc, hsc, List.mem_map.mpr ⟨dc, hdc, ?_⟩⟩
      exact hfrag sc hsc dc hdc
    unfold rule_to_iptables_fragments
    rw [collectFragments_none _ _ hmem]
  refine ⟨hfrag, hdrop, ?_⟩
  unfold chainFragments
  have hfc : (r :: rules2).filter (fun r2 => ruleMatchesVersion r2 v) =
      r :: rules2.filter (fun r2 => ruleMatchesVersion r2 v) := by
    simp [List.filter_cons, hv]
  rw [List.filter_append, hfc, bind_append_eq, bind_cons_eq, hdrop]
  simp [List.append_assoc]

/-- C6 witness: the concrete rule of seed scenario 5 (`icmp_type: 255`)
compiles to exactly the single commented DROP fragment. -/
theorem C6_icmp255_isolation_witness :
    rule_to_iptables_fragments "foo"
      { protocol := some "icmp", icmp_type := some 255 } 4 [] "ACCEPT" "DROP" =
      [commented_drop_fragment "foo" "ERROR failed to parse rules DROP:"] :=
  (C6_icmp255_isolation "foo"
    { protocol := some "icmp", icmp_type := some 255 } 4 [] "ACCEPT" "DROP"
    [] [] rfl (by decide) rfl rfl (fun h => absurd rfl h) (fun h => absurd rfl h)
    rfl).2.1

/-- C3 witness: on the concrete port list `[0, 1, "0:10"]` of seed
scenario 4 the chunking yields the dedicated zero chunk first, every
chunk is within the multiport budget, and port 7 stays covered. -/
theorem C3_port_chunking_witness :
    (∃ rest, split_port_lists
        [PortSpec.single 0, PortSpec.single 1, PortSpec.range 0 10] =
        [PortSpec.single 0] :: rest ∧ ∀ c ∈ rest, ∀ q ∈ c, ¬ q.covers 0) ∧
    (∀ c ∈ split_port_lists
        [PortSpec.single 0, PortSpec.single 1, PortSpec.range 0 10],
      entrySum c ≤ MAX_MULTIPORT_ENTRIES) ∧
    (∃ c ∈ split_port_lists
        [PortSpec.single 0, PortSpec.single 1, PortSpec.range 0 10],
      ∃ q ∈ c, q.covers 7) :=
  ⟨(C3_port_chunking _).2.2.1 rfl,
   (C3_port_chunking _).1,
   ((C3_port_chunking
      [PortSpec.single 0, PortSpec.single 1, PortSpec.range 0 10]).2.2.2 7).mp
     ⟨PortSpec.range 0 10, by decide, by decide⟩⟩

/-- C10: an empty port list yields the single empty chunk `[[]]`, and a
rule with no (or empty) source and destination port lists compiles to
exactly one iptables fragment. -/
theorem C10_empty_ports (chain_name : String) (r : Rule) (v : Nat)
    (tm : List (String × String)) (oa od : String)
    (hs : r.src_ports.getD [] = []) (hd : r.dst_ports.getD [] = []) :
    split_port_lists [] = [[]] ∧
    (rule_to_iptables_fragments chain_name r v tm oa od).length = 1 := by
  refine ⟨rfl, ?_⟩
  have hp : productFragments chain_name r v tm oa od =
      [_rule_to_iptables_fragment chain_name
        { r with src_ports := some [], dst_ports := some [] } v tm oa od] := by
    unfold productFragments
    rw [hs, hd]
    rfl
  unfold rule_to_iptables_fragments
  rw [hp]
  cases hE : _rule_to_iptables_fragment chain_name
      { r with src_ports := some [], dst_ports := some [] } v tm oa od with
  | ok s => simp [collectFragments, hE]
  | error e => simp [collectFragments, hE]

/-- C10 witness: a rule with absent port lists compiles to exactly one
fragment. -/
theorem C10_empty_ports_witness :
    (rule_to_iptables_fragments "chain-foo" { src_net := some "10.0.0.0/8" }
      4 [] "ACCEPT" "DROP").length = 1 :=
  (C10_empty_ports "chain-foo" { src_net := some "10.0.0.0/8" } 4 []
    "ACCEPT" "DROP" rfl rfl).2

/-! ### `felix/endpoint.py`: per-endpoint chain generation -/

/-- Chain name stems from `frules.py` (`FELIX_PREFIX`, `CHAIN_TO_PREFIX`,
`CHAIN_FROM_PREFIX`, `CHAIN_PROFILE_PREFIX` there). -/
def FELIX_PFX : String := "felix-"

def CHAIN_TO_PFX : String := FELIX_PFX ++ "to-"

def CHAIN_FROM_PFX : String := FELIX_PFX ++ "from-"

def CHAIN_PROFILE_PFX : String := FELIX_PFX ++ "p-"

/-- Modelled from the spec: `futils.uniquely_shorten` (futils.py is not
among the provided sources). The spec says chain names are derived
"deterministically from the profile id, truncated-and-hashed to the
kernel's name-length limit", and the source tests show identifiers that
fit are kept verbatim (`felix-p-prof1-i`); the opaque hash for over-long
identifiers is modelled as plain truncation. -/
def uniquely_shorten (s : String) (ln : Nat) : String :=
  if s.length ≤ ln then s else s.take ln

/-- Embedding of `frules.profile_to_chain_name`. -/
def profile_to_chain_name (inbound_or_outbound : String)
    (profile_id : String) : String :=
  CHAIN_PROFILE_PFX ++ uniquely_shorten profile_id 16 ++ "-" ++
    inbound_or_outbound.take 1

/-- Embedding of `endpoint.chain_names`. -/
def chain_names (endpoint_suffix : String) : String × String :=
  (CHAIN_TO_PFX ++ endpoint_suffix, CHAIN_FROM_PFX ++ endpoint_suffix)

/-- The six NDP/ICMPv6 types pre-accepted by the to-endpoint chain. -/
def NDP_TYPES : List String := ["130", "131", "132", "134", "135", "136"]

/-- The to-endpoint chain of `endpoint.get_endpoint_rules`: flush; for
IPv6 the six NDP type RETURNs; conntrack INVALID drop;
RELATED,ESTABLISHED return; goto the profile's inbound chain. -/
def endpoint_to_chain (suffix : String) (ip_version : Nat)
    (profile_id : String) : List String :=
  ["--flush " ++ (chain_names suffix).1] ++
  (if ip_version == 6 then
    NDP_TYPES.map (fun t => "--append " ++ (chain_names suffix).1 ++
      " --jump RETURN --protocol ipv6-icmp --icmpv6-type " ++ t)
  else []) ++
  ["--append " ++ (chain_names suffix).1 ++
    " --match conntrack --ctstate INVALID --jump DROP",
   "--append " ++ (chain_names suffix).1 ++
    " --match conntrack --ctstate RELATED,ESTABLISHED --jump RETURN",
   "--append " ++ (chain_names suffix).1 ++ " --goto " ++
    profile_to_chain_name "inbound" profile_id]

/-- CIDR normalisation of a local IP in the anti-spoof rules. -/
def localIpCidr (ip_version : Nat) (ip : String) : String :=
  if ip.contains '/' then ip
  else ip ++ (if ip_version == 4 then "/32" else "/128")

/-- One anti-spoof `--src <cidr> --match mac --mac-source <MAC> --goto`
rule of the from-endpoint chain. -/
def fromChainGotoRule (suffix : String) (ip_version : Nat) (ip mac : String)
    (profile_id : String) : String :=
  "--append " ++ (chain_names suffix).2 ++ " --src " ++
    localIpCidr ip_version ip ++ " --match mac --mac-source " ++
    mac.toUpper ++ " --goto " ++ profile_to_chain_name "outbound" profile_id

/-- The from-endpoint chain of `endpoint.get_endpoint_rules`: flush; for
IPv6 a single all-ICMPv6 match rule; conntrack INVALID drop;
RELATED,ESTABLISHED return; the DHCP allowance for the family; one goto
rule per local IP; unconditional DROP.  The `assert ip_version == 6` on
the DHCP branch makes other families fail (`none`). -/
def endpoint_from_chain (suffix : String) (ip_version : Nat)
    (local_ips : List String) (mac : String) (profile_id : String) :
    Option (List String) :=
  if ip_version = 4 ∨ ip_version = 6 then
    some (["--flush " ++ (chain_names suffix).2] ++
      (if ip_version == 6 then
        ["--append " ++ (chain_names suffix).2 ++ " --protocol ipv6-icmp"]
      else []) ++
      ["--append " ++ (chain_names suffix).2 ++
        " --match conntrack --ctstate INVALID --jump DROP",
       "--append " ++ (chain_names suffix).2 ++
        " --match conntrack --ctstate RELATED,ESTABLISHED --jump RETURN"] ++
      [if ip_version == 4 then
        "--append " ++ (chain_names suffix).2 ++
          " --protocol udp --sport 68 --dport 67 --jump RETURN"
      else
        "--append " ++ (chain_names suffix).2 ++
          " --protocol udp --sport 546 --dport 547 --jump RETURN"] ++
      local_ips.map (fun ip =>
        fromChainGotoRule suffix ip_version ip mac profile_id) ++
      ["--append " ++ (chain_names suffix).2 ++ " --jump DROP"])
  else none

/-- Embedding of `endpoint.get_endpoint_rules` (the `iface` argument is
unused in the source body too). -/
def get_endpoint_rules (suffix iface : String) (ip_version : Nat)
    (local_ips : List String) (mac : String) (profile_id : String) :
    Option (List String × List String) :=
  match endpoint_from_chain suffix ip_version local_ips mac profile_id with
  | none => none
  | some from_chain =>
    some ([(chain_names suffix).1, (chain_names suffix).2],
      endpoint_to_chain suffix ip_version profile_id ++ from_chain)

/-- C7 counterexample: on a concrete IPv6 endpoint, the generated rules
contain the single protocol-wide ICMPv6 rule on the from-chain, and do
NOT contain the per-type NDP RETURN rule (type 130) on the from-chain
that the claim says mirrors the to-chain; the to-chain does carry it. -/
theorem C7_from_chain_counterexample :
    ("--append felix-from-e1 --protocol ipv6-icmp") ∈
      ((get_endpoint_rules "e1" "tape1" 6 ["fe80::1"] "aa:bb:cc:dd:ee:ff"
        "prof").getD ([], [])).2 ∧
    ("--append felix-from-e1 --jump RETURN --protocol ipv6-icmp " ++
      "--icmpv6-type 130") ∉
      ((get_endpoint_rules "e1" "tape1" 6 ["fe80::1"] "aa:bb:cc:dd:ee:ff"
        "prof").getD ([], [])).2 ∧
    ("--append felix-to-e1 --jump RETURN --protocol ipv6-icmp " ++
      "--icmpv6-type 130") ∈
      ((get_endpoint_rules "e1" "tape1" 6 ["fe80::1"] "aa:bb:cc:dd:ee:ff"
        "prof").getD ([], [])).2 := by
  refine ⟨?_, ?_, ?_⟩ <;> decide

theorem getLast?_cons_append_one {α : Type} (a x : α) (l : List α) :
    (a :: (l ++ [x])).getLast? = some x := by
  rw [show a :: (l ++ [x]) = (a :: l) ++ [x] by simp, List.getLast?_concat]

/-- C7 as amended: for either family the from-endpoint chain starts with
its flush, drops conntrack-INVALID, returns RELATED/ESTABLISHED, allows
the family's DHCP ports, gotos the profile's outbound chain for each
declared local IP with the source MAC matched, and ends with an
unconditional DROP; for IPv6 it carries a single rule matching the whole
ICMPv6 protocol rather than the six per-type NDP rules of the to-chain. -/
theorem C7_from_chain_amended (suffix iface : String) (v : Nat)
    (local_ips : List String) (mac profile_id : String)
    (h : v = 4 ∨ v = 6) :
    ∃ fc, endpoint_from_chain suffix v local_ips mac profile_id = some fc ∧
      fc.head? = some ("--flush " ++ (chain_names suffix).2) ∧
      ("--append " ++ (chain_names suffix).2 ++
        " --match conntrack --ctstate INVALID --jump DROP") ∈ fc ∧
      ("--append " ++ (chain_names suffix).2 ++
        " --match conntrack --ctstate RELATED,ESTABLISHED --jump RETURN") ∈ fc ∧
      (if v == 4 then
        "--append " ++ (chain_names suffix).2 ++
          " --protocol udp --sport 68 --dport 67 --jump RETURN"
      else
        "--append " ++ (chain_names suffix).2 ++
          " --protocol udp --sport 546 --dport 547 --jump RETURN") ∈ fc ∧
      (∀ ip ∈ local_ips,
        fromChainGotoRule suffix v ip mac profile_id ∈ fc) ∧
      fc.getLast? =
        some ("--append " ++ (chain_names suffix).2 ++ " --jump DROP") ∧
      (v = 6 →
        ("--append " ++ (chain_names suffix).2 ++ " --protocol ipv6-icmp")
          ∈ fc) ∧
      get_endpoint_rules suffix iface v local_ips mac profile_id =
        some ([(chain_names suffix).1, (chain_names suffix).2],
          endpoint_to_chain suffix v profile_id ++ fc) := by
  rcases h with rfl | rfl
  · refine ⟨_, rfl, rfl, ?_, ?_, ?_, ?_, ?_, ?_, rfl⟩
    · simp
    · simp
    · simp
    · intro ip hip
      have hm := List.mem_map_of_mem
        (fun ip => fromChainGotoRule suffix 4 ip mac profile_id) hip
      simp only [List.append_assoc, List.mem_append, List.mem_cons]
      tauto
    · simp only [List.getLast?_append, List.append_assoc]
      simp [getLast?_cons_append_one]
    · intro h6
      exact absurd h6 (by norm_num)
  · refine ⟨_, rfl, rfl, ?_, ?_, ?_, ?_, ?_, ?_, rfl⟩
    · simp
    · simp
    · simp
    · intro ip hip
      have hm := List.mem_map_of_mem
        (fun ip => fromChainGotoRule suffix 6 ip mac profile_id) hip
      simp only [List.append_assoc, List.mem_append, List.mem_cons]
      tauto
    · simp only [List.getLast?_append, List.append_assoc]
      simp [getLast?_cons_append_one]
    · intro _
      simp

/-- C7 witness: the amended structure holds at the concrete IPv6
endpoint used in the counterexample. -/
theorem C7_from_chain_amended_witness :
    ∃ fc, endpoint_from_chain "e1" 6 ["fe80::1"] "aa:bb:cc:dd:ee:ff" "prof" =
        some fc ∧
      fc.getLast? = some ("--append " ++ (chain_names "e1").2 ++
        " --jump DROP") ∧
      ("--append " ++ (chain_names "e1").2 ++ " --protocol ipv6-icmp") ∈ fc := by
  obtain ⟨fc, h1, _, _, _, _, _, h7, h8, _⟩ :=
    C7_from_chain_amended "e1" "tape1" 6 ["fe80::1"] "aa:bb:cc:dd:ee:ff"
      "prof" (Or.inr rfl)
  exact ⟨fc, h1, h7, h8 rfl⟩

/-! ### `felix/ipsets.py`: the `Ipset` wrapper and its restore scripts -/

/-- One line of an `ipset restore` script, structurally. -/
inductive IpsetOp where
  | create (name settype family : String)
  | flush (name : String)
  | add (name member : String)
  | swap (a b : String)
  | destroy (name : String)
  | commit
deriving DecidableEq

/-- Rendering of a script line exactly as the source formats it. -/
def IpsetOp.render : IpsetOp → String
  | .create name settype family =>
    "create " ++ name ++ " " ++ settype ++ " family " ++ family ++ " --exist"
  | .flush name => "flush " ++ name
  | .add name member => "add " ++ name ++ " " ++ member
  | .swap a b => "swap " ++ a ++ " " ++ b
  | .destroy name => "destroy " ++ name
  | .commit => "COMMIT"

/-- Embedding of the `Ipset` helper class state. -/
structure Ipset where
  set_name : String
  temp_set_name : String
  settype : String := "hash:ip"
  family : String

/-- The single restore script submitted by `Ipset.replace_members`
(`_exec_and_commit` appends the COMMIT line). -/
def Ipset.replace_members_ops (ips : Ipset) (members : List String) :
    List IpsetOp :=
  ([IpsetOp.create ips.set_name ips.settype ips.family,
    IpsetOp.create ips.temp_set_name ips.settype ips.family,
    IpsetOp.flush ips.temp_set_name] ++
   members.map (fun m => IpsetOp.add ips.temp_set_name m) ++
   [IpsetOp.swap ips.set_name ips.temp_set_name,
    IpsetOp.destroy ips.temp_set_name]) ++ [IpsetOp.commit]

/-- The rendered text blob handed to `ipset restore`. -/
def Ipset.replace_members_script (ips : Ipset) (members : List String) :
    String :=
  String.intercalate "\n"
    ((ips.replace_members_ops members).map IpsetOp.render) ++ "\n"

/-- Kernel ipset namespace: named sets and their members. -/
abbrev KernelSets := List (String × List String)

/-- Semantics of one restore line: `create --exist` is idempotent; flush,
add, swap and destroy require their sets to exist. -/
def applyOp (k : KernelSets) : IpsetOp → Option KernelSets
  | .create name _ _ =>
    match dlookup name k with
    | some _ => some k
    | none => some (dictUpsert name [] k)
  | .flush name =>
    match dlookup name k with
    | some _ => some (dictUpsert name [] k)
    | none => none
  | .add name m =>
    match dlookup name k with
    | some ms => some (dictUpsert name (sAdd m ms) k)
    | none => none
  | .swap a b =>
    match dlookup a k, dlookup b k with
    | some ma, some mb => some (dictUpsert a mb (dictUpsert b ma k))
    | _, _ => none
  | .destroy name =>
    match dlookup name k with
    | some _ => some (dictRemove name k)
    | none => none
  | .commit => some k

/-- Running a restore script from a kernel state. -/
def runOps (k : KernelSets) : List IpsetOp → Option KernelSets
  | [] => some k
  | op :: rest =>
    match applyOp k op with
    | none => none
    | some k2 => runOps k2 rest

/-- Members of a named kernel set (empty when the set is absent). -/
def kernelMembers (k : KernelSets) (name : String) : List String :=
  (dlookup name k).getD []

theorem runOps_append (k : KernelSets) (l1 l2 : List IpsetOp) :
    runOps k (l1 ++ l2) =
      match runOps k l1 with
      | none => none
      | some k2 => runOps k2 l2 := by
  induction l1 generalizing k with
  | nil => rfl
  | cons op rest ih =>
    cases h : applyOp k op with
    | none => simp [runOps, h]
    | some k2 => simp [runOps, h, ih k2]

theorem sAdd_foldl_mem (start : List String) (ms : List String) (x : String) :
    x ∈ ms.foldl (fun acc m => sAdd m acc) start ↔ x ∈ ms ∨ x ∈ start := by
  induction ms generalizing start with
  | nil => simp
  | cons m rest ih =>
    rw [List.foldl_cons, ih]
    simp
    tauto

theorem runOps_adds (temp : String) (ms : List String) (k : KernelSets)
    (start : List String) (h : dlookup temp k = some start) :
    ∃ k2, runOps k (ms.map (fun m => IpsetOp.add temp m)) = some k2 ∧
      dlookup temp k2 = some (ms.foldl (fun acc m => sAdd m acc) start) ∧
      ∀ n, n ≠ temp → dlookup n k2 = dlookup n k := by
  induction ms generalizing k start with
  | nil => exact ⟨k, rfl, by simpa using h, fun n _ => rfl⟩
  | cons m rest ih =>
    have hstep : applyOp k (IpsetOp.add temp m) =
        some (dictUpsert temp (sAdd m start) k) := by
      show (match dlookup temp k with
        | some ms2 => some (dictUpsert temp (sAdd m ms2) k)
        | none => none) = _
      rw [h]
    have hmid : dlookup temp (dictUpsert temp (sAdd m start) k) =
        some (sAdd m start) := by
      rw [dlookup_dictUpsert]
      simp
    obtain ⟨k2, hrun, htemp, hoth⟩ :=
      ih (dictUpsert temp (sAdd m start) k) (sAdd m start) hmid
    refine ⟨k2, ?_, by simpa using htemp, ?_⟩
    · show (match applyOp k (IpsetOp.add temp m) with
        | none => none
        | some kk => runOps kk (rest.map (fun m => IpsetOp.add temp m))) = some k2
      rw [hstep]
      exact hrun
    · intro n hn
      rw [hoth n hn, dlookup_dictUpsert, if_neg hn]

theorem applyOp_create (k : KernelSets) (name settype family : String) :
    ∃ k2, applyOp k (IpsetOp.create name settype family) = some k2 ∧
      dlookup name k2 = some ((dlookup name k).getD []) ∧
      ∀ n, n ≠ name → dlookup n k2 = dlookup n k := by
  cases h : dlookup name k with
  | some s => exact ⟨k, by simp [applyOp, h], by simp [h], fun n _ => rfl⟩
  | none =>
    refine ⟨dictUpsert name [] k, by simp [applyOp, h], ?_, ?_⟩
    · rw [dlookup_dictUpsert]
      simp [h]
    · intro n hn
      rw [dlookup_dictUpsert, if_neg hn]

theorem applyOp_flush (k : KernelSets) (name : String) (s : List String)
    (h : dlookup name k = some s) :
    applyOp k (IpsetOp.flush name) = some (dictUpsert name [] k) := by
  simp [applyOp, h]

theorem applyOp_swap (k : KernelSets) (a b : String) (ma mb : List String)
    (ha : dlookup a k = some ma) (hb : dlookup b k = some mb) :
    applyOp k (IpsetOp.swap a b) =
      some (dictUpsert a mb (dictUpsert b ma k)) := by
  simp [applyOp, ha, hb]

theorem applyOp_destroy (k : KernelSets) (name : String) (s : List String)
    (h : dlookup name k = some s) :
    applyOp k (IpsetOp.destroy name) = some (dictRemove name k) := by
  simp [applyOp, h]

theorem applyOp_commit (k : KernelSets) : applyOp k IpsetOp.commit = some k :=
  rfl

/-- C4: `Ipset.replace_members` submits exactly one restore script made
of, in order, the create of the live set, the create of the temp set, a
flush of the temp set, one add per member, the swap, the destroy of the
temp set and the terminating COMMIT; running it from any kernel state
succeeds, leaves the live set holding exactly the requested members and
removes the temp set; and after every proper prefix of the script the
live set holds either its original members or exactly the new ones, the
switch happening atomically at the single swap line. -/
theorem C4_replace_members (ips : Ipset) (members : List String)
    (k : KernelSets) (hne : ips.set_name ≠ ips.temp_set_name) :
    (ips.replace_members_ops members =
      [IpsetOp.create ips.set_name ips.settype ips.family,
       IpsetOp.create ips.temp_set_name ips.settype ips.family,
       IpsetOp.flush ips.temp_set_name] ++
      members.map (fun m => IpsetOp.add ips.temp_set_name m) ++
      [IpsetOp.swap ips.set_name ips.temp_set_name,
       IpsetOp.destroy ips.temp_set_name, IpsetOp.commit]) ∧
    (∃ k', runOps k (ips.replace_members_ops members) = some k' ∧
      (∀ m, m ∈ kernelMembers k' ips.set_name ↔ m ∈ members) ∧
      dlookup ips.temp_set_name k' = none) ∧
    (∀ n k', runOps k ((ips.replace_members_ops members).take n) = some k' →
      (∀ m, m ∈ kernelMembers k' ips.set_name ↔
        m ∈ kernelMembers k ips.set_name) ∨
      (∀ m, m ∈ kernelMembers k' ips.set_name ↔ m ∈ members)) := by
  have hne' : ips.temp_set_name ≠ ips.set_name := fun h => hne h.symm
  obtain ⟨k1, e1, d1set, d1oth⟩ :=
    applyOp_create k ips.set_name ips.settype ips.family
  obtain ⟨k2, e2, d2temp, d2oth⟩ :=
    applyOp_create k1 ips.temp_set_name ips.settype ips.family
  have d2set : dlookup ips.set_name k2 =
      some ((dlookup ips.set_name k).getD []) := by
    rw [d2oth _ hne, d1set]
  have e3 : applyOp k2 (IpsetOp.flush ips.temp_set_name) =
      some (dictUpsert ips.temp_set_name [] k2) :=
    applyOp_flush k2 _ _ d2temp
  have d3temp : dlookup ips.temp_set_name
      (dictUpsert ips.temp_set_name [] k2) = some [] := by
    rw [dlookup_dictUpsert]
    simp
  have d3set : dlookup ips.set_name (dictUpsert ips.temp_set_name [] k2) =
      some ((dlookup ips.set_name k).getD []) := by
    rw [dlookup_dictUpsert, if_neg hne]
    exact d2set
  have hpre : runOps k
      [IpsetOp.create ips.set_name ips.settype ips.family,
       IpsetOp.create ips.temp_set_name ips.settype ips.family,
       IpsetOp.flush ips.temp_set_name] =
      some (dictUpsert ips.temp_set_name [] k2) := by
    simp [runOps, e1, e2, e3]
  obtain ⟨k4, e4, d4temp, d4oth⟩ :=
    runOps_adds ips.temp_set_name members
      (dictUpsert ips.temp_set_name [] k2) [] d3temp
  have d4set : dlookup ips.set_name k4 =
      some ((dlookup ips.set_name k).getD []) := by
    rw [d4oth _ hne]
    exact d3set
  have hM : ∀ m, m ∈ members.foldl (fun acc m => sAdd m acc) [] ↔
      m ∈ members := by
    intro m
    rw [sAdd_foldl_mem]
    simp
  have e5 : applyOp k4 (IpsetOp.swap ips.set_name ips.temp_set_name) =
      some (dictUpsert ips.set_name
        (members.foldl (fun acc m => sAdd m acc) [])
        (dictUpsert ips.temp_set_name
          ((dlookup ips.set_name k).getD []) k4)) :=
    applyOp_swap k4 _ _ _ _ d4set d4temp
  have d5set : dlookup ips.set_name
      (dictUpsert ips.set_name (members.foldl (fun acc m => sAdd m acc) [])
        (dictUpsert ips.temp_set_name
          ((dlookup ips.set_name k).getD []) k4)) =
      some (members.foldl (fun acc m => sAdd m acc) []) := by
    rw [dlookup_dictUpsert]
    simp
  have d5temp : dlookup ips.temp_set_name
      (dictUpsert ips.set_name (members.foldl (fun acc m => sAdd m acc) [])
        (dictUpsert ips.temp_set_name
          ((dlookup ips.set_name k).getD []) k4)) =
      some ((dlookup ips.set_name k).getD []) := by
    rw [dlookup_dictUpsert, if_neg hne', dlookup_dictUpsert]
    simp
  have e6 : applyOp
      (dictUpsert ips.set_name (members.foldl (fun acc m => sAdd m acc) [])
        (dictUpsert ips.temp_set_name
          ((dlookup ips.set_name k).getD []) k4))
      (IpsetOp.destroy ips.temp_set_name) =
      some (dictRemove ips.temp_set_name
        (dictUpsert ips.set_name (members.foldl (fun acc m => sAdd m acc) [])
          (dictUpsert ips.temp_set_name
            ((dlookup ips.set_name k).getD []) k4))) :=
    applyOp_destroy _ _ _ d5temp
  have d6set : dlookup ips.set_name
      (dictRemove ips.temp_set_name
        (dictUpsert ips.set_name (members.foldl (fun acc m => sAdd m acc) [])
          (dictUpsert ips.temp_set_name
            ((dlookup ips.set_name k).getD []) k4))) =
      some (members.foldl (fun acc m => sAdd m acc) []) := by
    rw [dlookup_dictRemove, if_neg hne]
    exact d5set
  have d6temp : dlookup ips.temp_set_name
      (dictRemove ips.temp_set_name
        (dictUpsert ips.set_name (members.foldl (fun acc m => sAdd m acc) [])
          (dictUpsert ips.temp_set_name
            ((dlookup ips.set_name k).getD []) k4))) = none := by
    rw [dlookup_dictRemove]
    simp
  have hpost : runOps k4
      [IpsetOp.swap ips.set_name ips.temp_set_name,
       IpsetOp.destroy ips.temp_set_name, IpsetOp.commit] =
      some (dictRemove ips.temp_set_name
        (dictUpsert ips.set_name (members.foldl (fun acc m => sAdd m acc) [])
          (dictUpsert ips.temp_set_name
            ((dlookup ips.set_name k).getD []) k4))) := by
    simp [runOps, e5, e6, applyOp_commit]
  have hops : ips.replace_members_ops members =
      [IpsetOp.create ips.set_name ips.settype ips.family,
       IpsetOp.create ips.temp_set_name ips.settype ips.family,
       IpsetOp.flush ips.temp_set_name] ++
      (members.map (fun m => IpsetOp.add ips.temp_set_name m) ++
        [IpsetOp.swap ips.set_name ips.temp_set_name,
         IpsetOp.destroy ips.temp_set_name, IpsetOp.commit]) := by
    simp [Ipset.replace_members_ops]
  have hfull : runOps k (ips.replace_members_ops members) =
      some (dictRemove ips.temp_set_name
        (dictUpsert ips.set_name (members.foldl (fun acc m => sAdd m acc) [])
          (dictUpsert ips.temp_set_name
            ((dlookup ips.set_name k).getD []) k4))) := by
    rw [hops, runOps_append, hpre]
    show runOps (dictUpsert ips.temp_set_name [] k2) _ = _
    rw [runOps_append, e4]
    exact hpost
  refine ⟨by simp [Ipset.replace_members_ops], ⟨_, hfull, ?_, d6temp⟩, ?_⟩
  · intro m
    rw [kernelMembers, d6set]
    simpa using hM m
  · intro n k' hrun
    rw [hops] at hrun
    match n, hrun with
    | 0, hrun =>
      left
      cases hrun
      exact fun m => Iff.rfl
    | 1, hrun =>
      left
      replace hrun : (match applyOp k
          (IpsetOp.create ips.set_name ips.settype ips.family) with
        | none => none
        | some k2 => runOps k2 ([] : List IpsetOp)) = some k' := hrun
      rw [e1] at hrun
      replace hrun : some k1 = some k' := hrun
      cases hrun
      intro m
      rw [kernelMembers, kernelMembers, d1set]
      simp
    | 2, hrun =>
      left
      replace hrun : (match applyOp k
          (IpsetOp.create ips.set_name ips.settype ips.family) with
        | none => none
        | some ka => runOps ka
            [IpsetOp.create ips.temp_set_name ips.settype ips.family]) =
          some k' := hrun
      rw [e1] at hrun
      replace hrun : (match applyOp k1
          (IpsetOp.create ips.temp_set_name ips.settype ips.family) with
        | none => none
        | some kb => runOps kb ([] : List IpsetOp)) = some k' := hrun
      rw [e2] at hrun
      replace hrun : some k2 = some k' := hrun
      cases hrun
      intro m
      rw [kernelMembers, kernelMembers, d2set]
      simp
    | (j+3), hrun =>
      replace hrun : runOps k
          ([IpsetOp.create ips.set_name ips.settype ips.family,
            IpsetOp.create ips.temp_set_name ips.settype ips.family,
            IpsetOp.flush ips.temp_set_name] ++
            (members.map (fun m => IpsetOp.add ips.temp_set_name m) ++
              [IpsetOp.swap ips.set_name ips.temp_set_name,
               IpsetOp.destroy ips.temp_set_name, IpsetOp.commit]).take j) =
          some k' := hrun
      rw [runOps_append, hpre] at hrun
      replace hrun : runOps (dictUpsert ips.temp_set_name [] k2)
          ((members.map (fun m => IpsetOp.add ips.temp_set_name m) ++
            [IpsetOp.swap ips.set_name ips.temp_set_name,
             IpsetOp.destroy ips.temp_set_name, IpsetOp.commit]).take j) =
          some k' := hrun
      by_cases hj : j ≤ members.length
      · left
        have hlen : j ≤ (members.map
            (fun m => IpsetOp.add ips.temp_set_name m)).length := by
          simpa using hj
        rw [List.take_append_of_le_length hlen, ← List.map_take] at hrun
        obtain ⟨k4j, e4j, _, d4joth⟩ :=
          runOps_adds ips.temp_set_name (members.take j)
            (dictUpsert ips.temp_set_name [] k2) [] d3temp
        rw [e4j] at hrun
        cases hrun
        intro m
        rw [kernelMembers, kernelMembers, d4joth _ hne, d3set]
        simp
      · push_neg at hj
        have hlen : (members.map
            (fun m => IpsetOp.add ips.temp_set_name m)).length ≤ j := by
          simp
          omega
        rw [List.take_append_eq_append_take,
          List.take_of_length_le hlen, runOps_append, e4] at hrun
        have hlen2 : (members.map
            (fun m => IpsetOp.add ips.temp_set_name m)).length =
            members.length := by simp
        rw [hlen2] at hrun
        right
        match hi : j - members.length, hrun with
        | 0, hrun => omega
        | 1, hrun =>
          replace hrun : (match applyOp k4
              (IpsetOp.swap ips.set_name ips.temp_set_name) with
            | none => none
            | some kk => runOps kk ([] : List IpsetOp)) = some k' := hrun
          rw [e5] at hrun
          replace hrun : some _ = some k' := hrun
          cases hrun
          intro m
          rw [kernelMembers, d5set]
          simpa using hM m
        | 2, hrun =>
          replace hrun : (match applyOp k4
              (IpsetOp.swap ips.set_name ips.temp_set_name) with
            | none => none
            | some kk => runOps kk
                [IpsetOp.destroy ips.temp_set_name]) = some k' := hrun
          rw [e5] at hrun
          replace hrun : (match applyOp
              (dictUpsert ips.set_name
                (members.foldl (fun acc m => sAdd m acc) [])
                (dictUpsert ips.temp_set_name
                  ((dlookup ips.set_name k).getD []) k4))
              (IpsetOp.destroy ips.temp_set_name) with
            | none => none
            | some kk => runOps kk ([] : List IpsetOp)) = some k' := hrun
          rw [e6] at hrun
          replace hrun : some _ = some k' := hrun
          cases hrun
          intro m
          rw [kernelMembers, d6set]
          simpa using hM m
        | (i+3), hrun =>
          replace hrun : runOps k4
              (List.take (i+3)
                [IpsetOp.swap ips.set_name ips.temp_set_name,
                 IpsetOp.destroy ips.temp_set_name, IpsetOp.commit]) =
              some k' := hrun
          rw [List.take_of_length_le (by simp <;> omega)] at hrun
          rw [hpost] at hrun
          cases hrun
          intro m
          rw [kernelMembers, d6set]
          simpa using hM m

/-- C4 witness: a concrete rewrite of the v4 hosts ipset with two
members succeeds and leaves exactly those members live. -/
theorem C4_replace_members_witness :
    ∃ k', runOps []
        (Ipset.replace_members_ops
          ⟨"felix-calico-hosts-4", "felix-calico-hosts-4-tmp",
            "hash:ip", "inet"⟩ ["10.0.0.1", "10.0.0.2"]) = some k' ∧
      (∀ m, m ∈ kernelMembers k' "felix-calico-hosts-4" ↔
        m ∈ ["10.0.0.1", "10.0.0.2"]) ∧
      dlookup "felix-calico-hosts-4-tmp" k' = none :=
  (C4_replace_members
    ⟨"felix-calico-hosts-4", "felix-calico-hosts-4-tmp", "hash:ip", "inet"⟩
    ["10.0.0.1", "10.0.0.2"] [] (by decide)).2.1

/-! ### `felix/ipsets.py`: the `IpsetActor` batching state -/

/-- State of an `IpsetActor`: desired members, the members actually
programmed into the kernel (`None` before the first write), and the
stopped flag. Python sets are embedded as finite sets, matching the
extensional `!=` comparison of the source. -/
structure IpsetActor where
  members : Finset String
  programmed_members : Option (Finset String) := none
  stopped : Bool := false
deriving DecidableEq

/-- Embedding of `IpsetActor.replace_members`: `clear` then `update`
leaves exactly the supplied set. -/
def IpsetActor.replace_members (a : IpsetActor) (ms : Finset String) :
    IpsetActor :=
  { a with members := ms }

/-- Embedding of `IpsetActor._finish_msg_batch`: when not stopped and the
desired members differ from the programmed ones, `_sync_to_ipset` runs
(the Bool records that kernel rewrite) and copies members into
`programmed_members`. -/
def IpsetActor.finish_msg_batch (a : IpsetActor) : IpsetActor × Bool :=
  if ¬ a.stopped = true ∧ some a.members ≠ a.programmed_members then
    ({ a with programmed_members := some a.members }, true)
  else (a, false)

/-- C5: delivering `replace_members S` in two successive batches causes
at most one kernel rewrite: after the first batch `programmed_members`
equals `S`, so the second batch's `_finish_msg_batch` finds them equal
and skips `_sync_to_ipset`. -/
theorem C5_replace_members_idempotent (a0 : IpsetActor) (S : Finset String)
    (h : a0.stopped = false) :
    ((a0.replace_members S).finish_msg_batch.1.programmed_members = some S) ∧
    ((((a0.replace_members S).finish_msg_batch.1.replace_members
      S).finish_msg_batch).2 = false) ∧
    ((if (a0.replace_members S).finish_msg_batch.2 then 1 else 0) +
     (if (((a0.replace_members S).finish_msg_batch.1.replace_members
        S).finish_msg_batch).2 then 1 else 0) ≤ 1) := by
  by_cases hpm : a0.programmed_members = some S
  · have hb1 : (a0.replace_members S).finish_msg_batch =
        (a0.replace_members S, false) := by
      unfold IpsetActor.finish_msg_batch
      rw [if_neg]
      simp [IpsetActor.replace_members, hpm]
    rw [hb1]
    have hb2 : ((a0.replace_members S).replace_members S).finish_msg_batch =
        ((a0.replace_members S).replace_members S, false) := by
      unfold IpsetActor.finish_msg_batch
      rw [if_neg]
      simp [IpsetActor.replace_members, hpm]
    rw [hb2]
    simp [IpsetActor.replace_members, hpm]
  · have hb1 : (a0.replace_members S).finish_msg_batch =
        ({ a0.replace_members S with programmed_members := some S }, true) := by
      unfold IpsetActor.finish_msg_batch
      rw [if_pos]
      · rfl
      · simp [IpsetActor.replace_members, h]
        exact fun hh => hpm hh.symm
    rw [hb1]
    have hb2 : ((({ a0.replace_members S with
        programmed_members := some S } : IpsetActor).replace_members
          S).finish_msg_batch) =
        (({ a0.replace_members S with
          programmed_members := some S } : IpsetActor).replace_members S,
          false) := by
      unfold IpsetActor.finish_msg_batch
      rw [if_neg]
      simp [IpsetActor.replace_members]
    rw [hb2]
    simp [IpsetActor.replace_members]

/-- C5 witness: a fresh actor, two batches with the same member set. -/
theorem C5_replace_members_idempotent_witness :
    ((((({ members := ∅ } : IpsetActor).replace_members
        {"10.0.0.1"}).finish_msg_batch).1.replace_members
        {"10.0.0.1"}).finish_msg_batch).2 = false :=
  (C5_replace_members_idempotent { members := ∅ } {"10.0.0.1"} rfl).2.1

/-! ### `felix/fetcd.py`: config drift and resync jitter -/

/-- A config directory read from the store, key to value. -/
abbrev ConfigDict := List (String × String)

/-- Outcome of one pass of `_EtcdWatcher._load_config`. -/
inductive LoadConfigOutcome where
  | retry
  | die (sleep_secs exit_code : Nat)
  | firstLoad (host_dict global_dict : ConfigDict)
  | unchanged
deriving DecidableEq

/-- Embedding of `fetcd.die_and_restart`: sleep 2 seconds, then
`os._exit(1)`. -/
def die_and_restart : Nat × Nat := (2, 1)

/-- One pass of `_EtcdWatcher._load_config`: a failed read retries; once
configured, any difference from the previously loaded host or global
config dies via `die_and_restart`; otherwise the first successful read
reports the config. -/
def load_config_step (configured : Bool)
    (last_host_config last_global_config : ConfigDict)
    (read_result : Option (ConfigDict × ConfigDict)) : LoadConfigOutcome :=
  match read_result with
  | none => .retry
  | some (global_dict, host_dict) =>
    if configured then
      if host_dict ≠ last_host_config ∨ global_dict ≠ last_global_config then
        .die die_and_restart.1 die_and_restart.2
      else .unchanged
    else .firstLoad host_dict global_dict

/-- C8: when the watcher re-runs config loading after being configured
and either dictionary read from the store differs from the loaded one,
the outcome is the supervised exit — a 2 second sleep then exit code 1 —
and that exit code is never 0. -/
theorem C8_config_drift_exit
    (last_host last_global global_dict host_dict : ConfigDict)
    (hdiff : host_dict ≠ last_host ∨ global_dict ≠ last_global) :
    load_config_step true last_host last_global
      (some (global_dict, host_dict)) = .die 2 1 ∧
    die_and_restart.2 ≠ 0 := by
  constructor
  · simp [load_config_step, hdiff, die_and_restart]
  · decide

/-- C8 witness: a concrete changed per-host config triggers the exit. -/
theorem C8_config_drift_exit_witness :
    load_config_step true [] [] (some ([], [("InterfacePrefix", "tap")])) =
      .die 2 1 :=
  (C8_config_drift_exit [] [] [] [("InterfacePrefix", "tap")]
    (Or.inl (by decide))).1

/-- Embedding of the sleep computation in `EtcdAPI._periodically_resync`:
`jitter = random.random() * 0.2 * interval`, `sleep = interval + jitter`,
with the random draw `r ∈ [0, 1)` made explicit (0.2 as the rational
1/5). -/
def periodic_resync_sleep (interval r : ℚ) : ℚ :=
  interval + r * (1/5) * interval

/-- C9: for any positive resync interval `N` and random draw
`r ∈ [0, 1)`, the computed sleep lies within ±20% of `N` (in fact in
`[N, 1.2N)` — the jitter is only ever upward). -/
theorem C9_resync_jitter (N r : ℚ) (hN : 0 < N) (hr0 : 0 ≤ r)
    (hr1 : r < 1) :
    (4/5) * N ≤ periodic_resync_sleep N r ∧
    periodic_resync_sleep N r ≤ (6/5) * N ∧
    N ≤ periodic_resync_sleep N r := by
  unfold periodic_resync_sleep
  refine ⟨by nlinarith, by nlinarith, by nlinarith⟩

/-- C9 witness: interval 10 with a draw of 1/2 sleeps 11 seconds, inside
the ±20% band. -/
theorem C9_resync_jitter_witness :
    (4/5) * (10 : ℚ) ≤ periodic_resync_sleep 10 (1/2) ∧
    periodic_resync_sleep 10 (1/2) ≤ (6/5) * 10 :=
  ⟨(C9_resync_jitter 10 (1/2) (by norm_num) (by norm_num) (by norm_num)).1,
   (C9_resync_jitter 10 (1/2) (by norm_num) (by norm_num) (by norm_num)).2.1⟩

/-! ### `felix/ipsets.py`: the `IpsetManager` tag index

The nested defaultdict `ip_owners_by_tag[tag][ip][profile] = {endpoint...}`
is embedded as its set of leaf entries, quadruples `(tag, ip, profile,
endpoint)`; the source deletes empty inner dicts eagerly, so dict
emptiness checks correspond exactly to absence of matching quadruples. -/

/-- Modelled from the spec: `futils.net_to_ip` (futils.py is not among
the provided sources) takes the address part of a CIDR. -/
def net_to_ip (n : String) : String := (n.splitOn "/").headD n

/-- Endpoint dict fields the tag index reads. -/
structure Endpoint where
  profile_ids : List String := []
  ipv4_nets : List String := []
  ipv6_nets : List String := []
deriving DecidableEq

/-- The manager's IP family (`IPV4` / `IPV6`). -/
inductive IpType where
  | v4
  | v6
deriving DecidableEq

/-- The `nets_key` property: which nets field this manager reads. -/
def nets_key (ipt : IpType) (e : Endpoint) : List String :=
  match ipt with
  | .v4 => e.ipv4_nets
  | .v6 => e.ipv6_nets

/-- Embedding of `IpsetManager._extract_ips`. -/
def extract_ips (ipt : IpType) (e : Option Endpoint) : List String :=
  match e with
  | none => []
  | some ep => ((nets_key ipt ep).map net_to_ip).dedup

/-- A tag-index quadruple `(tag, ip, profile, endpoint)`. -/
abbrev OwnerEntry := String × String × String × String

/-- Embedding of the `IpsetManager` index state. -/
structure MState where
  tags_by_prof_id : List (String × List String)
  endpoints_by_ep_id : List (String × Endpoint)
  ip_owners_by_tag : List OwnerEntry
  endpoint_ids_by_profile_id : List (String × String)
  dirty_tags : List String
deriving DecidableEq

/-- A freshly constructed manager. -/
def initState : MState := ⟨[], [], [], [], []⟩

/-- Python `bool(self.ip_owners_by_tag[tag][ip])`: is some profile set
recorded under `(tag, ip)`? -/
def hasIpEntry (owners : List OwnerEntry) (tag_id ip_address : String) :
    Bool :=
  owners.any (fun q => q.1 == tag_id && q.2.1 == ip_address)

/-- Embedding of `IpsetManager._add_mapping`: record the quadruple; the
tag becomes dirty when the IP was not previously present for it. -/
def add_mapping (s : MState) (tag_id profile_id endpoint_id ip_address :
    String) : MState :=
  { s with
    ip_owners_by_tag :=
      sAdd (tag_id, ip_address, profile_id, endpoint_id) s.ip_owners_by_tag,
    dirty_tags :=
      if hasIpEntry s.ip_owners_by_tag tag_id ip_address then s.dirty_tags
      else sAdd tag_id s.dirty_tags }

/-- Embedding of `IpsetManager._remove_mapping`: drop the quadruple; the
tag becomes dirty when no entry for `(tag, ip)` remains afterwards
(including the source's defaultdict corner where none existed before). -/
def remove_mapping (s : MState) (tag_id profile_id endpoint_id ip_address :
    String) : MState :=
  { s with
    ip_owners_by_tag :=
      sRemove (tag_id, ip_address, profile_id, endpoint_id)
        s.ip_owners_by_tag,
    dirty_tags :=
      if hasIpEntry (sRemove (tag_id, ip_address, profile_id, endpoint_id)
          s.ip_owners_by_tag) tag_id ip_address then s.dirty_tags
      else sAdd tag_id s.dirty_tags }

/-- Embedding of `IpsetManager._add_profile_index`. -/
def add_profile_index (s : MState) (prof_ids : List String)
    (endpoint_id : String) : MState :=
  { s with endpoint_ids_by_profile_id :=
      (prof_ids.foldl (fun idx p => sAdd (p, endpoint_id) idx)
        s.endpoint_ids_by_profile_id) }

/-- Embedding of `IpsetManager._remove_profile_index` (deleting an
emptied per-profile set is implicit in the pair representation). -/
def remove_profile_index (s : MState) (prof_ids : List String)
    (endpoint_id : String) : MState :=
  { s with endpoint_ids_by_profile_id :=
      (prof_ids.foldl (fun idx p => sRemove (p, endpoint_id) idx)
        s.endpoint_ids_by_profile_id) }

/-- Tag list of a profile (`tags_by_prof_id.get(profile_id, [])`). -/
def tagsOf (s : MState) (p : String) : List String :=
  (dlookup p s.tags_by_prof_id).getD []

/-- The endpoint set of a profile
(`endpoint_ids_by_profile_id.get(profile_id, set())`). -/
def epIdsOfProfile (s : MState) (p : String) : List String :=
  (s.endpoint_ids_by_profile_id.filter (fun q => q.1 == p)).map
    (fun q => q.2)

/-- Tags newly present for the profile (`new_tags - old_tags`). -/
def addedTags (s : MState) (profile_id : String)
    (tags : Option (List String)) : List String :=
  ((tags.getD []).filter (fun t => !((tagsOf s profile_id).contains t))).dedup

/-- Tags no longer present for the profile (`old_tags - new_tags`). -/
def removedTags (s : MState) (profile_id : String)
    (tags : Option (List String)) : List String :=
  ((tagsOf s profile_id).filter (fun t => !((tags.getD []).contains t))).dedup

/-- The `for tag_id in removed_tags: for ip in ip_addrs` loop of
`on_tags_update`, for one endpoint. -/
def otu_remove_tags (removed : List String) (profile_id endpoint_id : String)
    (ips : List String) (st : MState) : MState :=
  removed.foldl (fun st2 t =>
    ips.foldl (fun st3 ip => remove_mapping st3 t profile_id endpoint_id ip)
      st2) st

/-- The `for tag_id in added_tags: for ip in ip_addrs` loop of
`on_tags_update`, for one endpoint. -/
def otu_add_tags (added : List String) (profile_id endpoint_id : String)
    (ips : List String) (st : MState) : MState :=
  added.foldl (fun st2 t =>
    ips.foldl (fun st3 ip => add_mapping st3 t profile_id endpoint_id ip)
      st2) st

/-- Body of the `for endpoint_id in endpoint_ids` loop of
`on_tags_update` (the loop reads the endpoints dict, which it never
mutates, so it is captured up front). -/
def otu_ep_step (ipt : IpType) (profile_id : String)
    (eps : List (String × Endpoint)) (removed added : List String)
    (st : MState) (endpoint_id : String) : MState :=
  otu_add_tags added profile_id endpoint_id
    (extract_ips ipt (dlookup endpoint_id eps))
    (otu_remove_tags removed profile_id endpoint_id
      (extract_ips ipt (dlookup endpoint_id eps)) st)

/-- The final `tags_by_prof_id` dict update of `on_tags_update`. -/
def otu_set_dict (profile_id : String) (tags : Option (List String))
    (s : MState) : MState :=
  { s with tags_by_prof_id :=
      match tags with
      | none => dictRemove profile_id s.tags_by_prof_id
      | some ts => dictUpsert profile_id ts s.tags_by_prof_id }

/-- Embedding of `IpsetManager.on_tags_update`. -/
def on_tags_update (ipt : IpType) (s : MState) (profile_id : String)
    (tags : Option (List String)) : MState :=
  otu_set_dict profile_id tags
    ((epIdsOfProfile s profile_id).foldl
      (otu_ep_step ipt profile_id s.endpoints_by_ep_id
        (removedTags s profile_id tags) (addedTags s profile_id tags)) s)

/-- The `(profile_id, tag)` pair set an endpoint's profile list induces
(`old_tags` / `new_tags` in `on_endpoint_update`). -/
def pairTags (s : MState) (prof_ids : List String) :
    List (String × String) :=
  ((prof_ids.map (fun p => (tagsOf s p).map (fun t => (p, t)))).join).dedup

/-- Python set equality of two id lists (`new_prof_ids != old_prof_ids`). -/
def listSetEqB (l1 l2 : List String) : Bool :=
  l1.all (fun x => l2.contains x) && l2.all (fun x => l1.contains x)

/-- The profile id list of an optional endpoint dict
(`endpoint.get("profile_ids", [])`, as a set). -/
def profIdsOf (e : Option Endpoint) : List String :=
  ((e.map Endpoint.profile_ids).getD []).dedup

/-- The `added_tags × new_ips` add loop of `on_endpoint_update`. -/
def oeu_add_pairs (pairs : List (String × String)) (endpoint_id : String)
    (ips : List String) (st : MState) : MState :=
  pairs.foldl (fun st2 pt =>
    ips.foldl (fun st3 ip => add_mapping st3 pt.2 pt.1 endpoint_id ip) st2) st

/-- The `removed_tags × old_ips` remove loop of `on_endpoint_update`. -/
def oeu_remove_pairs (pairs : List (String × String)) (endpoint_id : String)
    (ips : List String) (st : MState) : MState :=
  pairs.foldl (fun st2 pt =>
    ips.foldl (fun st3 ip => remove_mapping st3 pt.2 pt.1 endpoint_id ip) st2)
    st

/-- The `unchanged_tags` loop of `on_endpoint_update`: remove the
removed IPs then add the added IPs for each kept `(profile, tag)`. -/
def oeu_unchanged_pairs (pairs : List (String × String))
    (endpoint_id : String) (removed_ips added_ips : List String)
    (st : MState) : MState :=
  pairs.foldl (fun st2 pt =>
    added_ips.foldl (fun st3 ip => add_mapping st3 pt.2 pt.1 endpoint_id ip)
      (removed_ips.foldl
        (fun st3 ip => remove_mapping st3 pt.2 pt.1 endpoint_id ip) st2)) st

/-- Embedding of `IpsetManager.on_endpoint_update`: pop the old endpoint,
store the new one, refresh the profile index when the profile id set
changed, then walk added tags × new IPs, unchanged tags × IP delta and
removed tags × old IPs. -/
def on_endpoint_update (ipt : IpType) (s : MState) (endpoint_id : String)
    (endpoint : Option Endpoint) : MState :=
  let old_endpoint := dlookup endpoint_id s.endpoints_by_ep_id
  let s1 : MState :=
    { s with endpoints_by_ep_id :=
        match endpoint with
        | none => dictRemove endpoint_id s.endpoints_by_ep_id
        | some ep => dictUpsert endpoint_id ep s.endpoints_by_ep_id }
  let old_prof_ids := profIdsOf old_endpoint
  let new_prof_ids := profIdsOf endpoint
  let old_tags := pairTags s old_prof_ids
  let new_tags := pairTags s new_prof_ids
  let s2 : MState :=
    if listSetEqB new_prof_ids old_prof_ids then s1
    else add_profile_index (remove_profile_index s1 old_prof_ids endpoint_id)
      new_prof_ids endpoint_id
  let old_ips := extract_ips ipt old_endpoint
  let new_ips := extract_ips ipt endpoint
  oeu_remove_pairs (old_tags.filter (fun pt => !(new_tags.contains pt)))
    endpoint_id old_ips
    (oeu_unchanged_pairs (new_tags.filter (fun pt => old_tags.contains pt))
      endpoint_id
      (old_ips.filter (fun ip => !(new_ips.contains ip)))
      (new_ips.filter (fun ip => !(old_ips.contains ip)))
      (oeu_add_pairs (new_tags.filter (fun pt => !(old_tags.contains pt)))
        endpoint_id new_ips s2))

/-- An index-updating message of the manager. -/
inductive Msg where
  | tagsUpdate (profile_id : String) (tags : Option (List String))
  | epUpdate (endpoint_id : String) (endpoint : Option Endpoint)

/-- Handler dispatch. -/
def applyMsg (ipt : IpType) (s : MState) : Msg → MState
  | .tagsUpdate profile_id tags => on_tags_update ipt s profile_id tags
  | .epUpdate endpoint_id endpoint =>
    on_endpoint_update ipt s endpoint_id endpoint

/-- Replaying a sequence of messages. -/
def replay (ipt : IpType) (s : MState) (msgs : List Msg) : MState :=
  msgs.foldl (applyMsg ipt) s

/-- The member set `_update_active_ipset` hands to the tag's actor:
`self.ip_owners_by_tag.get(tag_id, {}).keys()`. -/
def membersOfTag (s : MState) (tag_id : String) : List String :=
  ((s.ip_owners_by_tag.filter (fun q => q.1 == tag_id)).map
    (fun q => q.2.1)).dedup

/-- Per-tag `replace_members` call of `_update_active_ipset`, recorded
into the map of last-sent member sets. -/
def update_active_ipset (s : MState) (sent : List (String × List String))
    (tag_id : String) : List (String × List String) :=
  dictUpsert tag_id (membersOfTag s tag_id) sent

/-- Embedding of `_update_dirty_active_ipsets` (the body of
`_finish_msg_batch`): each dirty live tag gets a `replace_members` with
its current members; the dirty set is cleared. -/
def update_dirty_active_ipsets (live : List String) (s : MState)
    (sent : List (String × List String)) :
    MState × List (String × List String) :=
  ({ s with dirty_tags := [] },
   s.dirty_tags.foldl (fun acc T =>
     if live.contains T then update_active_ipset s acc T else acc) sent)

/-- One batch: handlers drain their messages, then `_finish_msg_batch`. -/
def runBatch (ipt : IpType) (live : List String)
    (p : MState × List (String × List String)) (batch : List Msg) :
    MState × List (String × List String) :=
  update_dirty_active_ipsets live (replay ipt p.1 batch) p.2

/-- Member sets as first synced when each live tag's actor starts
(`_on_object_started` on the fresh manager: empty). -/
def initSent (live : List String) : List (String × List String) :=
  live.map (fun T => (T, []))

/-- A whole history of batches from a fresh manager, with a fixed set of
live tags (liveness transitions live in the reference-counting machinery
outside this module). -/
def runBatches (ipt : IpType) (live : List String)
    (batches : List (List Msg)) : MState × List (String × List String) :=
  batches.foldl (runBatch ipt live) (initState, initSent live)

/-- Profiles known to the manager but absent from a snapshot (these get
`on_tags_update(p, None)` during `apply_snapshot`). -/
def missingProfileIds (s : MState) (tagsS : List (String × List String)) :
    List String :=
  (s.tags_by_prof_id.map (fun kv => kv.1)).filter
    (fun p => (dlookup p tagsS).isNone)

/-- Endpoints known to the manager but absent from a snapshot (these get
`on_endpoint_update(e, None)` during `apply_snapshot`). -/
def missingEndpointIds (s : MState) (epsS : List (String × Endpoint)) :
    List String :=
  (s.endpoints_by_ep_id.map (fun kv => kv.1)).filter
    (fun e => (dlookup e epsS).isNone)

/-- Embedding of `IpsetManager.apply_snapshot`: feed every snapshot entry
through the normal handlers, then a `None` update for every
previously-known profile / endpoint missing from the snapshot. -/
def apply_snapshot (ipt : IpType) (s0 : MState)
    (tagsS : List (String × List String)) (epsS : List (String × Endpoint)) :
    MState :=
  let s1 := tagsS.foldl (fun st kv => on_tags_update ipt st kv.1 (some kv.2))
    s0
  let s2 := (missingProfileIds s0 tagsS).foldl
    (fun st p => on_tags_update ipt st p none) s1
  let s3 := epsS.foldl
    (fun st kv => on_endpoint_update ipt st kv.1 (some kv.2)) s2
  (missingEndpointIds s2 epsS).foldl
    (fun st e => on_endpoint_update ipt st e none) s3

/-! Index invariants tying the reverse index to the primary dicts. -/

/-- What a quadruple in `ip_owners_by_tag` asserts about the state. -/
def OwnersSpec (ipt : IpType) (s : MState) (q : OwnerEntry) : Prop :=
  ∃ ep, dlookup q.2.2.2 s.endpoints_by_ep_id = some ep ∧
    q.2.2.1 ∈ ep.profile_ids ∧ q.1 ∈ tagsOf s q.2.2.1 ∧
    q.2.1 ∈ extract_ips ipt (some ep)

/-- The reverse index holds exactly the quadruples its spec admits. -/
def ownersInv (ipt : IpType) (s : MState) : Prop :=
  ∀ q : OwnerEntry, q ∈ s.ip_owners_by_tag ↔ OwnersSpec ipt s q

/-- The profile-to-endpoints index is exact. -/
def profInv (s : MState) : Prop :=
  ∀ p e, (p, e) ∈ s.endpoint_ids_by_profile_id ↔
    ∃ ep, dlookup e s.endpoints_by_ep_id = some ep ∧ p ∈ ep.profile_ids

/-- Both indices are exact. -/
def Invariants (ipt : IpType) (s : MState) : Prop :=
  ownersInv ipt s ∧ profInv s

/-! Membership characterizations of the derived lists. -/

theorem contains_iff {α : Type} [BEq α] [LawfulBEq α] (l : List α) (x : α) :
    l.contains x = true ↔ x ∈ l := by
  simp [List.contains, List.elem_iff]

theorem mem_addedTags (s : MState) (p : String) (tags : Option (List String))
    (t : String) :
    t ∈ addedTags s p tags ↔ t ∈ tags.getD [] ∧ t ∉ tagsOf s p := by
  simp [addedTags, List.mem_dedup, List.mem_filter, contains_iff]

theorem mem_removedTags (s : MState) (p : String)
    (tags : Option (List String)) (t : String) :
    t ∈ removedTags s p tags ↔ t ∈ tagsOf s p ∧ t ∉ tags.getD [] := by
  simp [removedTags, List.mem_dedup, List.mem_filter, contains_iff]

theorem mem_epIdsOfProfile (s : MState) (p e : String) :
    e ∈ epIdsOfProfile s p ↔ (p, e) ∈ s.endpoint_ids_by_profile_id := by
  simp only [epIdsOfProfile, List.mem_map, List.mem_filter]
  constructor
  · rintro ⟨q, ⟨hq, hq1⟩, rfl⟩
    rw [beq_iff_eq] at hq1
    rcases q with ⟨q1, q2⟩
    cases hq1
    exact hq
  · intro h
    exact ⟨(p, e), ⟨h, by simp⟩, rfl⟩

theorem mem_pairTags (s : MState) (prof_ids : List String) (p t : String) :
    (p, t) ∈ pairTags s prof_ids ↔ p ∈ prof_ids ∧ t ∈ tagsOf s p := by
  simp only [pairTags, List.mem_dedup, List.mem_join, List.mem_map]
  constructor
  · rintro ⟨l, ⟨p2, hp2, rfl⟩, hmem⟩
    obtain ⟨t2, ht2, heq⟩ := List.mem_map.mp hmem
    cases heq
    exact ⟨hp2, ht2⟩
  · rintro ⟨hp, ht⟩
    exact ⟨(tagsOf s p).map (fun t2 => (p, t2)), ⟨p, hp, rfl⟩,
      List.mem_map.mpr ⟨t, ht, rfl⟩⟩

theorem mem_profIdsOf (e : Option Endpoint) (p : String) :
    p ∈ profIdsOf e ↔ ∃ ep, e = some ep ∧ p ∈ ep.profile_ids := by
  cases e with
  | none => simp [profIdsOf]
  | some ep => simp [profIdsOf, List.mem_dedup]

theorem listSetEqB_iff (l1 l2 : List String) :
    listSetEqB l1 l2 = true ↔ ∀ x, x ∈ l1 ↔ x ∈ l2 := by
  simp only [listSetEqB, Bool.and_eq_true, List.all_eq_true, contains_iff]
  constructor
  · rintro ⟨h1, h2⟩ x
    exact ⟨h1 x, h2 x⟩
  · intro h
    exact ⟨fun x hx => (h x).mp hx, fun x hx => (h x).mpr hx⟩

theorem hasIpEntry_iff (owners : List OwnerEntry) (T ip : String) :
    hasIpEntry owners T ip = true ↔ ∃ p e, (T, ip, p, e) ∈ owners := by
  simp only [hasIpEntry, List.any_eq_true, Bool.and_eq_true, beq_iff_eq]
  constructor
  · rintro ⟨⟨qt, qi, qp, qe⟩, hq, h1, h2⟩
    dsimp at h1 h2
    subst h1
    subst h2
    exact ⟨qp, qe, hq⟩
  · rintro ⟨p, e, h⟩
    exact ⟨(T, ip, p, e), h, rfl, rfl⟩

theorem mem_membersOfTag (s : MState) (T ip : String) :
    ip ∈ membersOfTag s T ↔ ∃ p e, (T, ip, p, e) ∈ s.ip_owners_by_tag := by
  simp only [membersOfTag, List.mem_dedup, List.mem_map, List.mem_filter,
    beq_iff_eq]
  constructor
  · rintro ⟨⟨qt, qi, qp, qe⟩, ⟨hq, h1⟩, h2⟩
    dsimp at h1 h2
    subst h1
    subst h2
    exact ⟨qp, qe, hq⟩
  · rintro ⟨p, e, h⟩
    exact ⟨(T, ip, p, e), ⟨h, rfl⟩, rfl⟩

/-! Effects of the two mapping primitives. -/

@[simp] theorem add_mapping_tags (s : MState) (T p e ip : String) :
    (add_mapping s T p e ip).tags_by_prof_id = s.tags_by_prof_id := rfl

@[simp] theorem add_mapping_endpoints (s : MState) (T p e ip : String) :
    (add_mapping s T p e ip).endpoints_by_ep_id = s.endpoints_by_ep_id := rfl

@[simp] theorem add_mapping_profidx (s : MState) (T p e ip : String) :
    (add_mapping s T p e ip).endpoint_ids_by_profile_id =
      s.endpoint_ids_by_profile_id := rfl

@[simp] theorem remove_mapping_tags (s : MState) (T p e ip : String) :
    (remove_mapping s T p e ip).tags_by_prof_id = s.tags_by_prof_id := rfl

@[simp] theorem remove_mapping_endpoints (s : MState) (T p e ip : String) :
    (remove_mapping s T p e ip).endpoints_by_ep_id =
      s.endpoints_by_ep_id := rfl

@[simp] theorem remove_mapping_profidx (s : MState) (T p e ip : String) :
    (remove_mapping s T p e ip).endpoint_ids_by_profile_id =
      s.endpoint_ids_by_profile_id := rfl

theorem add_mapping_owners (s : MState) (T p e ip : String)
    (q : OwnerEntry) :
    q ∈ (add_mapping s T p e ip).ip_owners_by_tag ↔
      (q ∈ s.ip_owners_by_tag ∧ ¬ False) ∨ q = (T, ip, p, e) := by
  show q ∈ sAdd (T, ip, p, e) s.ip_owners_by_tag ↔ _
  rw [mem_sAdd]
  tauto

theorem remove_mapping_owners (s : MState) (T p e ip : String)
    (q : OwnerEntry) :
    q ∈ (remove_mapping s T p e ip).ip_owners_by_tag ↔
      (q ∈ s.ip_owners_by_tag ∧ ¬ q = (T, ip, p, e)) ∨ False := by
  show q ∈ sRemove (T, ip, p, e) s.ip_owners_by_tag ↔ _
  rw [mem_sRemove]
  tauto

/-! Generic fold lemmas over the owners index. -/

theorem foldl_owners_effect {α : Type} (f : MState → α → MState)
    (A R : α → OwnerEntry → Prop)
    (hf : ∀ st a q, q ∈ (f st a).ip_owners_by_tag ↔
      ((q ∈ st.ip_owners_by_tag ∧ ¬ R a q) ∨ A a q))
    (hAR : ∀ a a' q, A a q → ¬ R a' q) :
    ∀ (L : List α) (st : MState) (q : OwnerEntry),
      q ∈ (L.foldl f st).ip_owners_by_tag ↔
        ((q ∈ st.ip_owners_by_tag ∧ ∀ a ∈ L, ¬ R a q) ∨ ∃ a ∈ L, A a q)
  | [], st, q => by simp
  | a :: L, st, q => by
    rw [List.foldl_cons, foldl_owners_effect f A R hf hAR L (f st a) q,
      hf st a q]
    constructor
    · rintro (⟨⟨hx, hra⟩ | ha, hall⟩ | ⟨a', ha', hA⟩)
      · refine Or.inl ⟨hx, fun a2 ha2 => ?_⟩
        rcases List.mem_cons.mp ha2 with rfl | h2
        · exact hra
        · exact hall a2 h2
      · exact Or.inr ⟨a, List.mem_cons_self a L, ha⟩
      · exact Or.inr ⟨a', List.mem_cons_of_mem a ha', hA⟩
    · rintro (⟨hx, hall⟩ | ⟨a', ha', hA⟩)
      · exact Or.inl ⟨Or.inl ⟨hx, hall a (List.mem_cons_self a L)⟩,
          fun a2 h2 => hall a2 (List.mem_cons_of_mem a h2)⟩
      · rcases List.mem_cons.mp ha' with rfl | hmem
        · exact Or.inl ⟨Or.inr hA, fun a2 _ => hAR a' a2 q hA⟩
        · exact Or.inr ⟨a', hmem, hA⟩

theorem foldl_proj {α β : Type} (g : MState → β) (f : MState → α → MState)
    (hg : ∀ st a, g (f st a) = g st) :
    ∀ (L : List α) (st : MState), g (L.foldl f st) = g st
  | [], st => rfl
  | a :: L, st => by
    rw [List.foldl_cons, foldl_proj g f hg L (f st a), hg st a]

/-! Dirty-tag tracking: every step grows the dirty set monotonically, and
a tag left clean has unchanged members. -/

/-- A state transformer that only dirties tags whose member set it
touches. -/
def GuardsF (F : MState → MState) : Prop :=
  ∀ s : MState,
    (∀ T, T ∈ s.dirty_tags → T ∈ (F s).dirty_tags) ∧
    (∀ T, T ∉ (F s).dirty_tags →
      ∀ ip, ip ∈ membersOfTag (F s) T ↔ ip ∈ membersOfTag s T)

theorem guardsF_comp {F G : MState → MState} (hF : GuardsF F)
    (hG : GuardsF G) : GuardsF (fun s => G (F s)) := by
  intro s
  refine ⟨fun T hT => (hG (F s)).1 T ((hF s).1 T hT), fun T hT ip => ?_⟩
  have h1 : T ∉ (F s).dirty_tags := fun hmem => hT ((hG (F s)).1 T hmem)
  rw [(hG (F s)).2 T hT ip, (hF s).2 T h1 ip]

theorem guardsF_of_eq {F : MState → MState}
    (h : ∀ s, (F s).ip_owners_by_tag = s.ip_owners_by_tag ∧
      (F s).dirty_tags = s.dirty_tags) : GuardsF F := by
  intro s
  constructor
  · intro T hT
    rw [(h s).2]
    exact hT
  · intro T _ ip
    unfold membersOfTag
    rw [(h s).1]

theorem guardsF_foldl {α : Type} (f : MState → α → MState)
    (hf : ∀ a, GuardsF (fun s => f s a)) :
    ∀ L : List α, GuardsF (fun s => L.foldl f s)
  | [] => fun s => ⟨fun T hT => hT, fun T _ ip => Iff.rfl⟩
  | a :: L => by
    have h2 := guardsF_comp (hf a) (guardsF_foldl f hf L)
    intro s
    exact h2 s

theorem add_mapping_guards (T p e ip : String) :
    GuardsF (fun s => add_mapping s T p e ip) := by
  intro s
  constructor
  · intro T2 hT2
    show T2 ∈ (if hasIpEntry s.ip_owners_by_tag T ip then s.dirty_tags
      else sAdd T s.dirty_tags)
    split
    · exact hT2
    · rw [mem_sAdd]
      exact Or.inr hT2
  · intro T2 hT2 ip2
    by_cases hTT : T2 = T
    · subst hTT
      have hhas : hasIpEntry s.ip_owners_by_tag T2 ip = true := by
        by_contra hno
        apply hT2
        show T2 ∈ (if hasIpEntry s.ip_owners_by_tag T2 ip then s.dirty_tags
          else sAdd T2 s.dirty_tags)
        rw [if_neg hno, mem_sAdd]
        exact Or.inl rfl
      obtain ⟨p0, e0, hmem⟩ := (hasIpEntry_iff _ _ _).mp hhas
      rw [mem_membersOfTag, mem_membersOfTag]
      constructor
      · rintro ⟨p', e', h'⟩
        rcases (add_mapping_owners s T2 p e ip _).mp h' with ⟨hin, _⟩ | heq
        · exact ⟨p', e', hin⟩
        · obtain ⟨h1, h2, h3, h4⟩ : T2 = T2 ∧ ip2 = ip ∧ p' = p ∧ e' = e := by
            simpa [Prod.ext_iff] using heq
          subst h2
          exact ⟨p0, e0, hmem⟩
      · rintro ⟨p', e', h'⟩
        exact ⟨p', e', (add_mapping_owners s T2 p e ip _).mpr
          (Or.inl ⟨h', not_false⟩)⟩
    · rw [mem_membersOfTag, mem_membersOfTag]
      constructor
      · rintro ⟨p', e', h'⟩
        rcases (add_mapping_owners s T p e ip _).mp h' with ⟨hin, _⟩ | heq
        · exact ⟨p', e', hin⟩
        · exact absurd (by injection heq) hTT
      · rintro ⟨p', e', h'⟩
        exact ⟨p', e', (add_mapping_owners s T p e ip _).mpr
          (Or.inl ⟨h', not_false⟩)⟩

theorem remove_mapping_guards (T p e ip : String) :
    GuardsF (fun s => remove_mapping s T p e ip) := by
  intro s
  constructor
  · intro T2 hT2
    show T2 ∈ (if hasIpEntry (sRemove (T, ip, p, e) s.ip_owners_by_tag) T ip
      then s.dirty_tags else sAdd T s.dirty_tags)
    split
    · exact hT2
    · rw [mem_sAdd]
      exact Or.inr hT2
  · intro T2 hT2 ip2
    by_cases hTT : T2 = T
    · subst hTT
      have hhas : hasIpEntry (sRemove (T2, ip, p, e) s.ip_owners_by_tag)
          T2 ip = true := by
        by_contra hno
        apply hT2
        show T2 ∈ (if hasIpEntry (sRemove (T2, ip, p, e) s.ip_owners_by_tag)
            T2 ip then s.dirty_tags else sAdd T2 s.dirty_tags)
        rw [if_neg hno, mem_sAdd]
        exact Or.inl rfl
      obtain ⟨p0, e0, hmem⟩ := (hasIpEntry_iff _ _ _).mp hhas
      rw [mem_membersOfTag, mem_membersOfTag]
      constructor
      · rintro ⟨p', e', h'⟩
        have h2 := ((remove_mapping_owners s T2 p e ip _).mp h')
        rcases h2 with ⟨hin, _⟩ | hf
        · exact ⟨p', e', hin⟩
        · exact absurd hf not_false
      · rintro ⟨p', e', h'⟩
        by_cases heq : (T2, ip2, p', e') = (T2, ip, p, e)
        · obtain ⟨h1, h2, h3, h4⟩ : T2 = T2 ∧ ip2 = ip ∧ p' = p ∧ e' = e := by
            simpa [Prod.ext_iff] using heq
          subst h2
          exact ⟨p0, e0, hmem⟩
        · exact ⟨p', e',
            (remove_mapping_owners s T2 p e ip _).mpr (Or.inl ⟨h', heq⟩)⟩
    · rw [mem_membersOfTag, mem_membersOfTag]
      constructor
      · rintro ⟨p', e', h'⟩
        rcases (remove_mapping_owners s T p e ip _).mp h' with ⟨hin, _⟩ | hf
        · exact ⟨p', e', hin⟩
        · exact absurd hf not_false
      · rintro ⟨p', e', h'⟩
        refine ⟨p', e', (remove_mapping_owners s T p e ip _).mpr
          (Or.inl ⟨h', fun heq => hTT ?_⟩)⟩
        injection heq

/-! Effect of the `on_tags_update` loops on the owners index. -/

theorem remove_fold_owners (t pid eid : String) (ips : List String)
    (st : MState) (q : OwnerEntry) :
    q ∈ ((ips.foldl (fun st3 ip => remove_mapping st3 t pid eid ip)
        st).ip_owners_by_tag) ↔
      q ∈ st.ip_owners_by_tag ∧
        ¬(q.1 = t ∧ q.2.1 ∈ ips ∧ q.2.2.1 = pid ∧ q.2.2.2 = eid) := by
  have h := foldl_owners_effect
    (fun st3 ip => remove_mapping st3 t pid eid ip)
    (fun _ _ => False) (fun ip q => q = (t, ip, pid, eid))
    (fun st3 ip q => by rw [remove_mapping_owners]) (fun a a' q hA => hA.elim)
    ips st q
  rw [h]
  have hE : (∃ a ∈ ips, False) ↔ False := by simp
  rw [hE, or_false]
  rcases q with ⟨qt, qi, qp, qe⟩
  constructor
  · rintro ⟨hx, hall⟩
    refine ⟨hx, fun hc => ?_⟩
    obtain ⟨h1, h2, h3, h4⟩ := hc
    dsimp at h1 h2 h3 h4
    subst h1
    subst h3
    subst h4
    exact hall qi h2 rfl
  · rintro ⟨hx, hneg⟩
    refine ⟨hx, fun ip hip hc => ?_⟩
    obtain ⟨h1, h2, h3, h4⟩ : qt = t ∧ qi = ip ∧ qp = pid ∧ qe = eid := by
      simpa [Prod.ext_iff] using hc
    subst h2
    exact hneg ⟨h1, hip, h3, h4⟩

theorem add_fold_owners (t pid eid : String) (ips : List String)
    (st : MState) (q : OwnerEntry) :
    q ∈ ((ips.foldl (fun st3 ip => add_mapping st3 t pid eid ip)
        st).ip_owners_by_tag) ↔
      q ∈ st.ip_owners_by_tag ∨
        (q.1 = t ∧ q.2.1 ∈ ips ∧ q.2.2.1 = pid ∧ q.2.2.2 = eid) := by
  have h := foldl_owners_effect
    (fun st3 ip => add_mapping st3 t pid eid ip)
    (fun ip q => q = (t, ip, pid, eid)) (fun _ _ => False)
    (fun st3 ip q => by rw [add_mapping_owners]) (fun a a' q _ hR => hR)
    ips st q
  rw [h]
  have hT : ((q ∈ st.ip_owners_by_tag ∧ ∀ a ∈ ips, ¬ False) ↔
      q ∈ st.ip_owners_by_tag) := by simp
  rw [hT]
  rcases q with ⟨qt, qi, qp, qe⟩
  constructor
  · rintro (hx | ⟨ip, hip, heq⟩)
    · exact Or.inl hx
    · obtain ⟨h1, h2, h3, h4⟩ : qt = t ∧ qi = ip ∧ qp = pid ∧ qe = eid := by
        simpa [Prod.ext_iff] using heq
      subst h2
      exact Or.inr ⟨h1, hip, h3, h4⟩
  · rintro (hx | ⟨h1, hip, h3, h4⟩)
    · exact Or.inl hx
    · subst h1
      subst h3
      subst h4
      exact Or.inr ⟨qi, hip, rfl⟩

theorem otu_remove_tags_owners (removed : List String) (pid eid : String)
    (ips : List String) (st : MState) (q : OwnerEntry) :
    q ∈ (otu_remove_tags removed pid eid ips st).ip_owners_by_tag ↔
      q ∈ st.ip_owners_by_tag ∧
        ¬(q.1 ∈ removed ∧ q.2.1 ∈ ips ∧ q.2.2.1 = pid ∧ q.2.2.2 = eid) := by
  have h := foldl_owners_effect
    (fun st2 t => ips.foldl
      (fun st3 ip => remove_mapping st3 t pid eid ip) st2)
    (fun _ _ => False)
    (fun t q => q.1 = t ∧ q.2.1 ∈ ips ∧ q.2.2.1 = pid ∧ q.2.2.2 = eid)
    (fun st2 t q => by rw [remove_fold_owners]; tauto)
    (fun a a' q hA => hA.elim) removed st q
  rw [show otu_remove_tags removed pid eid ips st =
    removed.foldl (fun st2 t => ips.foldl
      (fun st3 ip => remove_mapping st3 t pid eid ip) st2) st from rfl, h]
  have hE : (∃ a ∈ removed, False) ↔ False := by simp
  rw [hE, or_false]
  constructor
  · rintro ⟨hx, hall⟩
    refine ⟨hx, fun hc => ?_⟩
    obtain ⟨h1, h2, h3, h4⟩ := hc
    exact hall q.1 h1 ⟨rfl, h2, h3, h4⟩
  · rintro ⟨hx, hneg⟩
    refine ⟨hx, fun t ht hc => ?_⟩
    obtain ⟨h1, h2, h3, h4⟩ := hc
    subst h1
    exact hneg ⟨ht, h2, h3, h4⟩

theorem otu_add_tags_owners (added : List String) (pid eid : String)
    (ips : List String) (st : MState) (q : OwnerEntry) :
    q ∈ (otu_add_tags added pid eid ips st).ip_owners_by_tag ↔
      q ∈ st.ip_owners_by_tag ∨
        (q.1 ∈ added ∧ q.2.1 ∈ ips ∧ q.2.2.1 = pid ∧ q.2.2.2 = eid) := by
  have h := foldl_owners_effect
    (fun st2 t => ips.foldl (fun st3 ip => add_mapping st3 t pid eid ip) st2)
    (fun t q => q.1 = t ∧ q.2.1 ∈ ips ∧ q.2.2.1 = pid ∧ q.2.2.2 = eid)
    (fun _ _ => False)
    (fun st2 t q => by rw [add_fold_owners]; tauto)
    (fun a a' q _ hR => hR) added st q
  rw [show otu_add_tags added pid eid ips st =
    added.foldl (fun st2 t => ips.foldl
      (fun st3 ip => add_mapping st3 t pid eid ip) st2) st from rfl, h]
  have hT : ((q ∈ st.ip_owners_by_tag ∧ ∀ a ∈ added, ¬ False) ↔
      q ∈ st.ip_owners_by_tag) := by simp
  rw [hT]
  constructor
  · rintro (hx | ⟨t, ht, h1, h2, h3, h4⟩)
    · exact Or.inl hx
    · subst h1
      exact Or.inr ⟨ht, h2, h3, h4⟩
  · rintro (hx | ⟨h1, h2, h3, h4⟩)
    · exact Or.inl hx
    · exact Or.inr ⟨q.1, h1, rfl, h2, h3, h4⟩

theorem otu_ep_step_owners (ipt : IpType) (pid : String)
    (eps : List (String × Endpoint)) (removed added : List String)
    (st : MState) (eid : String) (q : OwnerEntry) :
    q ∈ (otu_ep_step ipt pid eps removed added st eid).ip_owners_by_tag ↔
      ((q ∈ st.ip_owners_by_tag ∧
        ¬(q.2.2.2 = eid ∧ q.2.2.1 = pid ∧ q.1 ∈ removed ∧
          q.2.1 ∈ extract_ips ipt (dlookup eid eps))) ∨
       (q.2.2.2 = eid ∧ q.2.2.1 = pid ∧ q.1 ∈ added ∧
        q.2.1 ∈ extract_ips ipt (dlookup eid eps))) := by
  unfold otu_ep_step
  rw [otu_add_tags_owners, otu_remove_tags_owners]
  tauto

theorem addedTags_removedTags_disjoint (s : MState) (pid : String)
    (tags : Option (List String)) (t : String)
    (ha : t ∈ addedTags s pid tags) : t ∉ removedTags s pid tags := by
  rw [mem_addedTags] at ha
  rw [mem_removedTags]
  tauto

theorem on_tags_update_owners (ipt : IpType) (s : MState) (pid : String)
    (tags : Option (List String)) (q : OwnerEntry) :
    q ∈ (on_tags_update ipt s pid tags).ip_owners_by_tag ↔
      ((q ∈ s.ip_owners_by_tag ∧
        ¬(q.2.2.2 ∈ epIdsOfProfile s pid ∧ q.2.2.1 = pid ∧
          q.1 ∈ removedTags s pid tags ∧
          q.2.1 ∈ extract_ips ipt
            (dlookup q.2.2.2 s.endpoints_by_ep_id))) ∨
       (q.2.2.2 ∈ epIdsOfProfile s pid ∧ q.2.2.1 = pid ∧
        q.1 ∈ addedTags s pid tags ∧
        q.2.1 ∈ extract_ips ipt (dlookup q.2.2.2 s.endpoints_by_ep_id))) := by
  have hset : (on_tags_update ipt s pid tags).ip_owners_by_tag =
      ((epIdsOfProfile s pid).foldl
        (otu_ep_step ipt pid s.endpoints_by_ep_id
          (removedTags s pid tags) (addedTags s pid tags))
        s).ip_owners_by_tag := by
    unfold on_tags_update otu_set_dict
    cases tags <;> rfl
  rw [hset]
  have h := foldl_owners_effect
    (otu_ep_step ipt pid s.endpoints_by_ep_id
      (removedTags s pid tags) (addedTags s pid tags))
    (fun eid q => q.2.2.2 = eid ∧ q.2.2.1 = pid ∧
      q.1 ∈ addedTags s pid tags ∧
      q.2.1 ∈ extract_ips ipt (dlookup eid s.endpoints_by_ep_id))
    (fun eid q => q.2.2.2 = eid ∧ q.2.2.1 = pid ∧
      q.1 ∈ removedTags s pid tags ∧
      q.2.1 ∈ extract_ips ipt (dlookup eid s.endpoints_by_ep_id))
    (fun st eid q => otu_ep_step_owners ipt pid s.endpoints_by_ep_id
      (removedTags s pid tags) (addedTags s pid tags) st eid q)
    (fun a a' q hA hR =>
      addedTags_removedTags_disjoint s pid tags q.1 hA.2.2.1 hR.2.2.1)
    (epIdsOfProfile s pid) s q
  rw [h]
  constructor
  · rintro (⟨hx, hall⟩ | ⟨e, he, h1, h2, h3, h4⟩)
    · refine Or.inl ⟨hx, fun hc => ?_⟩
      exact hall q.2.2.2 hc.1 ⟨rfl, hc.2.1, hc.2.2.1, hc.2.2.2⟩
    · subst h1
      exact Or.inr ⟨he, h2, h3, h4⟩
  · rintro (⟨hx, hneg⟩ | ⟨he, h2, h3, h4⟩)
    · refine Or.inl ⟨hx, fun e hemem hc => ?_⟩
      obtain ⟨h1, hc2, hc3, hc4⟩ := hc
      subst h1
      exact hneg ⟨hemem, hc2, hc3, hc4⟩
    · exact Or.inr ⟨q.2.2.2, he, rfl, h2, h3, h4⟩

/-! Projections untouched by the `on_tags_update` loops. -/

theorem otu_remove_tags_proj (removed : List String) (pid eid : String)
    (ips : List String) (st : MState) :
    (otu_remove_tags removed pid eid ips st).tags_by_prof_id =
        st.tags_by_prof_id ∧
      (otu_remove_tags removed pid eid ips st).endpoints_by_ep_id =
        st.endpoints_by_ep_id ∧
      (otu_remove_tags removed pid eid ips st).endpoint_ids_by_profile_id =
        st.endpoint_ids_by_profile_id := by
  unfold otu_remove_tags
  refine ⟨?_, ?_, ?_⟩
  · exact foldl_proj MState.tags_by_prof_id
      (fun st2 t => List.foldl
        (fun st3 ip => remove_mapping st3 t pid eid ip) st2 ips)
      (fun st2 t => foldl_proj MState.tags_by_prof_id
        (fun st3 ip => remove_mapping st3 t pid eid ip)
        (fun st3 ip => rfl) ips st2) removed st
  · exact foldl_proj MState.endpoints_by_ep_id
      (fun st2 t => List.foldl
        (fun st3 ip => remove_mapping st3 t pid eid ip) st2 ips)
      (fun st2 t => foldl_proj MState.endpoints_by_ep_id
        (fun st3 ip => remove_mapping st3 t pid eid ip)
        (fun st3 ip => rfl) ips st2) removed st
  · exact foldl_proj MState.endpoint_ids_by_profile_id
      (fun st2 t => List.foldl
        (fun st3 ip => remove_mapping st3 t pid eid ip) st2 ips)
      (fun st2 t => foldl_proj MState.endpoint_ids_by_profile_id
        (fun st3 ip => remove_mapping st3 t pid eid ip)
        (fun st3 ip => rfl) ips st2) removed st

theorem otu_add_tags_proj (added : List String) (pid eid : String)
    (ips : List String) (st : MState) :
    (otu_add_tags added pid eid ips st).tags_by_prof_id =
        st.tags_by_prof_id ∧
      (otu_add_tags added pid eid ips st).endpoints_by_ep_id =
        st.endpoints_by_ep_id ∧
      (otu_add_tags added pid eid ips st).endpoint_ids_by_profile_id =
        st.endpoint_ids_by_profile_id := by
  unfold otu_add_tags
  refine ⟨?_, ?_, ?_⟩
  · exact foldl_proj MState.tags_by_prof_id
      (fun st2 t => List.foldl
        (fun st3 ip => add_mapping st3 t pid eid ip) st2 ips)
      (fun st2 t => foldl_proj MState.tags_by_prof_id
        (fun st3 ip => add_mapping st3 t pid eid ip)
        (fun st3 ip => rfl) ips st2) added st
  · exact foldl_proj MState.endpoints_by_ep_id
      (fun st2 t => List.foldl
        (fun st3 ip => add_mapping st3 t pid eid ip) st2 ips)
      (fun st2 t => foldl_proj MState.endpoints_by_ep_id
        (fun st3 ip => add_mapping st3 t pid eid ip)
        (fun st3 ip => rfl) ips st2) added st
  · exact foldl_proj MState.endpoint_ids_by_profile_id
      (fun st2 t => List.foldl
        (fun st3 ip => add_mapping st3 t pid eid ip) st2 ips)
      (fun st2 t => foldl_proj MState.endpoint_ids_by_profile_id
        (fun st3 ip => add_mapping st3 t pid eid ip)
        (fun st3 ip => rfl) ips st2) added st

theorem otu_ep_step_proj (ipt : IpType) (pid : String)
    (eps : List (String × Endpoint)) (removed added : List String)
    (st : MState) (eid : String) :
    (otu_ep_step ipt pid eps removed added st eid).tags_by_prof_id =
        st.tags_by_prof_id ∧
      (otu_ep_step ipt pid eps removed added st eid).endpoints_by_ep_id =
        st.endpoints_by_ep_id ∧
      MState.endpoint_ids_by_profile_id
          (otu_ep_step ipt pid eps removed added st eid) =
        st.endpoint_ids_by_profile_id := by
  unfold otu_ep_step
  obtain ⟨h1, h2, h3⟩ := otu_remove_tags_proj removed pid eid
    (extract_ips ipt (dlookup eid eps)) st
  obtain ⟨g1, g2, g3⟩ := otu_add_tags_proj added pid eid
    (extract_ips ipt (dlookup eid eps))
    (otu_remove_tags removed pid eid (extract_ips ipt (dlookup eid eps)) st)
  exact ⟨g1.trans h1, g2.trans h2, g3.trans h3⟩

theorem on_tags_update_endpoints (ipt : IpType) (s : MState) (pid : String)
    (tags : Option (List String)) :
    (on_tags_update ipt s pid tags).endpoints_by_ep_id =
      s.endpoints_by_ep_id := by
  have hset : (on_tags_update ipt s pid tags).endpoints_by_ep_id =
      ((epIdsOfProfile s pid).foldl
        (otu_ep_step ipt pid s.endpoints_by_ep_id
          (removedTags s pid tags) (addedTags s pid tags))
        s).endpoints_by_ep_id := by
    unfold on_tags_update otu_set_dict
    cases tags <;> rfl
  rw [hset]
  exact foldl_proj MState.endpoints_by_ep_id
    (otu_ep_step ipt pid s.endpoints_by_ep_id
      (removedTags s pid tags) (addedTags s pid tags))
    (fun st eid => (otu_ep_step_proj ipt pid s.endpoints_by_ep_id
      (removedTags s pid tags) (addedTags s pid tags) st eid).2.1)
    (epIdsOfProfile s pid) s

theorem on_tags_update_profidx (ipt : IpType) (s : MState) (pid : String)
    (tags : Option (List String)) :
    (on_tags_update ipt s pid tags).endpoint_ids_by_profile_id =
      s.endpoint_ids_by_profile_id := by
  have hset : (on_tags_update ipt s pid tags).endpoint_ids_by_profile_id =
      ((epIdsOfProfile s pid).foldl
        (otu_ep_step ipt pid s.endpoints_by_ep_id
          (removedTags s pid tags) (addedTags s pid tags))
        s).endpoint_ids_by_profile_id := by
    unfold on_tags_update otu_set_dict
    cases tags <;> rfl
  rw [hset]
  exact foldl_proj MState.endpoint_ids_by_profile_id
    (otu_ep_step ipt pid s.endpoints_by_ep_id
      (removedTags s pid tags) (addedTags s pid tags))
    (fun st eid => (otu_ep_step_proj ipt pid s.endpoints_by_ep_id
      (removedTags s pid tags) (addedTags s pid tags) st eid).2.2)
    (epIdsOfProfile s pid) s

theorem on_tags_update_tags_lookup (ipt : IpType) (s : MState) (pid : String)
    (tags : Option (List String)) (p : String) :
    dlookup p (on_tags_update ipt s pid tags).tags_by_prof_id =
      if p = pid then tags else dlookup p s.tags_by_prof_id := by
  have hfold : ((epIdsOfProfile s pid).foldl
      (otu_ep_step ipt pid s.endpoints_by_ep_id
        (removedTags s pid tags) (addedTags s pid tags))
      s).tags_by_prof_id = s.tags_by_prof_id :=
    foldl_proj MState.tags_by_prof_id
      (otu_ep_step ipt pid s.endpoints_by_ep_id
        (removedTags s pid tags) (addedTags s pid tags))
      (fun st eid => (otu_ep_step_proj ipt pid s.endpoints_by_ep_id
        (removedTags s pid tags) (addedTags s pid tags) st eid).1)
      (epIdsOfProfile s pid) s
  show dlookup p (otu_set_dict pid tags _).tags_by_prof_id = _
  unfold otu_set_dict
  cases tags with
  | none =>
    show dlookup p (dictRemove pid _) = _
    rw [dlookup_dictRemove, hfold]
  | some ts =>
    show dlookup p (dictUpsert pid ts _) = _
    rw [dlookup_dictUpsert, hfold]

theorem invariants_on_tags_update (ipt : IpType) (s : MState) (pid : String)
    (tags : Option (List String)) (hInv : Invariants ipt s) :
    Invariants ipt (on_tags_update ipt s pid tags) := by
  obtain ⟨hO, hP⟩ := hInv
  constructor
  · intro q
    rcases q with ⟨qT, qIp, qP, qE⟩
    rw [on_tags_update_owners]
    have hRHS : OwnersSpec ipt (on_tags_update ipt s pid tags)
        (qT, qIp, qP, qE) ↔
        ∃ ep, dlookup qE s.endpoints_by_ep_id = some ep ∧
          qP ∈ ep.profile_ids ∧
          qT ∈ ((if qP = pid then tags
            else dlookup qP s.tags_by_prof_id).getD []) ∧
          qIp ∈ extract_ips ipt (some ep) := by
      unfold OwnersSpec tagsOf
      simp only [on_tags_update_endpoints, on_tags_update_tags_lookup]
    rw [hRHS]
    dsimp only
    by_cases hqp : qP = pid
    · subst hqp
      rw [if_pos rfl]
      constructor
      · rintro (⟨hmem, hneg⟩ | ⟨hqe, _, hadd, hip⟩)
        · obtain ⟨ep, hlk, hprof, htag, hip⟩ := (hO _).mp hmem
          dsimp only at hlk hprof htag hip
          refine ⟨ep, hlk, hprof, ?_, hip⟩
          by_cases hnew : qT ∈ tags.getD []
          · exact hnew
          · exfalso
            apply hneg
            refine ⟨(mem_epIdsOfProfile s qP qE).mpr
              ((hP qP qE).mpr ⟨ep, hlk, hprof⟩), rfl,
              (mem_removedTags s qP tags qT).mpr ⟨htag, hnew⟩, ?_⟩
            rw [hlk]
            exact hip
        · obtain ⟨ep, hlk, hprof⟩ :=
            (hP qP qE).mp ((mem_epIdsOfProfile s qP qE).mp hqe)
          obtain ⟨hnew, hold⟩ := (mem_addedTags s qP tags qT).mp hadd
          rw [hlk] at hip
          exact ⟨ep, hlk, hprof, hnew, hip⟩
      · rintro ⟨ep, hlk, hprof, hnew, hip⟩
        by_cases hold : qT ∈ tagsOf s qP
        · refine Or.inl ⟨(hO _).mpr ⟨ep, hlk, hprof, hold, hip⟩, ?_⟩
          rintro ⟨_, _, hrem, _⟩
          exact ((mem_removedTags s qP tags qT).mp hrem).2 hnew
        · refine Or.inr ⟨(mem_epIdsOfProfile s qP qE).mpr
            ((hP qP qE).mpr ⟨ep, hlk, hprof⟩), rfl,
            (mem_addedTags s qP tags qT).mpr ⟨hnew, hold⟩, ?_⟩
          rw [hlk]
          exact hip
    · rw [if_neg hqp]
      have h1 : ¬(qE ∈ epIdsOfProfile s pid ∧ qP = pid ∧
          qT ∈ removedTags s pid tags ∧
          qIp ∈ extract_ips ipt (dlookup qE s.endpoints_by_ep_id)) :=
        fun hc => hqp hc.2.1
      have h2 : ¬(qE ∈ epIdsOfProfile s pid ∧ qP = pid ∧
          qT ∈ addedTags s pid tags ∧
          qIp ∈ extract_ips ipt (dlookup qE s.endpoints_by_ep_id)) :=
        fun hc => hqp hc.2.1
      constructor
      · rintro (⟨hmem, _⟩ | hc)
        · obtain ⟨ep, hlk, hprof, htag, hip⟩ := (hO _).mp hmem
          exact ⟨ep, hlk, hprof, htag, hip⟩
        · exact absurd hc h2
      · rintro ⟨ep, hlk, hprof, htag, hip⟩
        exact Or.inl ⟨(hO _).mpr ⟨ep, hlk, hprof, htag, hip⟩, h1⟩
  · intro p e
    rw [on_tags_update_profidx]
    have hRHS : (∃ ep, dlookup e
        (on_tags_update ipt s pid tags).endpoints_by_ep_id = some ep ∧
        p ∈ ep.profile_ids) ↔
        ∃ ep, dlookup e s.endpoints_by_ep_id = some ep ∧
          p ∈ ep.profile_ids := by
      simp only [on_tags_update_endpoints]
    rw [hRHS]
    exact hP p e

/-! Dirty-tag tracking of `on_tags_update`: the handler only dirties tags
whose member set it changes. -/

theorem otu_remove_tags_guards (removed : List String) (pid eid : String)
    (ips : List String) :
    GuardsF (fun st => otu_remove_tags removed pid eid ips st) :=
  guardsF_foldl
    (fun st2 t => ips.foldl
      (fun st3 ip => remove_mapping st3 t pid eid ip) st2)
    (fun t => guardsF_foldl
      (fun st3 ip => remove_mapping st3 t pid eid ip)
      (fun ip => remove_mapping_guards t pid eid ip) ips) removed

theorem otu_add_tags_guards (added : List String) (pid eid : String)
    (ips : List String) :
    GuardsF (fun st => otu_add_tags added pid eid ips st) :=
  guardsF_foldl
    (fun st2 t => ips.foldl
      (fun st3 ip => add_mapping st3 t pid eid ip) st2)
    (fun t => guardsF_foldl
      (fun st3 ip => add_mapping st3 t pid eid ip)
      (fun ip => add_mapping_guards t pid eid ip) ips) added

theorem otu_ep_step_guards (ipt : IpType) (pid : String)
    (eps : List (String × Endpoint)) (removed added : List String)
    (eid : String) :
    GuardsF (fun st => otu_ep_step ipt pid eps removed added st eid) := by
  have h := guardsF_comp
    (otu_remove_tags_guards removed pid eid
      (extract_ips ipt (dlookup eid eps)))
    (otu_add_tags_guards added pid eid (extract_ips ipt (dlookup eid eps)))
  intro s
  exact h s

theorem otu_set_dict_guards (pid : String) (tags : Option (List String)) :
    GuardsF (otu_set_dict pid tags) :=
  guardsF_of_eq (fun s => ⟨rfl, rfl⟩)

theorem on_tags_update_guards (ipt : IpType) (pid : String)
    (tags : Option (List String)) :
    GuardsF (fun s => on_tags_update ipt s pid tags) := by
  intro s
  have hfold := guardsF_foldl
    (otu_ep_step ipt pid s.endpoints_by_ep_id
      (removedTags s pid tags) (addedTags s pid tags))
    (fun eid => otu_ep_step_guards ipt pid s.endpoints_by_ep_id
      (removedTags s pid tags) (addedTags s pid tags) eid)
    (epIdsOfProfile s pid)
  have hcomp := guardsF_comp hfold (otu_set_dict_guards pid tags)
  exact hcomp s

/-! Decomposition of `on_endpoint_update` into its staged lets. -/

/-- The endpoint-dict store step of `on_endpoint_update` (`pop` for a
`None` update, plain assignment otherwise). -/
def oeuS1 (s : MState) (endpoint_id : String) (endpoint : Option Endpoint) :
    MState :=
  { s with endpoints_by_ep_id :=
      match endpoint with
      | none => dictRemove endpoint_id s.endpoints_by_ep_id
      | some ep => dictUpsert endpoint_id ep s.endpoints_by_ep_id }

/-- The profile-index refresh step of `on_endpoint_update`: only when the
profile id set changed, drop the endpoint from the old profiles' sets and
add it to the new ones. -/
def oeuS2 (s : MState) (endpoint_id : String) (endpoint : Option Endpoint) :
    MState :=
  if listSetEqB (profIdsOf endpoint)
      (profIdsOf (dlookup endpoint_id s.endpoints_by_ep_id)) then
    oeuS1 s endpoint_id endpoint
  else
    add_profile_index
      (remove_profile_index (oeuS1 s endpoint_id endpoint)
        (profIdsOf (dlookup endpoint_id s.endpoints_by_ep_id)) endpoint_id)
      (profIdsOf endpoint) endpoint_id

theorem on_endpoint_update_eq (ipt : IpType) (s : MState) (eid : String)
    (e : Option Endpoint) :
    on_endpoint_update ipt s eid e =
      oeu_remove_pairs
        ((pairTags s (profIdsOf (dlookup eid s.endpoints_by_ep_id))).filter
          (fun pt => !((pairTags s (profIdsOf e)).contains pt)))
        eid (extract_ips ipt (dlookup eid s.endpoints_by_ep_id))
        (oeu_unchanged_pairs
          ((pairTags s (profIdsOf e)).filter
            (fun pt =>
              (pairTags s
                (profIdsOf (dlookup eid s.endpoints_by_ep_id))).contains pt))
          eid
          ((extract_ips ipt (dlookup eid s.endpoints_by_ep_id)).filter
            (fun ip => !((extract_ips ipt e).contains ip)))
          ((extract_ips ipt e).filter
            (fun ip =>
              !((extract_ips ipt
                (dlookup eid s.endpoints_by_ep_id)).contains ip)))
          (oeu_add_pairs
            ((pairTags s (profIdsOf e)).filter
              (fun pt =>
                !((pairTags s
                  (profIdsOf (dlookup eid s.endpoints_by_ep_id))).contains
                    pt)))
            eid (extract_ips ipt e) (oeuS2 s eid e))) := rfl

theorem oeuS1_endpoints_lookup (s : MState) (eid : String)
    (e : Option Endpoint) (x : String) :
    dlookup x (oeuS1 s eid e).endpoints_by_ep_id =
      if x = eid then e else dlookup x s.endpoints_by_ep_id := by
  cases e with
  | none =>
    show dlookup x (dictRemove eid s.endpoints_by_ep_id) = _
    rw [dlookup_dictRemove]
  | some ep =>
    show dlookup x (dictUpsert eid ep s.endpoints_by_ep_id) = _
    rw [dlookup_dictUpsert]

theorem oeuS2_proj (s : MState) (eid : String) (e : Option Endpoint) :
    (oeuS2 s eid e).tags_by_prof_id = s.tags_by_prof_id ∧
      (oeuS2 s eid e).endpoints_by_ep_id =
        (oeuS1 s eid e).endpoints_by_ep_id ∧
      (oeuS2 s eid e).ip_owners_by_tag = s.ip_owners_by_tag ∧
      (oeuS2 s eid e).dirty_tags = s.dirty_tags := by
  unfold oeuS2
  split
  · exact ⟨rfl, rfl, rfl, rfl⟩
  · exact ⟨rfl, rfl, rfl, rfl⟩

/-! Effect of the `on_endpoint_update` loops on the owners index. -/

theorem oeu_add_pairs_owners (pairs : List (String × String)) (eid : String)
    (ips : List String) (st : MState) (q : OwnerEntry) :
    q ∈ (oeu_add_pairs pairs eid ips st).ip_owners_by_tag ↔
      q ∈ st.ip_owners_by_tag ∨
        ((q.2.2.1, q.1) ∈ pairs ∧ q.2.1 ∈ ips ∧ q.2.2.2 = eid) := by
  have h := foldl_owners_effect
    (fun st2 pt => ips.foldl
      (fun st3 ip => add_mapping st3 pt.2 pt.1 eid ip) st2)
    (fun pt q => q.1 = pt.2 ∧ q.2.1 ∈ ips ∧ q.2.2.1 = pt.1 ∧ q.2.2.2 = eid)
    (fun _ _ => False)
    (fun st2 pt q => by rw [add_fold_owners]; tauto)
    (fun a a' q _ hR => hR) pairs st q
  rw [show oeu_add_pairs pairs eid ips st = pairs.foldl
    (fun st2 pt => ips.foldl
      (fun st3 ip => add_mapping st3 pt.2 pt.1 eid ip) st2) st from rfl, h]
  have hT : ((q ∈ st.ip_owners_by_tag ∧ ∀ a ∈ pairs, ¬ False) ↔
      q ∈ st.ip_owners_by_tag) := by simp
  rw [hT]
  constructor
  · rintro (hx | ⟨pt, hpt, h1, h2, h3, h4⟩)
    · exact Or.inl hx
    · refine Or.inr ⟨?_, h2, h4⟩
      have hq : (q.2.2.1, q.1) = pt := by
        rcases pt with ⟨pa, pb⟩
        dsimp at h1 h3
        rw [h1, h3]
      rw [hq]
      exact hpt
  · rintro (hx | ⟨hpt, h2, h4⟩)
    · exact Or.inl hx
    · exact Or.inr ⟨(q.2.2.1, q.1), hpt, rfl, h2, rfl, h4⟩

theorem oeu_remove_pairs_owners (pairs : List (String × String))
    (eid : String) (ips : List String) (st : MState) (q : OwnerEntry) :
    q ∈ (oeu_remove_pairs pairs eid ips st).ip_owners_by_tag ↔
      q ∈ st.ip_owners_by_tag ∧
        ¬((q.2.2.1, q.1) ∈ pairs ∧ q.2.1 ∈ ips ∧ q.2.2.2 = eid) := by
  have h := foldl_owners_effect
    (fun st2 pt => ips.foldl
      (fun st3 ip => remove_mapping st3 pt.2 pt.1 eid ip) st2)
    (fun _ _ => False)
    (fun pt q => q.1 = pt.2 ∧ q.2.1 ∈ ips ∧ q.2.2.1 = pt.1 ∧ q.2.2.2 = eid)
    (fun st2 pt q => by rw [remove_fold_owners]; tauto)
    (fun a a' q hA => hA.elim) pairs st q
  rw [show oeu_remove_pairs pairs eid ips st = pairs.foldl
    (fun st2 pt => ips.foldl
      (fun st3 ip => remove_mapping st3 pt.2 pt.1 eid ip) st2) st from rfl,
    h]
  have hE : (∃ a ∈ pairs, False) ↔ False := by simp
  rw [hE, or_false]
  constructor
  · rintro ⟨hx, hall⟩
    refine ⟨hx, fun hc => ?_⟩
    obtain ⟨hpt, h2, h4⟩ := hc
    exact hall (q.2.2.1, q.1) hpt ⟨rfl, h2, rfl, h4⟩
  · rintro ⟨hx, hneg⟩
    refine ⟨hx, fun pt hpt hc => ?_⟩
    obtain ⟨h1, h2, h3, h4⟩ := hc
    apply hneg
    refine ⟨?_, h2, h4⟩
    have hq : (q.2.2.1, q.1) = pt := by
      rcases pt with ⟨pa, pb⟩
      dsimp at h1 h3
      rw [h1, h3]
    rw [hq]
    exact hpt

theorem oeu_unchanged_pairs_owners (pairs : List (String × String))
    (eid : String) (removed_ips added_ips : List String)
    (hdisj : ∀ ip, ip ∈ added_ips → ip ∉ removed_ips)
    (st : MState) (q : OwnerEntry) :
    q ∈ (oeu_unchanged_pairs pairs eid removed_ips added_ips
        st).ip_owners_by_tag ↔
      ((q ∈ st.ip_owners_by_tag ∧
        ¬((q.2.2.1, q.1) ∈ pairs ∧ q.2.1 ∈ removed_ips ∧ q.2.2.2 = eid)) ∨
       ((q.2.2.1, q.1) ∈ pairs ∧ q.2.1 ∈ added_ips ∧ q.2.2.2 = eid)) := by
  have h := foldl_owners_effect
    (fun st2 pt => added_ips.foldl
      (fun st3 ip => add_mapping st3 pt.2 pt.1 eid ip)
      (removed_ips.foldl
        (fun st3 ip => remove_mapping st3 pt.2 pt.1 eid ip) st2))
    (fun pt q => q.1 = pt.2 ∧ q.2.1 ∈ added_ips ∧ q.2.2.1 = pt.1 ∧
      q.2.2.2 = eid)
    (fun pt q => q.1 = pt.2 ∧ q.2.1 ∈ removed_ips ∧ q.2.2.1 = pt.1 ∧
      q.2.2.2 = eid)
    (fun st2 pt q => by rw [add_fold_owners, remove_fold_owners])
    (fun a a' q hA hR => hdisj q.2.1 hA.2.1 hR.2.1) pairs st q
  rw [show oeu_unchanged_pairs pairs eid removed_ips added_ips st =
    pairs.foldl (fun st2 pt => added_ips.foldl
      (fun st3 ip => add_mapping st3 pt.2 pt.1 eid ip)
      (removed_ips.foldl
        (fun st3 ip => remove_mapping st3 pt.2 pt.1 eid ip) st2)) st
    from rfl, h]
  constructor
  · rintro (⟨hx, hall⟩ | ⟨pt, hpt, h1, h2, h3, h4⟩)
    · refine Or.inl ⟨hx, fun hc => ?_⟩
      obtain ⟨hpm, hr2, hr4⟩ := hc
      exact hall (q.2.2.1, q.1) hpm ⟨rfl, hr2, rfl, hr4⟩
    · refine Or.inr ⟨?_, h2, h4⟩
      have hq : (q.2.2.1, q.1) = pt := by
        rcases pt with ⟨pa, pb⟩
        dsimp at h1 h3
        rw [h1, h3]
      rw [hq]
      exact hpt
  · rintro (⟨hx, hneg⟩ | ⟨hpm, h2, h4⟩)
    · refine Or.inl ⟨hx, fun pt hpt hc => ?_⟩
      obtain ⟨h1, h2, h3, h4⟩ := hc
      apply hneg
      refine ⟨?_, h2, h4⟩
      have hq : (q.2.2.1, q.1) = pt := by
        rcases pt with ⟨pa, pb⟩
        dsimp at h1 h3
        rw [h1, h3]
      rw [hq]
      exact hpt
    · exact Or.inr ⟨(q.2.2.1, q.1), hpm, rfl, h2, rfl, h4⟩

/-! Projections untouched by the `on_endpoint_update` loops. -/

theorem oeu_add_pairs_proj (pairs : List (String × String)) (eid : String)
    (ips : List String) (st : MState) :
    (oeu_add_pairs pairs eid ips st).tags_by_prof_id = st.tags_by_prof_id ∧
      (oeu_add_pairs pairs eid ips st).endpoints_by_ep_id =
        st.endpoints_by_ep_id ∧
      (oeu_add_pairs pairs eid ips st).endpoint_ids_by_profile_id =
        st.endpoint_ids_by_profile_id := by
  unfold oeu_add_pairs
  refine ⟨?_, ?_, ?_⟩
  · exact foldl_proj MState.tags_by_prof_id
      (fun st2 pt => List.foldl
        (fun st3 ip => add_mapping st3 pt.2 pt.1 eid ip) st2 ips)
      (fun st2 pt => foldl_proj MState.tags_by_prof_id
        (fun st3 ip => add_mapping st3 pt.2 pt.1 eid ip)
        (fun st3 ip => rfl) ips st2) pairs st
  · exact foldl_proj MState.endpoints_by_ep_id
      (fun st2 pt => List.foldl
        (fun st3 ip => add_mapping st3 pt.2 pt.1 eid ip) st2 ips)
      (fun st2 pt => foldl_proj MState.endpoints_by_ep_id
        (fun st3 ip => add_mapping st3 pt.2 pt.1 eid ip)
        (fun st3 ip => rfl) ips st2) pairs st
  · exact foldl_proj MState.endpoint_ids_by_profile_id
      (fun st2 pt => List.foldl
        (fun st3 ip => add_mapping st3 pt.2 pt.1 eid ip) st2 ips)
      (fun st2 pt => foldl_proj MState.endpoint_ids_by_profile_id
        (fun st3 ip => add_mapping st3 pt.2 pt.1 eid ip)
        (fun st3 ip => rfl) ips st2) pairs st

theorem oeu_remove_pairs_proj (pairs : List (String × String)) (eid : String)
    (ips : List String) (st : MState) :
    (oeu_remove_pairs pairs eid ips st).tags_by_prof_id =
        st.tags_by_prof_id ∧
      (oeu_remove_pairs pairs eid ips st).endpoints_by_ep_id =
        st.endpoints_by_ep_id ∧
      (oeu_remove_pairs pairs eid ips st).endpoint_ids_by_profile_id =
        st.endpoint_ids_by_profile_id := by
  unfold oeu_remove_pairs
  refine ⟨?_, ?_, ?_⟩
  · exact foldl_proj MState.tags_by_prof_id
      (fun st2 pt => List.foldl
        (fun st3 ip => remove_mapping st3 pt.2 pt.1 eid ip) st2 ips)
      (fun st2 pt => foldl_proj MState.tags_by_prof_id
        (fun st3 ip => remove_mapping st3 pt.2 pt.1 eid ip)
        (fun st3 ip => rfl) ips st2) pairs st
  · exact foldl_proj MState.endpoints_by_ep_id
      (fun st2 pt => List.foldl
        (fun st3 ip => remove_mapping st3 pt.2 pt.1 eid ip) st2 ips)
      (fun st2 pt => foldl_proj MState.endpoints_by_ep_id
        (fun st3 ip => remove_mapping st3 pt.2 pt.1 eid ip)
        (fun st3 ip => rfl) ips st2) pairs st
  · exact foldl_proj MState.endpoint_ids_by_profile_id
      (fun st2 pt => List.foldl
        (fun st3 ip => remove_mapping st3 pt.2 pt.1 eid ip) st2 ips)
      (fun st2 pt => foldl_proj MState.endpoint_ids_by_profile_id
        (fun st3 ip => remove_mapping st3 pt.2 pt.1 eid ip)
        (fun st3 ip => rfl) ips st2) pairs st

theorem oeu_unchanged_pairs_proj (pairs : List (String × String))
    (eid : String) (removed_ips added_ips : List String) (st : MState) :
    (oeu_unchanged_pairs pairs eid removed_ips added_ips
        st).tags_by_prof_id = st.tags_by_prof_id ∧
      (oeu_unchanged_pairs pairs eid removed_ips added_ips
        st).endpoints_by_ep_id = st.endpoints_by_ep_id ∧
      (oeu_unchanged_pairs pairs eid removed_ips added_ips
        st).endpoint_ids_by_profile_id = st.endpoint_ids_by_profile_id := by
  unfold oeu_unchanged_pairs
  refine ⟨?_, ?_, ?_⟩
  · exact foldl_proj MState.tags_by_prof_id
      (fun st2 pt => List.foldl
        (fun st3 ip => add_mapping st3 pt.2 pt.1 eid ip)
        (List.foldl
          (fun st3 ip => remove_mapping st3 pt.2 pt.1 eid ip) st2
          removed_ips) added_ips)
      (fun st2 pt => (foldl_proj MState.tags_by_prof_id
        (fun st3 ip => add_mapping st3 pt.2 pt.1 eid ip)
        (fun st3 ip => rfl) added_ips _).trans
        (foldl_proj MState.tags_by_prof_id
          (fun st3 ip => remove_mapping st3 pt.2 pt.1 eid ip)
          (fun st3 ip => rfl) removed_ips st2)) pairs st
  · exact foldl_proj MState.endpoints_by_ep_id
      (fun st2 pt => List.foldl
        (fun st3 ip => add_mapping st3 pt.2 pt.1 eid ip)
        (List.foldl
          (fun st3 ip => remove_mapping st3 pt.2 pt.1 eid ip) st2
          removed_ips) added_ips)
      (fun st2 pt => (foldl_proj MState.endpoints_by_ep_id
        (fun st3 ip => add_mapping st3 pt.2 pt.1 eid ip)
        (fun st3 ip => rfl) added_ips _).trans
        (foldl_proj MState.endpoints_by_ep_id
          (fun st3 ip => remove_mapping st3 pt.2 pt.1 eid ip)
          (fun st3 ip => rfl) removed_ips st2)) pairs st
  · exact foldl_proj MState.endpoint_ids_by_profile_id
      (fun st2 pt => List.foldl
        (fun st3 ip => add_mapping st3 pt.2 pt.1 eid ip)
        (List.foldl
          (fun st3 ip => remove_mapping st3 pt.2 pt.1 eid ip) st2
          removed_ips) added_ips)
      (fun st2 pt => (foldl_proj MState.endpoint_ids_by_profile_id
        (fun st3 ip => add_mapping st3 pt.2 pt.1 eid ip)
        (fun st3 ip => rfl) added_ips _).trans
        (foldl_proj MState.endpoint_ids_by_profile_id
          (fun st3 ip => remove_mapping st3 pt.2 pt.1 eid ip)
          (fun st3 ip => rfl) removed_ips st2)) pairs st

theorem on_endpoint_update_tags (ipt : IpType) (s : MState) (eid : String)
    (e : Option Endpoint) :
    (on_endpoint_update ipt s eid e).tags_by_prof_id =
      s.tags_by_prof_id := by
  rw [on_endpoint_update_eq]
  rw [(oeu_remove_pairs_proj _ _ _ _).1, (oeu_unchanged_pairs_proj _ _ _ _
    _).1, (oeu_add_pairs_proj _ _ _ _).1, (oeuS2_proj s eid e).1]

theorem on_endpoint_update_endpoints_lookup (ipt : IpType) (s : MState)
    (eid : String) (e : Option Endpoint) (x : String) :
    dlookup x (on_endpoint_update ipt s eid e).endpoints_by_ep_id =
      if x = eid then e else dlookup x s.endpoints_by_ep_id := by
  rw [on_endpoint_update_eq]
  rw [(oeu_remove_pairs_proj _ _ _ _).2.1, (oeu_unchanged_pairs_proj _ _ _ _
    _).2.1, (oeu_add_pairs_proj _ _ _ _).2.1, (oeuS2_proj s eid e).2.1]
  exact oeuS1_endpoints_lookup s eid e x

/-! The profile-to-endpoints index after `on_endpoint_update`. -/

theorem foldl_sRemove_pair_mem (prof_ids : List String) (eid : String)
    (start : List (String × String)) (p x : String) :
    (p, x) ∈ prof_ids.foldl (fun idx pr => sRemove (pr, eid) idx) start ↔
      (p, x) ∈ start ∧ ¬(x = eid ∧ p ∈ prof_ids) := by
  induction prof_ids generalizing start with
  | nil => simp
  | cons a L ih =>
    rw [List.foldl_cons, ih, mem_sRemove]
    constructor
    · rintro ⟨⟨hst, hne⟩, hn⟩
      refine ⟨hst, fun hc => ?_⟩
      obtain ⟨hx, hp⟩ := hc
      rcases List.mem_cons.mp hp with h | h2
      · subst hx
        subst h
        exact hne rfl
      · exact hn ⟨hx, h2⟩
    · rintro ⟨hst, hn⟩
      refine ⟨⟨hst, fun heq => ?_⟩,
        fun hc => hn ⟨hc.1, List.mem_cons_of_mem a hc.2⟩⟩
      have h1 : p = a := congrArg Prod.fst heq
      have h2 : x = eid := congrArg Prod.snd heq
      exact hn ⟨h2, by rw [h1]; exact List.mem_cons_self a L⟩

theorem foldl_sAdd_pair_mem (prof_ids : List String) (eid : String)
    (start : List (String × String)) (p x : String) :
    (p, x) ∈ prof_ids.foldl (fun idx pr => sAdd (pr, eid) idx) start ↔
      (p, x) ∈ start ∨ (x = eid ∧ p ∈ prof_ids) := by
  induction prof_ids generalizing start with
  | nil => simp
  | cons a L ih =>
    rw [List.foldl_cons, ih, mem_sAdd]
    constructor
    · rintro ((heq | hst) | ⟨hx, hp⟩)
      · refine Or.inr ⟨congrArg Prod.snd heq, ?_⟩
        rw [show p = a from congrArg Prod.fst heq]
        exact List.mem_cons_self a L
      · exact Or.inl hst
      · exact Or.inr ⟨hx, List.mem_cons_of_mem a hp⟩
    · rintro (hst | ⟨hx, hp⟩)
      · exact Or.inl (Or.inr hst)
      · rcases List.mem_cons.mp hp with h | h2
        · subst hx
          subst h
          exact Or.inl (Or.inl rfl)
        · exact Or.inr ⟨hx, h2⟩

theorem oeuS2_profidx_eq (s : MState) (eid : String) (e : Option Endpoint)
    (htrue : listSetEqB (profIdsOf e)
      (profIdsOf (dlookup eid s.endpoints_by_ep_id)) = true) :
    (oeuS2 s eid e).endpoint_ids_by_profile_id =
      s.endpoint_ids_by_profile_id := by
  unfold oeuS2
  rw [htrue]
  rfl

theorem oeuS2_profidx_mem (s : MState) (eid : String) (e : Option Endpoint)
    (hfalse : listSetEqB (profIdsOf e)
      (profIdsOf (dlookup eid s.endpoints_by_ep_id)) = false)
    (p x : String) :
    (p, x) ∈ (oeuS2 s eid e).endpoint_ids_by_profile_id ↔
      ((p, x) ∈ s.endpoint_ids_by_profile_id ∧
        ¬(x = eid ∧ p ∈ profIdsOf (dlookup eid s.endpoints_by_ep_id))) ∨
      (x = eid ∧ p ∈ profIdsOf e) := by
  unfold oeuS2
  rw [hfalse]
  have h1 : (add_profile_index
      (remove_profile_index (oeuS1 s eid e)
        (profIdsOf (dlookup eid s.endpoints_by_ep_id)) eid)
      (profIdsOf e) eid).endpoint_ids_by_profile_id =
      (profIdsOf e).foldl (fun idx pr => sAdd (pr, eid) idx)
        ((profIdsOf (dlookup eid s.endpoints_by_ep_id)).foldl
          (fun idx pr => sRemove (pr, eid) idx)
          s.endpoint_ids_by_profile_id) := rfl
  show (p, x) ∈ (add_profile_index
      (remove_profile_index (oeuS1 s eid e)
        (profIdsOf (dlookup eid s.endpoints_by_ep_id)) eid)
      (profIdsOf e) eid).endpoint_ids_by_profile_id ↔ _
  rw [h1, foldl_sAdd_pair_mem, foldl_sRemove_pair_mem]

/-! Dirty-tag tracking of `on_endpoint_update`. -/

theorem oeu_chain_guards (RP UP AP : List (String × String)) (eid : String)
    (OI RI AI NI : List String) :
    GuardsF (fun st => oeu_remove_pairs RP eid OI
      (oeu_unchanged_pairs UP eid RI AI (oeu_add_pairs AP eid NI st))) := by
  have hA : GuardsF (fun st => oeu_add_pairs AP eid NI st) := by
    unfold oeu_add_pairs
    exact guardsF_foldl _
      (fun pt => guardsF_foldl _
        (fun ip => add_mapping_guards pt.2 pt.1 eid ip) NI) AP
  have hU : GuardsF (fun st => oeu_unchanged_pairs UP eid RI AI st) := by
    unfold oeu_unchanged_pairs
    refine guardsF_foldl _ (fun pt => ?_) UP
    have h := guardsF_comp
      (guardsF_foldl (fun st3 ip => remove_mapping st3 pt.2 pt.1 eid ip)
        (fun ip => remove_mapping_guards pt.2 pt.1 eid ip) RI)
      (guardsF_foldl (fun st3 ip => add_mapping st3 pt.2 pt.1 eid ip)
        (fun ip => add_mapping_guards pt.2 pt.1 eid ip) AI)
    intro s
    exact h s
  have hR : GuardsF (fun st => oeu_remove_pairs RP eid OI st) := by
    unfold oeu_remove_pairs
    exact guardsF_foldl _
      (fun pt => guardsF_foldl _
        (fun ip => remove_mapping_guards pt.2 pt.1 eid ip) OI) RP
  have h := guardsF_comp (guardsF_comp hA hU) hR
  intro s
  exact h s

theorem on_endpoint_update_guards (ipt : IpType) (eid : String)
    (e : Option Endpoint) :
    GuardsF (fun s => on_endpoint_update ipt s eid e) := by
  intro s
  obtain ⟨hTg, hEp, hOw, hD⟩ := oeuS2_proj s eid e
  have h2 := oeu_chain_guards
    ((pairTags s (profIdsOf (dlookup eid s.endpoints_by_ep_id))).filter
      (fun pt => !((pairTags s (profIdsOf e)).contains pt)))
    ((pairTags s (profIdsOf e)).filter
      (fun pt =>
        (pairTags s (profIdsOf (dlookup eid s.endpoints_by_ep_id))).contains
          pt))
    ((pairTags s (profIdsOf e)).filter
      (fun pt =>
        !((pairTags s
          (profIdsOf (dlookup eid s.endpoints_by_ep_id))).contains pt)))
    eid
    (extract_ips ipt (dlookup eid s.endpoints_by_ep_id))
    ((extract_ips ipt (dlookup eid s.endpoints_by_ep_id)).filter
      (fun ip => !((extract_ips ipt e).contains ip)))
    ((extract_ips ipt e).filter
      (fun ip =>
        !((extract_ips ipt (dlookup eid s.endpoints_by_ep_id)).contains ip)))
    (extract_ips ipt e)
    (oeuS2 s eid e)
  have hmem : ∀ T ip', ip' ∈ membersOfTag (oeuS2 s eid e) T ↔
      ip' ∈ membersOfTag s T := by
    intro T ip'
    unfold membersOfTag
    rw [hOw]
  constructor
  · intro T hT
    exact h2.1 T (show T ∈ (oeuS2 s eid e).dirty_tags by rw [hD]; exact hT)
  · intro T hT ip
    exact (h2.2 T hT ip).trans (hmem T ip)

set_option maxHeartbeats 2000000 in
theorem invariants_on_endpoint_update (ipt : IpType) (s : MState)
    (eid : String) (e : Option Endpoint) (hInv : Invariants ipt s) :
    Invariants ipt (on_endpoint_update ipt s eid e) := by
  obtain ⟨hO, hP⟩ := hInv
  have htags := on_endpoint_update_tags ipt s eid e
  have hendp := on_endpoint_update_endpoints_lookup ipt s eid e
  constructor
  · intro q
    rcases q with ⟨qT, qIp, qP, qE⟩
    have hRHS : OwnersSpec ipt (on_endpoint_update ipt s eid e)
        (qT, qIp, qP, qE) ↔
        ∃ ep, (if qE = eid then e else dlookup qE s.endpoints_by_ep_id)
            = some ep ∧ qP ∈ ep.profile_ids ∧
            qT ∈ ((dlookup qP s.tags_by_prof_id).getD []) ∧
            qIp ∈ extract_ips ipt (some ep) := by
      unfold OwnersSpec tagsOf
      simp only [hendp, htags]
    rw [hRHS]
    have hdisj : ∀ ip', ip' ∈ (extract_ips ipt e).filter
        (fun ip => !((extract_ips ipt
          (dlookup eid s.endpoints_by_ep_id)).contains ip)) →
        ip' ∉ (extract_ips ipt (dlookup eid s.endpoints_by_ep_id)).filter
          (fun ip => !((extract_ips ipt e).contains ip)) := by
      intro ip' h1 h2
      rw [List.mem_filter] at h1 h2
      have hm : (extract_ips ipt
          (dlookup eid s.endpoints_by_ep_id)).contains ip' = true :=
        (contains_iff _ _).mpr h2.1
      rw [hm] at h1
      exact absurd h1.2 (by decide)
    conv_lhs => rw [on_endpoint_update_eq]
    rw [oeu_remove_pairs_owners, oeu_unchanged_pairs_owners _ _ _ _ hdisj,
      oeu_add_pairs_owners,
      show (oeuS2 s eid e).ip_owners_by_tag = s.ip_owners_by_tag from
        (oeuS2_proj s eid e).2.2.1]
    dsimp only
    by_cases hqe : qE = eid
    · rw [hqe, if_pos rfl]
      have hOld2 : (qT, qIp, qP, eid) ∈ s.ip_owners_by_tag ↔
          ((qP, qT) ∈ pairTags s
            (profIdsOf (dlookup eid s.endpoints_by_ep_id)) ∧
           qIp ∈ extract_ips ipt (dlookup eid s.endpoints_by_ep_id)) := by
        rw [hO (qT, qIp, qP, eid)]
        unfold OwnersSpec tagsOf
        dsimp only
        constructor
        · rintro ⟨ep, hlk, hprof, htag, hip⟩
          refine ⟨(mem_pairTags s _ qP qT).mpr
            ⟨(mem_profIdsOf _ qP).mpr ⟨ep, hlk, hprof⟩, htag⟩, ?_⟩
          rw [hlk]
          exact hip
        · rintro ⟨hpt, hip⟩
          obtain ⟨hpp, htag⟩ := (mem_pairTags s _ qP qT).mp hpt
          obtain ⟨ep, hlk, hprof⟩ := (mem_profIdsOf _ qP).mp hpp
          rw [hlk] at hip
          exact ⟨ep, hlk, hprof, htag, hip⟩
      have hNew : (∃ ep, e = some ep ∧ qP ∈ ep.profile_ids ∧
          qT ∈ ((dlookup qP s.tags_by_prof_id).getD []) ∧
          qIp ∈ extract_ips ipt (some ep)) ↔
          ((qP, qT) ∈ pairTags s (profIdsOf e) ∧
           qIp ∈ extract_ips ipt e) := by
        constructor
        · rintro ⟨ep, hlk, hprof, htag, hip⟩
          refine ⟨(mem_pairTags s _ qP qT).mpr
            ⟨(mem_profIdsOf _ qP).mpr ⟨ep, hlk, hprof⟩, htag⟩, ?_⟩
          rw [hlk]
          exact hip
        · rintro ⟨hpt, hip⟩
          obtain ⟨hpp, htag⟩ := (mem_pairTags s _ qP qT).mp hpt
          obtain ⟨ep, hlk, hprof⟩ := (mem_profIdsOf _ qP).mp hpp
          rw [hlk] at hip
          exact ⟨ep, hlk, hprof, htag, hip⟩
      have hFRP : (qP, qT) ∈ (pairTags s
          (profIdsOf (dlookup eid s.endpoints_by_ep_id))).filter
          (fun pt => !((pairTags s (profIdsOf e)).contains pt)) ↔
          ((qP, qT) ∈ pairTags s
            (profIdsOf (dlookup eid s.endpoints_by_ep_id)) ∧
           (qP, qT) ∉ pairTags s (profIdsOf e)) := by
        simp [List.mem_filter, List.contains, List.elem_iff]
      have hFUP : (qP, qT) ∈ (pairTags s (profIdsOf e)).filter
          (fun pt => (pairTags s
            (profIdsOf (dlookup eid s.endpoints_by_ep_id))).contains pt) ↔
          ((qP, qT) ∈ pairTags s (profIdsOf e) ∧
           (qP, qT) ∈ pairTags s
             (profIdsOf (dlookup eid s.endpoints_by_ep_id))) := by
        simp [List.mem_filter, List.contains, List.elem_iff]
      have hFAP : (qP, qT) ∈ (pairTags s (profIdsOf e)).filter
          (fun pt => !((pairTags s
            (profIdsOf (dlookup eid s.endpoints_by_ep_id))).contains pt)) ↔
          ((qP, qT) ∈ pairTags s (profIdsOf e) ∧
           (qP, qT) ∉ pairTags s
             (profIdsOf (dlookup eid s.endpoints_by_ep_id))) := by
        simp [List.mem_filter, List.contains, List.elem_iff]
      have hFRI : qIp ∈ (extract_ips ipt
          (dlookup eid s.endpoints_by_ep_id)).filter
          (fun ip => !((extract_ips ipt e).contains ip)) ↔
          (qIp ∈ extract_ips ipt (dlookup eid s.endpoints_by_ep_id) ∧
           qIp ∉ extract_ips ipt e) := by
        simp [List.mem_filter, List.contains, List.elem_iff]
      have hFAI : qIp ∈ (extract_ips ipt e).filter
          (fun ip => !((extract_ips ipt
            (dlookup eid s.endpoints_by_ep_id)).contains ip)) ↔
          (qIp ∈ extract_ips ipt e ∧
           qIp ∉ extract_ips ipt (dlookup eid s.endpoints_by_ep_id)) := by
        simp [List.mem_filter, List.contains, List.elem_iff]
      rw [hOld2, hNew, hFRP, hFUP, hFAP, hFRI, hFAI]
      simp only [eq_self_iff_true, and_true, true_and]
      generalize ((qP, qT) ∈ pairTags s
        (profIdsOf (dlookup eid s.endpoints_by_ep_id))) = P1
      generalize ((qP, qT) ∈ pairTags s (profIdsOf e)) = P2
      generalize (qIp ∈ extract_ips ipt
        (dlookup eid s.endpoints_by_ep_id)) = I1
      generalize (qIp ∈ extract_ips ipt e) = I2
      constructor
      · rintro ⟨h1 | ⟨⟨hP2, hP1⟩, hI2, hI1n⟩, hnotrem⟩
        · obtain ⟨h2, hnotu⟩ := h1
          rcases h2 with ⟨hP1, hI1⟩ | ⟨⟨hP2, hP1n⟩, hI2⟩
          · by_cases hP2 : P2
            · by_cases hI2 : I2
              · exact ⟨hP2, hI2⟩
              · exact absurd ⟨⟨hP2, hP1⟩, hI1, hI2⟩ hnotu
            · exact absurd ⟨⟨hP1, hP2⟩, hI1⟩ hnotrem
          · exact ⟨hP2, hI2⟩
        · exact ⟨hP2, hI2⟩
      · rintro ⟨hP2, hI2⟩
        by_cases hP1 : P1
        · by_cases hI1 : I1
          · refine ⟨Or.inl ⟨Or.inl ⟨hP1, hI1⟩, ?_⟩, ?_⟩
            · rintro ⟨-, -, hI2n⟩
              exact hI2n hI2
            · rintro ⟨⟨-, hP2n⟩, -⟩
              exact hP2n hP2
          · refine ⟨Or.inr ⟨⟨hP2, hP1⟩, hI2, hI1⟩, ?_⟩
            rintro ⟨⟨-, hP2n⟩, -⟩
            exact hP2n hP2
        · refine ⟨Or.inl ⟨Or.inr ⟨⟨hP2, hP1⟩, hI2⟩, ?_⟩, ?_⟩
          · rintro ⟨⟨-, hP1'⟩, -⟩
            exact hP1 hP1'
          · rintro ⟨⟨hP1', -⟩, -⟩
            exact hP1 hP1'
    · rw [if_neg hqe]
      have hs := hO (qT, qIp, qP, qE)
      unfold OwnersSpec tagsOf at hs
      dsimp only at hs
      rw [hs]
      constructor
      · rintro ⟨(⟨hE | ⟨-, -, hfe⟩, -⟩ | ⟨-, -, hfe⟩), -⟩
        · exact hE
        · exact absurd hfe hqe
        · exact absurd hfe hqe
      · intro hE
        exact ⟨Or.inl ⟨Or.inl hE, fun hc => hqe hc.2.2⟩,
          fun hc => hqe hc.2.2⟩
  · intro p x
    have hRHS2 : (∃ ep, dlookup x (on_endpoint_update ipt s eid
        e).endpoints_by_ep_id = some ep ∧ p ∈ ep.profile_ids) ↔
        (∃ ep, (if x = eid then e else dlookup x s.endpoints_by_ep_id)
          = some ep ∧ p ∈ ep.profile_ids) := by
      simp only [hendp]
    rw [hRHS2]
    have hpidx : (on_endpoint_update ipt s eid e).endpoint_ids_by_profile_id
        = (oeuS2 s eid e).endpoint_ids_by_profile_id := by
      rw [on_endpoint_update_eq]
      rw [(oeu_remove_pairs_proj _ _ _ _).2.2,
        (oeu_unchanged_pairs_proj _ _ _ _ _).2.2,
        (oeu_add_pairs_proj _ _ _ _).2.2]
    rw [show (p, x) ∈ (on_endpoint_update ipt s eid
      e).endpoint_ids_by_profile_id ↔ (p, x) ∈ (oeuS2 s eid
      e).endpoint_ids_by_profile_id from by rw [hpidx]]
    cases hset : listSetEqB (profIdsOf e)
        (profIdsOf (dlookup eid s.endpoints_by_ep_id)) with
    | false =>
      rw [oeuS2_profidx_mem s eid e hset p x]
      by_cases hxe : x = eid
      · rw [hxe, if_pos rfl]
        have hold : (p, eid) ∈ s.endpoint_ids_by_profile_id ↔
            p ∈ profIdsOf (dlookup eid s.endpoints_by_ep_id) := by
          rw [hP p eid]
          exact (mem_profIdsOf _ p).symm
        have hnew2 : (∃ ep, e = some ep ∧ p ∈ ep.profile_ids) ↔
            p ∈ profIdsOf e := (mem_profIdsOf e p).symm
        rw [hold, hnew2]
        simp only [eq_self_iff_true, true_and]
        tauto
      · rw [if_neg hxe, hP p x]
        constructor
        · rintro (⟨hE, -⟩ | ⟨hfe, -⟩)
          · exact hE
          · exact absurd hfe hxe
        · intro hE
          exact Or.inl ⟨hE, fun hc => hxe hc.1⟩
    | true =>
      rw [oeuS2_profidx_eq s eid e hset]
      by_cases hxe : x = eid
      · rw [hxe, if_pos rfl, hP p eid]
        rw [show (∃ ep, dlookup eid s.endpoints_by_ep_id = some ep ∧
            p ∈ ep.profile_ids) ↔
            p ∈ profIdsOf (dlookup eid s.endpoints_by_ep_id) from
          (mem_profIdsOf _ p).symm,
          show (∃ ep, e = some ep ∧ p ∈ ep.profile_ids) ↔
            p ∈ profIdsOf e from (mem_profIdsOf e p).symm]
        exact ((listSetEqB_iff _ _).mp hset p).symm
      · rw [if_neg hxe]
        exact hP p x

/-! Replaying message batches preserves the index invariants and the
dirty-tag discipline. -/

theorem invariants_applyMsg (ipt : IpType) (s : MState) (m : Msg)
    (h : Invariants ipt s) : Invariants ipt (applyMsg ipt s m) := by
  cases m with
  | tagsUpdate p tags => exact invariants_on_tags_update ipt s p tags h
  | epUpdate eid e => exact invariants_on_endpoint_update ipt s eid e h

theorem invariants_replay (ipt : IpType) (msgs : List Msg) :
    ∀ s : MState, Invariants ipt s → Invariants ipt (replay ipt s msgs) := by
  induction msgs with
  | nil => intro s h; exact h
  | cons m rest ih =>
    intro s h
    exact ih (applyMsg ipt s m) (invariants_applyMsg ipt s m h)

theorem guardsF_applyMsg (ipt : IpType) (m : Msg) :
    GuardsF (fun s => applyMsg ipt s m) := by
  cases m with
  | tagsUpdate p tags => exact on_tags_update_guards ipt p tags
  | epUpdate eid e => exact on_endpoint_update_guards ipt eid e

theorem guardsF_replay (ipt : IpType) (msgs : List Msg) :
    GuardsF (fun s => replay ipt s msgs) :=
  guardsF_foldl (applyMsg ipt) (fun m => guardsF_applyMsg ipt m) msgs

theorem invariants_initState (ipt : IpType) : Invariants ipt initState := by
  constructor
  · intro q
    constructor
    · intro h
      simp [initState] at h
    · rintro ⟨ep, hlk, -⟩
      simp [initState] at hlk
  · intro p e
    constructor
    · intro h
      simp [initState] at h
    · rintro ⟨ep, hlk, -⟩
      simp [initState] at hlk

theorem invariants_set_dirty (ipt : IpType) (s : MState) (d : List String)
    (h : Invariants ipt s) :
    Invariants ipt { s with dirty_tags := d } := by
  obtain ⟨hO, hP⟩ := h
  exact ⟨fun q => hO q, fun p e => hP p e⟩

theorem initSent_lookup (live : List String) (T : String) (hT : T ∈ live) :
    dlookup T (initSent live) = some [] := by
  induction live with
  | nil => exact absurd hT (List.not_mem_nil T)
  | cons a L ih =>
    show dlookup T ((a, []) :: initSent L) = some []
    rw [dlookup_cons]
    rcases List.mem_cons.mp hT with h | h2
    · rw [if_pos h.symm]
    · by_cases haT : a = T
      · rw [if_pos haT]
      · rw [if_neg haT]
        exact ih h2

theorem dirty_fold_lookup (live : List String) (s' : MState)
    (ds : List String) (acc : List (String × List String)) (T : String) :
    dlookup T (ds.foldl (fun acc2 T2 =>
      if live.contains T2 then update_active_ipset s' acc2 T2 else acc2)
      acc) =
      if T ∈ ds ∧ live.contains T = true then some (membersOfTag s' T)
      else dlookup T acc := by
  induction ds generalizing acc with
  | nil => simp
  | cons d ds ih =>
    rw [List.foldl_cons, ih]
    by_cases hmem : T ∈ ds ∧ live.contains T = true
    · rw [if_pos hmem, if_pos ⟨List.mem_cons_of_mem d hmem.1, hmem.2⟩]
    · rw [if_neg hmem]
      by_cases hTd : T = d
      · subst hTd
        by_cases hlive : live.contains T = true
        · rw [if_pos hlive, if_pos ⟨List.mem_cons_self T ds, hlive⟩]
          show dlookup T (dictUpsert T (membersOfTag s' T) acc) = _
          rw [dlookup_dictUpsert, if_pos rfl]
        · have hni : ¬(T ∈ T :: ds ∧ live.contains T = true) :=
            fun hc => hlive hc.2
          rw [if_neg hni, if_neg hlive]
      · have hni : ¬(T ∈ d :: ds ∧ live.contains T = true) := by
          rintro ⟨hc1, hc2⟩
          rcases List.mem_cons.mp hc1 with h | h
          · exact hTd h
          · exact hmem ⟨h, hc2⟩
        rw [if_neg hni]
        by_cases hlive : live.contains d = true
        · rw [if_pos hlive]
          show dlookup T (dictUpsert d (membersOfTag s' d) acc) =
            dlookup T acc
          rw [dlookup_dictUpsert, if_neg hTd]
        · rw [if_neg hlive]

/-- The batch-boundary invariant of the `IpsetManager` actor: the indices
are exact, the dirty set is drained, and every live tag's actor last
received exactly the tag's current member set. -/
def BatchInv (ipt : IpType) (live : List String)
    (p : MState × List (String × List String)) : Prop :=
  Invariants ipt p.1 ∧ p.1.dirty_tags = [] ∧
  ∀ T ∈ live, ∃ ms, dlookup T p.2 = some ms ∧
    ∀ ip, ip ∈ ms ↔ ip ∈ membersOfTag p.1 T

theorem batchInv_init (ipt : IpType) (live : List String) :
    BatchInv ipt live (initState, initSent live) := by
  refine ⟨invariants_initState ipt, rfl,
    fun T hT => ⟨[], initSent_lookup live T hT, fun ip => ?_⟩⟩
  constructor
  · intro h
    exact absurd h (List.not_mem_nil ip)
  · intro h
    obtain ⟨p, e, hq⟩ := (mem_membersOfTag initState T ip).mp h
    simp [initState] at hq

theorem batchInv_step (ipt : IpType) (live : List String)
    (batch : List Msg) (p : MState × List (String × List String))
    (h : BatchInv ipt live p) :
    BatchInv ipt live (runBatch ipt live p batch) := by
  obtain ⟨hInv, hDirty, hSent⟩ := h
  rcases p with ⟨s, sent⟩
  have hInv' : Invariants ipt (replay ipt s batch) :=
    invariants_replay ipt batch s hInv
  have hG := guardsF_replay ipt batch s
  refine ⟨?_, rfl, ?_⟩
  · exact invariants_set_dirty ipt (replay ipt s batch) [] hInv'
  · intro T hT
    by_cases hdirt : T ∈ (replay ipt s batch).dirty_tags
    · refine ⟨membersOfTag (replay ipt s batch) T, ?_, fun ip => Iff.rfl⟩
      show dlookup T ((replay ipt s batch).dirty_tags.foldl
        (fun acc2 T2 => if live.contains T2 then
          update_active_ipset (replay ipt s batch) acc2 T2 else acc2)
        sent) = _
      rw [dirty_fold_lookup,
        if_pos ⟨hdirt, (contains_iff live T).mpr hT⟩]
    · obtain ⟨ms, hlk, hms⟩ := hSent T hT
      refine ⟨ms, ?_, fun ip => ?_⟩
      · show dlookup T ((replay ipt s batch).dirty_tags.foldl
          (fun acc2 T2 => if live.contains T2 then
            update_active_ipset (replay ipt s batch) acc2 T2 else acc2)
          sent) = some ms
        rw [dirty_fold_lookup, if_neg (fun hc => hdirt hc.1)]
        exact hlk
      · rw [hms ip]
        exact (hG.2 T hdirt ip).symm

theorem batchInv_runBatches (ipt : IpType) (live : List String)
    (batches : List (List Msg)) :
    BatchInv ipt live (runBatches ipt live batches) := by
  suffices h : ∀ p, BatchInv ipt live p →
      BatchInv ipt live (batches.foldl (runBatch ipt live) p) from
    h (initState, initSent live) (batchInv_init ipt live)
  induction batches with
  | nil => intro p h; exact h
  | cons b rest ih =>
    intro p h
    exact ih (runBatch ipt live p b) (batchInv_step ipt live b p h)

/-- C1: tag coverage invariant — at every batch boundary (after
`_finish_msg_batch` has drained the dirty-tag set), the member set last
handed to a live tag `T`'s address-set actor via `replace_members` is
exactly the set of IP addresses (of the manager's IP family) of the
endpoints holding some profile `p` with `T` in `p`'s tag list, i.e. the
key set of `ip_owners_by_tag[T]` as maintained by `on_tags_update` /
`on_endpoint_update`. -/
theorem C1_tag_coverage (ipt : IpType) (live : List String)
    (batches : List (List Msg)) (T : String) (hT : T ∈ live) :
    ∃ ms, dlookup T (runBatches ipt live batches).2 = some ms ∧
      ∀ ip, ip ∈ ms ↔ ∃ e ep p,
        dlookup e (runBatches ipt live batches).1.endpoints_by_ep_id
            = some ep ∧
          p ∈ ep.profile_ids ∧
          T ∈ tagsOf (runBatches ipt live batches).1 p ∧
          ip ∈ extract_ips ipt (some ep) := by
  obtain ⟨hInv, hDirty, hSent⟩ := batchInv_runBatches ipt live batches
  obtain ⟨ms, hlk, hms⟩ := hSent T hT
  refine ⟨ms, hlk, fun ip => (hms ip).trans ?_⟩
  rw [mem_membersOfTag]
  constructor
  · rintro ⟨p, e, hq⟩
    obtain ⟨ep, hlk2, hp, ht, hip⟩ := (hInv.1 (T, ip, p, e)).mp hq
    exact ⟨e, ep, p, hlk2, hp, ht, hip⟩
  · rintro ⟨e, ep, p, hlk2, hp, ht, hip⟩
    exact ⟨p, e, (hInv.1 (T, ip, p, e)).mpr ⟨ep, hlk2, hp, ht, hip⟩⟩

theorem C1_tag_coverage_witness :
    ("t1" ∈ ["t1"]) ∧
    (∃ ms, dlookup "t1" (runBatches IpType.v4 ["t1"]
        [[Msg.tagsUpdate "prof" (some ["t1"]),
          Msg.epUpdate "ep1" (some ⟨["prof"], ["10.0.0.1/32"], []⟩)]]).2
        = some ms ∧
      ∀ ip, ip ∈ ms ↔ ∃ e ep p,
        dlookup e (runBatches IpType.v4 ["t1"]
            [[Msg.tagsUpdate "prof" (some ["t1"]),
              Msg.epUpdate "ep1"
                (some ⟨["prof"], ["10.0.0.1/32"], []⟩)]]).1.endpoints_by_ep_id
            = some ep ∧
          p ∈ ep.profile_ids ∧
          "t1" ∈ tagsOf (runBatches IpType.v4 ["t1"]
            [[Msg.tagsUpdate "prof" (some ["t1"]),
              Msg.epUpdate "ep1" (some ⟨["prof"], ["10.0.0.1/32"], []⟩)]]).1
            p ∧
          ip ∈ extract_ips IpType.v4 (some ep)) :=
  ⟨List.mem_cons_self "t1" [],
   C1_tag_coverage IpType.v4 ["t1"]
     [[Msg.tagsUpdate "prof" (some ["t1"]),
       Msg.epUpdate "ep1" (some ⟨["prof"], ["10.0.0.1/32"], []⟩)]] "t1"
     (List.mem_cons_self "t1" [])⟩

/-! Snapshot application on a fresh manager. -/

theorem dlookup_eq_none {α β : Type} [DecidableEq α] (k : α)
    (l : List (α × β)) (h : k ∉ l.map Prod.fst) : dlookup k l = none := by
  induction l with
  | nil => rfl
  | cons kv rest ih =>
    rw [dlookup_cons]
    rw [if_neg]
    · exact ih (fun hm => h (by
        rw [List.map_cons]
        exact List.mem_cons_of_mem _ hm))
    · intro he
      apply h
      rw [List.map_cons, he]
      exact List.mem_cons_self k _

theorem snap_tags_fold_lookup (ipt : IpType)
    (tagsS : List (String × List String))
    (hnd : (tagsS.map Prod.fst).Nodup) :
    ∀ (s0 : MState) (p : String),
    dlookup p ((tagsS.foldl
        (fun st kv => on_tags_update ipt st kv.1 (some kv.2))
        s0).tags_by_prof_id) =
      (dlookup p tagsS).or (dlookup p s0.tags_by_prof_id) := by
  induction tagsS with
  | nil => intro s0 p; rfl
  | cons kv rest ih =>
    intro s0 p
    rw [List.foldl_cons]
    have hnd2 : (rest.map Prod.fst).Nodup ∧ kv.1 ∉ rest.map Prod.fst := by
      rw [List.map_cons] at hnd
      exact ⟨(List.nodup_cons.mp hnd).2, (List.nodup_cons.mp hnd).1⟩
    rw [ih hnd2.1 (on_tags_update ipt s0 kv.1 (some kv.2)) p,
      on_tags_update_tags_lookup, dlookup_cons]
    by_cases hp : kv.1 = p
    · rw [if_pos hp]
      have hnone : dlookup p rest = none := dlookup_eq_none p rest (by
        rw [← hp]
        exact hnd2.2)
      rw [hnone, if_pos hp.symm]
      rfl
    · rw [if_neg hp, if_neg (fun he => hp he.symm)]

theorem snap_eps_fold_lookup (ipt : IpType)
    (epsS : List (String × Endpoint))
    (hnd : (epsS.map Prod.fst).Nodup) :
    ∀ (s0 : MState) (x : String),
    dlookup x ((epsS.foldl
        (fun st kv => on_endpoint_update ipt st kv.1 (some kv.2))
        s0).endpoints_by_ep_id) =
      (dlookup x epsS).or (dlookup x s0.endpoints_by_ep_id) := by
  induction epsS with
  | nil => intro s0 x; rfl
  | cons kv rest ih =>
    intro s0 x
    rw [List.foldl_cons]
    have hnd2 : (rest.map Prod.fst).Nodup ∧ kv.1 ∉ rest.map Prod.fst := by
      rw [List.map_cons] at hnd
      exact ⟨(List.nodup_cons.mp hnd).2, (List.nodup_cons.mp hnd).1⟩
    rw [ih hnd2.1 (on_endpoint_update ipt s0 kv.1 (some kv.2)) x,
      on_endpoint_update_endpoints_lookup, dlookup_cons]
    by_cases hp : kv.1 = x
    · rw [if_pos hp]
      have hnone : dlookup x rest = none := dlookup_eq_none x rest (by
        rw [← hp]
        exact hnd2.2)
      rw [hnone, if_pos hp.symm]
      rfl
    · rw [if_neg hp, if_neg (fun he => hp he.symm)]

set_option maxHeartbeats 1000000 in
theorem eps_fold_tags (ipt : IpType) (epsS : List (String × Endpoint))
    (s0 : MState) :
    ((epsS.foldl (fun st kv => on_endpoint_update ipt st kv.1 (some kv.2))
      s0).tags_by_prof_id) = s0.tags_by_prof_id :=
  foldl_proj MState.tags_by_prof_id
    (fun st kv => on_endpoint_update ipt st kv.1 (some kv.2))
    (fun st kv => on_endpoint_update_tags ipt st kv.1 (some kv.2)) epsS s0

theorem tags_fold_endpoints (ipt : IpType)
    (tagsS : List (String × List String)) (s0 : MState) :
    ((tagsS.foldl (fun st kv => on_tags_update ipt st kv.1 (some kv.2))
      s0).endpoints_by_ep_id) = s0.endpoints_by_ep_id :=
  foldl_proj MState.endpoints_by_ep_id
    (fun st kv => on_tags_update ipt st kv.1 (some kv.2))
    (fun st kv => on_tags_update_endpoints ipt st kv.1 (some kv.2)) tagsS s0

theorem apply_snapshot_init (ipt : IpType)
    (tagsS : List (String × List String))
    (epsS : List (String × Endpoint)) :
    apply_snapshot ipt initState tagsS epsS =
      epsS.foldl (fun st kv => on_endpoint_update ipt st kv.1 (some kv.2))
        (tagsS.foldl (fun st kv => on_tags_update ipt st kv.1 (some kv.2))
          initState) := by
  have hmiss : missingEndpointIds
      (tagsS.foldl (fun st kv => on_tags_update ipt st kv.1 (some kv.2))
        initState) epsS = [] := by
    unfold missingEndpointIds
    rw [tags_fold_endpoints]
    rfl
  show (missingEndpointIds ((missingProfileIds initState tagsS).foldl
      (fun st p => on_tags_update ipt st p none)
      (tagsS.foldl (fun st kv => on_tags_update ipt st kv.1 (some kv.2))
        initState)) epsS).foldl
    (fun st e => on_endpoint_update ipt st e none)
    (epsS.foldl (fun st kv => on_endpoint_update ipt st kv.1 (some kv.2))
      ((missingProfileIds initState tagsS).foldl
        (fun st p => on_tags_update ipt st p none)
        (tagsS.foldl (fun st kv => on_tags_update ipt st kv.1 (some kv.2))
          initState))) = _
  rw [show missingProfileIds initState tagsS = [] from rfl,
    List.foldl_nil, hmiss, List.foldl_nil]

theorem ownersSpec_ext (ipt : IpType) (sA sB : MState)
    (hE : ∀ x, dlookup x sA.endpoints_by_ep_id =
      dlookup x sB.endpoints_by_ep_id)
    (hTg : ∀ p, dlookup p sA.tags_by_prof_id = dlookup p sB.tags_by_prof_id)
    (q : OwnerEntry) : OwnersSpec ipt sA q ↔ OwnersSpec ipt sB q := by
  unfold OwnersSpec tagsOf
  simp only [hE, hTg]

theorem invariants_foldl {α : Type} (ipt : IpType) (f : MState → α → MState)
    (hf : ∀ st a, Invariants ipt st → Invariants ipt (f st a)) :
    ∀ (L : List α) (s0 : MState), Invariants ipt s0 →
      Invariants ipt (L.foldl f s0)
  | [], s0, h0 => h0
  | a :: L, s0, h0 =>
    invariants_foldl ipt f hf L (f s0 a) (hf s0 a h0)

/-- C2: snapshot equivalence — `apply_snapshot` on a fresh manager, fed
the dicts a message sequence ends in, reproduces the replayed manager's
four index structures extensionally (and hence the same ipset member
sets); and the `None`-update lists of a snapshot applied to a non-fresh
manager are exactly the previously-known profiles / endpoints absent from
the snapshot. -/
theorem C2_snapshot_equivalence (ipt : IpType) (msgs : List Msg)
    (tagsS : List (String × List String)) (epsS : List (String × Endpoint))
    (hndT : (tagsS.map Prod.fst).Nodup) (hndE : (epsS.map Prod.fst).Nodup)
    (ht : ∀ p, dlookup p tagsS =
      dlookup p (replay ipt initState msgs).tags_by_prof_id)
    (he : ∀ x, dlookup x epsS =
      dlookup x (replay ipt initState msgs).endpoints_by_ep_id) :
    (∀ p, dlookup p
        (apply_snapshot ipt initState tagsS epsS).tags_by_prof_id =
      dlookup p (replay ipt initState msgs).tags_by_prof_id) ∧
    (∀ x, dlookup x
        (apply_snapshot ipt initState tagsS epsS).endpoints_by_ep_id =
      dlookup x (replay ipt initState msgs).endpoints_by_ep_id) ∧
    (∀ q : OwnerEntry,
      q ∈ (apply_snapshot ipt initState tagsS epsS).ip_owners_by_tag ↔
        q ∈ (replay ipt initState msgs).ip_owners_by_tag) ∧
    (∀ p x, (p, x) ∈
        (apply_snapshot ipt initState tagsS epsS).endpoint_ids_by_profile_id
      ↔ (p, x) ∈
        (replay ipt initState msgs).endpoint_ids_by_profile_id) ∧
    (∀ T ip, ip ∈ membersOfTag (apply_snapshot ipt initState tagsS epsS) T
      ↔ ip ∈ membersOfTag (replay ipt initState msgs) T) ∧
    (∀ s0 : MState, ∀ p, p ∈ missingProfileIds s0 tagsS ↔
      p ∈ s0.tags_by_prof_id.map Prod.fst ∧ dlookup p tagsS = none) ∧
    (∀ s0 : MState, ∀ x, x ∈ missingEndpointIds s0 epsS ↔
      x ∈ s0.endpoints_by_ep_id.map Prod.fst ∧ dlookup x epsS = none) := by
  have hsnap := apply_snapshot_init ipt tagsS epsS
  have htagsA : ∀ p, dlookup p
      (apply_snapshot ipt initState tagsS epsS).tags_by_prof_id =
      dlookup p (replay ipt initState msgs).tags_by_prof_id := by
    intro p
    rw [hsnap, eps_fold_tags, snap_tags_fold_lookup ipt tagsS hndT]
    rw [show dlookup p (initState.tags_by_prof_id) =
      (none : Option (List String)) from rfl]
    rw [Option.or_none]
    exact ht p
  have hepsA : ∀ x, dlookup x
      (apply_snapshot ipt initState tagsS epsS).endpoints_by_ep_id =
      dlookup x (replay ipt initState msgs).endpoints_by_ep_id := by
    intro x
    rw [hsnap, snap_eps_fold_lookup ipt epsS hndE, tags_fold_endpoints]
    rw [show dlookup x (initState.endpoints_by_ep_id) =
      (none : Option Endpoint) from rfl]
    rw [Option.or_none]
    exact he x
  have hInvA : Invariants ipt (apply_snapshot ipt initState tagsS epsS) := by
    rw [hsnap]
    exact invariants_foldl ipt _
      (fun st kv h => invariants_on_endpoint_update ipt st kv.1
        (some kv.2) h) epsS _
      (invariants_foldl ipt _
        (fun st kv h => invariants_on_tags_update ipt st kv.1
          (some kv.2) h) tagsS initState (invariants_initState ipt))
  have hInvB : Invariants ipt (replay ipt initState msgs) :=
    invariants_replay ipt msgs initState (invariants_initState ipt)
  have hOwn : ∀ q : OwnerEntry,
      q ∈ (apply_snapshot ipt initState tagsS epsS).ip_owners_by_tag ↔
        q ∈ (replay ipt initState msgs).ip_owners_by_tag := by
    intro q
    rw [hInvA.1 q, hInvB.1 q]
    exact ownersSpec_ext ipt _ _ hepsA htagsA q
  refine ⟨htagsA, hepsA, hOwn, ?_, ?_, ?_, ?_⟩
  · intro p x
    rw [hInvA.2 p x, hInvB.2 p x]
    simp only [hepsA]
  · intro T ip
    rw [mem_membersOfTag, mem_membersOfTag]
    constructor
    · rintro ⟨p, e, hq⟩
      exact ⟨p, e, (hOwn (T, ip, p, e)).mp hq⟩
    · rintro ⟨p, e, hq⟩
      exact ⟨p, e, (hOwn (T, ip, p, e)).mpr hq⟩
  · intro s0 p
    simp [missingProfileIds, List.mem_filter, Option.isNone_iff_eq_none]
  · intro s0 x
    simp [missingEndpointIds, List.mem_filter, Option.isNone_iff_eq_none]

theorem C2_snapshot_equivalence_witness :
    ((([("prof", ["t1"])] : List (String × List String)).map
      Prod.fst).Nodup) ∧
    ((([] : List (String × Endpoint)).map Prod.fst).Nodup) ∧
    ((∀ p, dlookup p
        (apply_snapshot IpType.v4 initState [("prof", ["t1"])]
          []).tags_by_prof_id =
      dlookup p (replay IpType.v4 initState
        [Msg.tagsUpdate "prof" (some ["t1"])]).tags_by_prof_id) ∧
    (∀ x, dlookup x
        (apply_snapshot IpType.v4 initState [("prof", ["t1"])]
          []).endpoints_by_ep_id =
      dlookup x (replay IpType.v4 initState
        [Msg.tagsUpdate "prof" (some ["t1"])]).endpoints_by_ep_id) ∧
    (∀ q : OwnerEntry,
      q ∈ (apply_snapshot IpType.v4 initState [("prof", ["t1"])]
          []).ip_owners_by_tag ↔
        q ∈ (replay IpType.v4 initState
          [Msg.tagsUpdate "prof" (some ["t1"])]).ip_owners_by_tag) ∧
    (∀ p x, (p, x) ∈
        (apply_snapshot IpType.v4 initState [("prof", ["t1"])]
          []).endpoint_ids_by_profile_id
      ↔ (p, x) ∈
        (replay IpType.v4 initState
          [Msg.tagsUpdate "prof" (some ["t1"])]).endpoint_ids_by_profile_id)
      ∧
    (∀ T ip, ip ∈ membersOfTag
        (apply_snapshot IpType.v4 initState [("prof", ["t1"])] []) T
      ↔ ip ∈ membersOfTag (replay IpType.v4 initState
          [Msg.tagsUpdate "prof" (some ["t1"])]) T) ∧
    (∀ s0 : MState, ∀ p, p ∈ missingProfileIds s0 [("prof", ["t1"])] ↔
      p ∈ s0.tags_by_prof_id.map Prod.fst ∧
        dlookup p [("prof", ["t1"])] = none) ∧
    (∀ s0 : MState, ∀ x,
      x ∈ missingEndpointIds s0 ([] : List (String × Endpoint)) ↔
      x ∈ s0.endpoints_by_ep_id.map Prod.fst ∧
        dlookup x ([] : List (String × Endpoint)) = none)) :=
  ⟨by decide, by decide,
   C2_snapshot_equivalence IpType.v4 [Msg.tagsUpdate "prof" (some ["t1"])]
     [("prof", ["t1"])] [] (by decide) (by decide)
     (fun p => rfl) (fun x => rfl)⟩

end Calico
